import Mathlib

/-!
Verification of nickbryan/go-template.

The namespace `Money` is a shallow embedding of the `money` package
(`service/app/money/money.go`); the namespace `Rest` embeds the HTTP
transport (`service/transport/rest`), the validator wrapper
(`service/app/validator.go`) and the customer create handler over an explicit
history of effects.  All definitions come first, the theorems follow.

In `Money`:

* An `Amount` is a Go `int64`; it is embedded as an `Int` together with the
  range predicate `IsInt64`, and arithmetic that can overflow goes through
  `wrap64` (two's-complement wrap-around).
* Go's `int` is taken to be 64 bits wide (every 64-bit platform), so the
  conversions `int(x)` applied to an `Amount` are the identity.
* A Go `string` is embedded as the list of its runes (`List Char`).  Byte
  offsets, where the source uses them (`for i, r := range s`, `len(s)`), are
  computed from the UTF-8 width of each rune.
* A finite `float64` is embedded exactly, as an integer times a power of two;
  the operations round the exact result to the nearest value, ties to even.

In `Rest`:

* A Go `string` is a Lean `String`; `len(s)` is its length in bytes.
* A Go `error` is never nil and is identified with its text.
* The libraries the code calls (`net/http`, `gorilla/mux`, `gabs`, `zap`,
  `ozzo-validation`, `encoding/json`, `bcrypt`, `uuid`) are modelled from
  their documented behaviour where the result is determined, and taken as
  parameters where it is not.
-/

namespace Money

/-! ## Machine integers -/

/-- The value of `math.MaxInt64`. -/
def MaxInt64 : Int := 9223372036854775807

/-- The value of `math.MinInt64`. -/
def MinInt64 : Int := -9223372036854775808

/-- The values an `int64` can hold. -/
def IsInt64 (x : Int) : Prop := MinInt64 ≤ x ∧ x ≤ MaxInt64

instance (x : Int) : Decidable (IsInt64 x) := by
  unfold IsInt64; exact inferInstance

/-- Two's-complement wrap-around of a mathematical integer into `int64`. -/
def wrap64 (x : Int) : Int := (x + 9223372036854775808) % 18446744073709551616 - 9223372036854775808

/-! ## The `Amount` type and its constants (money.go, lines 11-28) -/

/-- The Go type `Amount` (`type Amount int64`). -/
abbrev Amount := Int

/-- The constant `MaxAmount Amount = math.MaxInt64`. -/
def MaxAmount : Amount := MaxInt64

/-- The constant `MinAmount Amount = math.MinInt64`. -/
def MinAmount : Amount := MinInt64

/-- The constant `Penny Amount = 1`. -/
def Penny : Amount := 1

/-- The constant `Pound = 100 * Penny`. -/
def Pound : Amount := 100 * Penny

/-! ## Constructors and comparisons (money.go, lines 30-63) -/

/-- The function `FromPence`: `return Amount(pence)`. -/
def FromPence (pence : Int) : Amount := pence

/-- The function `Zero`: `return Amount(0)`. -/
def Zero : Amount := 0

/-- The function `Max`: `if a > b { return a }; return b`. -/
def Max (a b : Amount) : Amount := if a > b then a else b

/-- The function `Min`: `if a < b { return a }; return b`. -/
def Min (a b : Amount) : Amount := if a < b then a else b

/-- The method `Amount.Pence`: `return int64(a)`. -/
def Amount.Pence (a : Amount) : Int := a

/-! ## `strconv.Itoa` (Go standard library)

`strconv.Itoa(i)` is `strconv.FormatInt(int64(i), 10)`: the decimal digits of
the magnitude, most significant first, with a leading `-` for a negative
value. -/

/-- Decimal digits of `n`, most significant first; `fuel` bounds the number
of digits produced. -/
def formatDecFuel : Nat → Nat → List Char
  | 0, _ => []
  | fuel + 1, n =>
    if n < 10 then [Nat.digitChar n]
    else formatDecFuel fuel (n / 10) ++ [Nat.digitChar (n % 10)]

/-- Decimal text of a natural number (`strconv.FormatUint(n, 10)`). -/
def formatDec (n : Nat) : List Char := formatDecFuel (n + 1) n

/-- The function `strconv.Itoa`. -/
def Itoa (i : Int) : List Char :=
  if i < 0 then '-' :: formatDec (-i).toNat else formatDec i.toNat

/-! ## `Amount.String` and its helpers (money.go, lines 65-112) -/

/-- The function `reverse`: `for _, v := range s { result = string(v) + result }`. -/
def reverse (s : List Char) : List Char :=
  s.foldl (fun result v => v :: result) []

/-- The number of bytes of a string (`len(s)`). -/
def byteLen (s : List Char) : Nat := (s.map Char.utf8Size).sum

/-- One iteration of the loop of `fmtCommas`; the state is the byte offset `i`
of the current rune and the buffer written so far. -/
def fmtCommasStep (n n1 l1 : Int) (st : Nat × List Char) (r : Char) : Nat × List Char :=
  let buffer := st.2 ++ [r]
  let buffer := if (st.1 : Int) % n = n1 ∧ (st.1 : Int) ≠ l1 then buffer ++ [','] else buffer
  (st.1 + r.utf8Size, buffer)

/-- The function `fmtCommas`. -/
def fmtCommas (s : List Char) : List Char :=
  let s := reverse s
  let n : Int := 3
  let n1 : Int := n - 1
  let l1 : Int := (byteLen s : Int) - 1
  let buffer := (s.foldl (fmtCommasStep n n1 l1) (0, [])).2
  reverse buffer

/-- The method `Amount.String`.  The branch `if amt < 0 { amt = -amt; neg = "-" }`
sets both `neg` and the working copy `amt`; the negation wraps around like
every `int64` operation.  `fmt.Sprintf("%s£%s.%s", ...)` is the concatenation
of its three string arguments around `£` and `.`. -/
def Amount.String (a : Amount) : List Char :=
  let neg : List Char := if a < 0 then ['-'] else []
  let amt : Amount := if a < 0 then wrap64 (-a) else a
  let endNum : Amount := Int.tmod amt Pound
  let end_ : List Char := if endNum > 0 then Itoa endNum else ['0', '0']
  let start := Itoa (Int.tdiv (wrap64 (amt - endNum)) Pound)
  neg ++ ['£'] ++ fmtCommas start ++ ['.'] ++ end_

/-! ## `Amount.Pounds` (money.go, lines 119-125)

The operations of `float64` the method uses are parameters of the
embedding, and the integer part of the computation is translated exactly.
The section on the `float64` operations below gives their exact model,
`binary64`. -/

/-- The `float64` operations used by `Amount.Pounds`. -/
structure Float64Ops (F : Type) where
  /-- The conversion `float64(x)` of an `Amount`. -/
  ofAmount : Amount → F
  /-- The `float64` constant `100`. -/
  hundred : F
  /-- The `float64` addition. -/
  add : F → F → F
  /-- The `float64` division. -/
  div : F → F → F

/-- The method `Amount.Pounds`:
`pounds := a / Pound; pence := a % Pound; return float64(pounds) + float64(pence)/100`. -/
def Amount.Pounds {F : Type} (ops : Float64Ops F) (a : Amount) : F :=
  let pounds := Int.tdiv a Pound
  let pence := Int.tmod a Pound
  ops.add (ops.ofAmount pounds) (ops.div (ops.ofAmount pence) ops.hundred)

/-! ## `strconv.ParseInt(s, 10, 64)` (Go standard library) -/

/-- The value of `math.MaxUint64`. -/
def MaxUint64 : Nat := 18446744073709551615

/-- The digit loop of `strconv.ParseUint(s, 10, 64)`; `none` is a `*NumError`
(`ErrSyntax` for a byte that is not a digit, `ErrRange` on overflow). -/
def parseUintLoop : List Char → Nat → Option Nat
  | [], n => some n
  | c :: cs, n =>
    if '0' ≤ c ∧ c ≤ '9' then
      let d := c.toNat - '0'.toNat
      if n ≥ MaxUint64 / 10 + 1 then none
      else
        let n1 := n * 10 + d
        if n1 > MaxUint64 then none else parseUintLoop cs n1
    else none

/-- The function `strconv.ParseUint(s, 10, 64)`. -/
def ParseUint (s : List Char) : Option Nat :=
  if s = [] then none else parseUintLoop s 0

/-- The function `strconv.ParseInt(s, 10, 64)`; `none` is a `*NumError`. -/
def ParseInt (s : List Char) : Option Int :=
  match s with
  | [] => none
  | c :: cs =>
    let neg := decide (c = '-')
    let s1 := if c = '+' ∨ c = '-' then cs else c :: cs
    match ParseUint s1 with
    | none => none
    | some un =>
      let cutoff : Nat := 9223372036854775808
      if ¬ neg ∧ un ≥ cutoff then none
      else if neg ∧ un > cutoff then none
      else
        let n := wrap64 un
        some (if neg then wrap64 (-n) else n)

/-! ## `encoding/json` on an `int64` (Go standard library)

A payload (`[]byte`) is embedded as the list of its bytes, each written as a
`Char`; every byte the decoder accepts is ASCII.

`json.Marshal(v)` of an `int64` appends `strconv.FormatInt(v, 10)` and never
fails.  `json.Unmarshal(data, &v)` with `v` an `int64` first runs the scanner
over the whole text (`checkValid`) and then stores the top-level value:
a number is stored through `strconv.ParseInt`, the literal `null` leaves `v`
as it is (the package documents that unmarshaling a JSON null into a Go type
other than an interface, map, pointer or slice "has no effect on the value
and produces no error"), and a value of any other kind is an
`*UnmarshalTypeError`.

The scanner is modelled on the texts whose top-level value is a number or
`null`.  A text whose top-level value opens with `{`, `[`, `"`, `t` or `f`
makes `json.Unmarshal` return an error whatever follows (a `*SyntaxError` for
an invalid text, an `*UnmarshalTypeError` for a valid one); the scanner state
`otherKind` stands for both.  Errors are not told apart: the callers in this
package only test `err != nil`. -/

/-- The function `isSpace` of the scanner. -/
def isSpace (c : Char) : Bool := c = ' ' || c = '\t' || c = '\r' || c = '\n'

/-- The step functions of the scanner at the top level (`scanner.step`). -/
inductive ScanState
  | beginValue | neg | zero | one | dot | dot0 | e | eSign | e0
  | n | nu | nul | endValue | endTop | otherKind | error
  deriving DecidableEq, Repr

/-- The step function `stateEndTop`. -/
def stateEndTop (c : Char) : ScanState :=
  if isSpace c then ScanState.endTop else ScanState.error

/-- The step function `stateEndValue` with an empty parse stack. -/
def stateEndValue (c : Char) : ScanState := stateEndTop c

/-- The step function `state0`. -/
def state0 (c : Char) : ScanState :=
  if c = '.' then ScanState.dot
  else if c = 'e' ∨ c = 'E' then ScanState.e
  else stateEndValue c

/-- The step function `stateESign`. -/
def stateESign (c : Char) : ScanState :=
  if '0' ≤ c ∧ c ≤ '9' then ScanState.e0 else ScanState.error

/-- One byte through the scanner: `scan.step(scan, c)`. -/
def scanStep : ScanState → Char → ScanState
  | ScanState.beginValue, c =>
    if isSpace c then ScanState.beginValue
    else if c = '{' ∨ c = '[' ∨ c = '"' ∨ c = 't' ∨ c = 'f' then ScanState.otherKind
    else if c = '-' then ScanState.neg
    else if c = '0' then ScanState.zero
    else if c = 'n' then ScanState.n
    else if '1' ≤ c ∧ c ≤ '9' then ScanState.one
    else ScanState.error
  | ScanState.neg, c =>
    if c = '0' then ScanState.zero
    else if '1' ≤ c ∧ c ≤ '9' then ScanState.one
    else ScanState.error
  | ScanState.one, c => if '0' ≤ c ∧ c ≤ '9' then ScanState.one else state0 c
  | ScanState.zero, c => state0 c
  | ScanState.dot, c => if '0' ≤ c ∧ c ≤ '9' then ScanState.dot0 else ScanState.error
  | ScanState.dot0, c =>
    if '0' ≤ c ∧ c ≤ '9' then ScanState.dot0
    else if c = 'e' ∨ c = 'E' then ScanState.e
    else stateEndValue c
  | ScanState.e, c => if c = '+' ∨ c = '-' then ScanState.eSign else stateESign c
  | ScanState.eSign, c => stateESign c
  | ScanState.e0, c => if '0' ≤ c ∧ c ≤ '9' then ScanState.e0 else stateEndValue c
  | ScanState.n, c => if c = 'u' then ScanState.nu else ScanState.error
  | ScanState.nu, c => if c = 'l' then ScanState.nul else ScanState.error
  | ScanState.nul, c => if c = 'l' then ScanState.endValue else ScanState.error
  | ScanState.endValue, c => stateEndValue c
  | ScanState.endTop, c => stateEndTop c
  | ScanState.otherKind, _ => ScanState.otherKind
  | ScanState.error, _ => ScanState.error

/-- The method `scanner.eof`: whether the text read so far is a complete
value. -/
def scanEOF (st : ScanState) : Bool :=
  if st = ScanState.error ∨ st = ScanState.otherKind then false
  else if st = ScanState.endTop then true
  else decide (scanStep st ' ' = ScanState.endTop)

/-- The function `checkValid`: the scanner run over the whole text. -/
def checkValid (data : List Char) : Bool :=
  scanEOF (data.foldl scanStep ScanState.beginValue)

/-- The bytes a number literal is rescanned over (`decodeState.rescanLiteral`). -/
def isNumberByte (c : Char) : Bool :=
  ('0' ≤ c ∧ c ≤ '9') || c = '.' || c = 'e' || c = 'E' || c = '+' || c = '-'

/-- The function `json.Unmarshal(data, &v)` for `v` an `int64` holding `v`:
`some` of the value stored in `v` when the error is nil, `none` when it is
not. -/
def jsonUnmarshalInt64 (data : List Char) (v : Int) : Option Int :=
  if ¬ checkValid data then none
  else
    match data.dropWhile isSpace with
    | [] => none
    | c :: rest =>
      if c = 'n' then some v
      else if c = '-' ∨ ('0' ≤ c ∧ c ≤ '9') then
        let item := c :: rest.takeWhile isNumberByte
        match ParseInt item with
        | none => none
        | some n => if IsInt64 n then some n else none
      else none

/-- The function `json.Marshal(v)` for `v` an `int64`; the error is always nil. -/
def jsonMarshalInt64 (v : Int) : List Char := Itoa v

/-! ## The JSON codec of `Amount` (money.go, lines 147-164) -/

/-- A non-nil Go `error`. -/
inductive GoError
  | unmarshalToInt64
  deriving DecidableEq, Repr

/-- The method `Amount.MarshalJSON`: `return json.Marshal(a.Pence())`. -/
def Amount.MarshalJSON (a : Amount) : List Char × Option GoError :=
  (jsonMarshalInt64 (Amount.Pence a), none)

/-- The method `Amount.UnmarshalJSON` on a receiver holding `a`: the value of
the receiver afterwards and the error returned. -/
def Amount.UnmarshalJSON (a : Amount) (b : List Char) : Amount × Option GoError :=
  let v : Int := 0
  match jsonUnmarshalInt64 b v with
  | none => (a, some GoError.unmarshalToInt64)
  | some v => (FromPence v, none)

/-! ## JSON texts, stated independently of the decoder

The grammar of a JSON integer is `-?(0|[1-9][0-9]*)`; a JSON text is one
value with optional whitespace before and after it. -/

/-- The number a string of decimal digits denotes. -/
def decValue (ds : List Char) : Nat :=
  ds.foldl (fun acc c => acc * 10 + (c.toNat - '0'.toNat)) 0

/-- The single token of a text: what stands between the leading whitespace
and the next whitespace, provided only whitespace follows it. -/
def jsonToken (b : List Char) : Option (List Char) :=
  let body := b.dropWhile isSpace
  if (body.dropWhile (fun c => !isSpace c)).all isSpace
  then some (body.takeWhile (fun c => !isSpace c)) else none

/-- The grammar `0|[1-9][0-9]*`. -/
def isNatLiteral : List Char → Bool
  | [] => false
  | c :: cs =>
    if c = '0' then cs.isEmpty
    else decide ('1' ≤ c ∧ c ≤ '9') && cs.all (fun x => decide ('0' ≤ x ∧ x ≤ '9'))

/-- The grammar `-?(0|[1-9][0-9]*)`. -/
def isIntegerLiteral : List Char → Bool
  | [] => false
  | c :: cs => if c = '-' then isNatLiteral cs else isNatLiteral (c :: cs)

/-- The integer an integer literal denotes. -/
def literalValue : List Char → Int
  | [] => 0
  | c :: cs => if c = '-' then -(decValue cs : Int) else (decValue (c :: cs) : Int)

/-- An integer JSON number that fits an `int64`, with optional whitespace
around it. -/
def isIntegerJSON (b : List Char) : Bool :=
  match jsonToken b with
  | none => false
  | some tok => isIntegerLiteral tok && decide (IsInt64 (literalValue tok))

/-- The JSON literal `null`, with optional whitespace around it. -/
def isNullJSON (b : List Char) : Bool :=
  decide (jsonToken b = some ['n', 'u', 'l', 'l'])

/-! ## The parts of a rendered amount, stated independently of `String` -/

/-- The text after the first `.` of a rendered amount. -/
def fractionText (s : List Char) : List Char :=
  (s.dropWhile (fun c => c ≠ '.')).tail

/-- The text between the first `£` and the next `.` of a rendered amount. -/
def integerText (s : List Char) : List Char :=
  ((s.dropWhile (fun c => c ≠ '£')).tail).takeWhile (fun c => c ≠ '.')

/-- A text padded with `0` on the left to a width of two. -/
def zeroPad2 (t : List Char) : List Char :=
  List.replicate (2 - t.length) '0' ++ t

/-- Reference grouping of a reversed text: a comma after every third rune
that is followed by another one. -/
def groupRev : List Char → List Char
  | a :: b :: c :: d :: rest => a :: b :: c :: ',' :: groupRev (d :: rest)
  | l => l

/-- The text `t` is the text `ds` cut into a first group of one to three
runes and further groups of exactly three, with a comma before each further
group. -/
def IsGroupedBy3 (t ds : List Char) : Prop :=
  ∃ (first : List Char) (groups : List (List Char)),
    1 ≤ first.length ∧ first.length ≤ 3 ∧ (∀ g ∈ groups, g.length = 3) ∧
    ds = first ++ groups.flatten ∧
    t = first ++ (groups.map (fun g => ',' :: g)).flatten

/-! ## The `float64` operations (IEEE 754 binary64)

A finite `float64` value is embedded exactly, as an integer times a power of
two; every operation computes the exact result and rounds it to the nearest
value of the format, ties to even.  The sign of a zero is not kept (it has
no bearing on a conversion to an integer or on a comparison).  An operation
whose result is not finite, or a conversion to `int64` of a value outside
its range, whose result the language leaves to the implementation, yields
`none`. -/

/-- A finite `float64` value `mant * 2 ^ exp` in its canonical form: `mant`
has 53 bits and `exp` is at least -1074, or `mant` has fewer bits and `exp`
is -1074 (a subnormal value), or both are zero. -/
structure Float64 where
  mant : Int
  exp : Int
  deriving DecidableEq, Repr

/-- The number of halvings that bring `n` below 2; `fuel` bounds their
number. -/
def log2Fuel : Nat → Nat → Nat
  | 0, _ => 0
  | fuel + 1, n => if n < 2 then 0 else log2Fuel fuel (n / 2) + 1

/-- The position of the leading bit of `n`, the integer part of its binary
logarithm (0 for `n = 0`). -/
def floorLog2 (n : Nat) : Nat := log2Fuel n n

/-- The fraction `a / (d * 2 ^ e)` as a pair of numerator and denominator. -/
def scaleQuot (a d : Nat) (e : Int) : Nat × Nat :=
  if e ≥ 0 then (a, d * 2 ^ e.toNat) else (a * 2 ^ (-e).toNat, d)

/-- The `float64` nearest to the rational `n / d`, ties to even; `none` when
`d` is zero or the result is infinite. -/
def roundToFloat64 (n : Int) (d : Nat) : Option Float64 :=
  if d = 0 then none
  else if n = 0 then some ⟨0, 0⟩
  else
    let a := n.natAbs
    let k : Int := (floorLog2 a : Int) - (floorLog2 d : Int)
    let s0 := scaleQuot a d (k - 52)
    let e1 : Int := if s0.1 / s0.2 < 2 ^ 52 then k - 53 else k - 52
    let e : Int := if e1 < -1074 then -1074 else e1
    let s := scaleQuot a d e
    let q := s.1 / s.2
    let r := s.1 % s.2
    let q1 := if 2 * r > s.2 ∨ (2 * r = s.2 ∧ q % 2 = 1) then q + 1 else q
    let m := if q1 = 2 ^ 53 then 2 ^ 52 else q1
    let e2 := if q1 = 2 ^ 53 then e + 1 else e
    if e2 > 971 then none
    else if m = 0 then some ⟨0, 0⟩
    else some ⟨if n < 0 then -(m : Int) else (m : Int), e2⟩

/-- The `float64` nearest to `num * 2 ^ e`. -/
def roundDyadic (num e : Int) : Option Float64 :=
  if e ≥ 0 then roundToFloat64 (num * 2 ^ e.toNat) 1 else roundToFloat64 num (2 ^ (-e).toNat)

/-- The conversion `float64(x)` of an integer. -/
def Float64.ofInt (x : Int) : Option Float64 := roundToFloat64 x 1

/-- The `float64` addition. -/
def Float64.add (x y : Float64) : Option Float64 :=
  let e := min x.exp y.exp
  roundDyadic (x.mant * 2 ^ (x.exp - e).toNat + y.mant * 2 ^ (y.exp - e).toNat) e

/-- The `float64` multiplication. -/
def Float64.mul (x y : Float64) : Option Float64 :=
  roundDyadic (x.mant * y.mant) (x.exp + y.exp)

/-- The `float64` division; a division by zero has no finite result. -/
def Float64.div (x y : Float64) : Option Float64 :=
  if y.mant = 0 then none
  else
    let n := (if y.mant < 0 then -x.mant else x.mant) * 2 ^ (x.exp - y.exp).toNat
    let d := y.mant.natAbs * 2 ^ (y.exp - x.exp).toNat
    roundToFloat64 n d

/-- The function `math.Floor`. -/
def Float64.floor (x : Float64) : Option Float64 :=
  if x.exp ≥ 0 then some x else roundToFloat64 (Int.fdiv x.mant (2 ^ (-x.exp).toNat)) 1

/-- The function `math.Ceil`. -/
def Float64.ceil (x : Float64) : Option Float64 :=
  if x.exp ≥ 0 then some x else roundToFloat64 (-(Int.fdiv (-x.mant) (2 ^ (-x.exp).toNat))) 1

/-- The comparison `x <= y` of two `float64` values. -/
def Float64.le (x y : Float64) : Bool :=
  let e := min x.exp y.exp
  decide (x.mant * 2 ^ (x.exp - e).toNat ≤ y.mant * 2 ^ (y.exp - e).toNat)

/-- The conversion `Amount(x)` of a `float64`: the fraction is discarded;
`none` when the value is outside the range of `int64`. -/
def Float64.toAmount (x : Float64) : Option Amount :=
  let v : Int := if x.exp ≥ 0 then x.mant * 2 ^ x.exp.toNat else Int.tdiv x.mant (2 ^ (-x.exp).toNat)
  if IsInt64 v then some v else none

/-- The `float64` operations of `Amount.Pounds`, exactly. -/
def binary64 : Float64Ops (Option Float64) :=
  { ofAmount := fun a => Float64.ofInt a
    hundred := Float64.ofInt 100
    add := fun x y => x.bind (fun x1 => y.bind (fun y1 => Float64.add x1 y1))
    div := fun x y => x.bind (fun x1 => y.bind (fun y1 => Float64.div x1 y1)) }

/-- The function `FromPounds`: `return Amount(pounds * penniesInPound)`. -/
def FromPounds (pounds : Float64) : Option Amount :=
  (Float64.ofInt 100).bind (fun penniesInPound =>
    (Float64.mul pounds penniesInPound).bind Float64.toAmount)

/-- The method `Amount.Ceil`: `return FromPounds(math.Ceil(a.Pounds()))`. -/
def Amount.Ceil (a : Amount) : Option Amount :=
  (Amount.Pounds binary64 a).bind (fun p => (Float64.ceil p).bind FromPounds)

/-- The method `Amount.Floor`: `return FromPounds(math.Floor(a.Pounds()))`. -/
def Amount.Floor (a : Amount) : Option Amount :=
  (Amount.Pounds binary64 a).bind (fun p => (Float64.floor p).bind FromPounds)

end Money

namespace Rest

/-! ## The `rest` transport layer: Go values and effects

The packages `service/transport/rest`, `service/app` (validator) and
`service/transport/rest/customers` are embedded over an explicit history of
effects: every call on the `http.ResponseWriter`, on the logger and on the
customer repository appends an `Event`.  A Go computation is a function from
the history so far to an `Outcome` (a returned value or a panic) and the
extended history. -/

/-- A non-nil Go `error`, identified with the text its `Error()` method
returns. -/
structure Err where
  text : String
  deriving DecidableEq, Repr

/-- The function `errors.New`. -/
def errorsNew (text : String) : Err := ⟨text⟩

/-- The value `recover()` returns while a panic unwinds: a string, an error,
a value of another type, or nil.  Nil is what `panic(nil)` leaves for
`recover()` under the semantics in force for modules older than Go 1.21. -/
inductive PanicValue
  | nil
  | str (s : String)
  | err (e : Err)
  | other (tag : Nat)
  deriving DecidableEq, Repr

/-- How a call ends: it returns a value or it panics. -/
inductive Outcome (α : Type)
  | ret (a : α)
  | panic (v : PanicValue)
  deriving DecidableEq, Repr

/-- The type `validation.Errors` (`map[string]error`), as an association
list from field name to error. -/
abbrev Errors := List (String × Err)

/-- A Go value handed to the JSON encoder: a string, a `validation.Errors`
(encoded by its `MarshalJSON` as the object of field names and messages), a
`map[string]interface{}`, or any other value together with the error
`json.Marshal` reports for it, if any. -/
inductive Value
  | str (s : String)
  | errors (es : Errors)
  | object (fields : List (String × Value))
  | other (id : Nat) (encodeErr : Option Err)
  deriving Repr

/-- The map assignment `m[k] = v`. -/
def assign {α : Type} (k : String) (v : α) : List (String × α) → List (String × α)
  | [] => [(k, v)]
  | (k1, v1) :: rest => if k1 = k then (k, v) :: rest else (k1, v1) :: assign k v rest

mutual
/-- The error `json.Marshal` reports for a value, if any. -/
def Value.encodeErr : Value → Option Err
  | Value.str _ => none
  | Value.errors _ => none
  | Value.object fs => encodeErrFields fs
  | Value.other _ e => e
/-- The error `json.Marshal` reports for the values of a map, if any. -/
def encodeErrFields : List (String × Value) → Option Err
  | [] => none
  | (_, v) :: rest =>
    match Value.encodeErr v with
    | some e => some e
    | none => encodeErrFields rest
end

/-- The type `customer.Customer` (domain/customer/customer.go). -/
structure Customer where
  id : Nat
  username : String
  passwordHash : String
  deriving DecidableEq, Repr

/-- The method `Customer.Username`. -/
def Customer.Username (c : Customer) : String := c.username

/-- A `zap.Field`: `zap.Error(err)` (key `error`) or `zap.Int(key, value)`. -/
inductive Field
  | error (e : Err)
  | int (key : String) (value : Int)
  deriving DecidableEq, Repr

/-- The levels of the logger. -/
inductive Level
  | debug | info | warn | error
  deriving DecidableEq, Repr

/-- An entry written by the `zap.Logger`. -/
structure LogEntry where
  level : Level
  message : String
  fields : List Field
  deriving DecidableEq, Repr

/-- An effect of the transport layer.  `writeHeader` stands for every call
of `WriteHeader` that returns, superfluous ones included; `write` for the
bytes `json.NewEncoder(w).Encode(data)` writes: the JSON encoding of `data`
followed by a newline. -/
inductive Event
  | headerSet (key value : String)
  | writeHeader (code : Int)
  | write (data : Value)
  | log (entry : LogEntry)
  | findByUsername (username : String)
  | add (c : Option Customer)
  deriving Repr

/-- A Go computation over the history of effects. -/
abbrev Go (α : Type) := List Event → Outcome α × List Event

/-- A computation that returns at once. -/
def Go.pure {α : Type} (a : α) : Go α := fun t => (Outcome.ret a, t)

/-- Sequencing: a panic of the first computation skips the second. -/
def Go.bind {α β : Type} (m : Go α) (f : α → Go β) : Go β := fun t =>
  match m t with
  | (Outcome.ret a, t1) => f a t1
  | (Outcome.panic v, t1) => (Outcome.panic v, t1)

instance : Monad Go where
  pure := Go.pure
  bind := Go.bind

/-- The statement `panic(v)`. -/
def goPanic {α : Type} (v : PanicValue) : Go α := fun t => (Outcome.panic v, t)

/-- One effect appended to the history. -/
def emit (e : Event) : Go Unit := fun t => (Outcome.ret (), t ++ [e])

/-! ## The `http.ResponseWriter`

The writer is the one the tests of the repository use,
`httptest.ResponseRecorder`: the first `WriteHeader` fixes the status code
and takes a snapshot of the header map, later calls are ignored, a `Write`
before any `WriteHeader` implies status 200, and `WriteHeader` panics on a
code outside 100..999 (`checkWriteHeaderCode`).  The server's own writer in
`net/http` treats repeated calls the same way. -/

/-- What the recorder shows of a response. -/
structure Response where
  wroteHeader : Bool
  code : Int
  headerMap : List (String × String)
  sentHeader : List (String × String)
  body : List Value

/-- The recorder `httptest.NewRecorder()` returns. -/
def Response.init : Response :=
  { wroteHeader := false, code := 200, headerMap := [], sentHeader := [], body := [] }

/-- The effect of one event on the recorder. -/
def Response.step (r : Response) : Event → Response
  | Event.headerSet k v => { r with headerMap := assign k v r.headerMap }
  | Event.writeHeader c =>
    if r.wroteHeader then r
    else { r with wroteHeader := true, code := c, sentHeader := r.headerMap }
  | Event.write d =>
    if r.wroteHeader then { r with body := r.body ++ [d] }
    else { r with wroteHeader := true, code := 200, sentHeader := r.headerMap,
                  body := r.body ++ [d] }
  | _ => r

/-- The response a history of effects amounts to. -/
def response (t : List Event) : Response := t.foldl Response.step Response.init

/-- The entries a history holds in the log, oldest first. -/
def logsOf (t : List Event) : List LogEntry :=
  t.filterMap (fun e => match e with
    | Event.log entry => some entry
    | _ => none)

/-- The arguments of the calls of `Repository.Add` in a history. -/
def addCalls (t : List Event) : List (Option Customer) :=
  t.filterMap (fun e => match e with
    | Event.add c => some c
    | _ => none)

/-- The arguments of the calls of `Repository.FindByUsername` in a history. -/
def findCalls (t : List Event) : List String :=
  t.filterMap (fun e => match e with
    | Event.findByUsername u => some u
    | _ => none)

/-- The call `w.Header().Set(key, value)`. -/
def headerSet (key value : String) : Go Unit := emit (Event.headerSet key value)

/-- The call `w.WriteHeader(code)`. -/
def WriteHeader (code : Int) : Go Unit := fun t =>
  if (response t).wroteHeader then (Outcome.ret (), t ++ [Event.writeHeader code])
  else if code < 100 ∨ code > 999 then
    (Outcome.panic (PanicValue.str ("invalid WriteHeader code " ++ toString code)), t)
  else (Outcome.ret (), t ++ [Event.writeHeader code])

/-- The call `json.NewEncoder(w).Encode(data)`: nothing is written when the
value cannot be encoded. -/
def jsonEncode (data : Value) : Go (Option Err) := fun t =>
  match data.encodeErr with
  | some e => (Outcome.ret (some e), t)
  | none => (Outcome.ret none, t ++ [Event.write data])

/-- The call `logger.Error(msg, fields...)`. -/
def logError (message : String) (fields : List Field) : Go Unit :=
  emit (Event.log { level := Level.error, message := message, fields := fields })

/-! ## `gabs` containers -/

/-- The error `gabs.ErrPathCollision`. -/
def ErrPathCollision : Err := errorsNew "encountered value collision whilst building path"

/-- The method `Container.Set(value, path...)` on the object of a container:
the object afterwards, or `none` for `ErrPathCollision`.  `SetP(value, p)` is
`Set` on the segments of `p` between the dots. -/
def gabsSet (value : Value) : List String → Value → Option Value
  | [], _ => some value
  | k :: rest, obj =>
    match obj with
    | Value.object fs =>
      if rest = [] then some (Value.object (assign k value fs))
      else
        let child := match fs.lookup k with
          | some c => c
          | none => Value.object []
        match gabsSet value rest child with
        | some c => some (Value.object (assign k c fs))
        | none => none
    | _ => none

/-- The container `gabs.New()`. -/
def gabsNew : Value := Value.object []

/-! ## The responder (response.go) -/

/-- The status `http.StatusInternalServerError`. -/
def StatusInternalServerError : Int := 500

/-- The status `http.StatusBadRequest`. -/
def StatusBadRequest : Int := 400

/-- The status `http.StatusNotFound`. -/
def StatusNotFound : Int := 404

/-- The status `http.StatusMethodNotAllowed`. -/
def StatusMethodNotAllowed : Int := 405

/-- The status `http.StatusCreated`. -/
def StatusCreated : Int := 201

/-- The method `responder.Respond`; `none` is the nil `data`. -/
def Respond (status : Int) (data : Option Value) : Go Unit := do
  headerSet "Content-Type" "application/json"
  WriteHeader status
  match data with
  | none => pure ()
  | some d =>
    match ← jsonEncode d with
    | some err =>
      logError "unable to encode response" [Field.error err]
      WriteHeader StatusInternalServerError
    | none => pure ()

/-- The method `responder.RespondError`. -/
def RespondError (status : Int) (err : Err) : Go Unit := do
  let body := gabsNew
  logError "responding application error" [Field.error err, Field.int "status_code" status]
  match gabsSet (Value.str err.text) ["error", "message"] body with
  | none =>
    logError "unable to set json body when responding error message"
      [Field.error ErrPathCollision]
    WriteHeader StatusInternalServerError
  | some body => Respond status (some body)

/-- The method `responder.RespondValidationFailed`. -/
def RespondValidationFailed (errors : Errors) : Go Unit := do
  let body := gabsNew
  match gabsSet (Value.str "request contains invalid fields") ["error", "message"] body with
  | none =>
    logError "unable to set json body when setting validation failed message"
      [Field.error ErrPathCollision]
    WriteHeader StatusInternalServerError
  | some body =>
    match gabsSet (Value.errors errors) ["error", "validation_errors"] body with
    | none =>
      logError "unable to set json body when responding validation failed errors"
        [Field.error ErrPathCollision]
      WriteHeader StatusInternalServerError
    | some body => Respond StatusBadRequest (some body)

/-! ## Requests and handlers (request.go, handler.go) -/

/-- The part of an `http.Request` the handlers read. -/
structure Request where
  method : String
  path : String
  body : String
  deriving DecidableEq, Repr

/-- The method `Request.Decode`; `decode` is `json.NewDecoder(r.Body).Decode`
into the destination at hand. -/
def Request.Decode {α : Type} (decode : String → Except Err α) (r : Request) : Except Err α :=
  match decode r.body with
  | Except.error err => Except.error ⟨"unable to decode request: " ++ err.text⟩
  | Except.ok v => Except.ok v

/-- The type `ServiceFunc`.  The `Responder` it receives is the writer and the
logger of the history it runs on. -/
abbrev ServiceFunc := Request → Go Unit

/-- The error `ErrUnknown`. -/
def ErrUnknown : Err := errorsNew "unknown error"

/-- The function `recoverPanicMiddleware`: the deferred function runs when
`next` has returned or panicked, and `recover()` ends the panic. -/
def recoverPanicMiddleware (next : ServiceFunc) : ServiceFunc := fun r t =>
  match next r t with
  | (Outcome.ret (), t1) => (Outcome.ret (), t1)
  | (Outcome.panic rec, t1) =>
    if rec ≠ PanicValue.nil then
      let err : Err :=
        match rec with
        | PanicValue.str e => errorsNew e
        | PanicValue.err e => e
        | _ => ErrUnknown
      (do
        WriteHeader StatusInternalServerError
        logError "application panicked" [Field.error err]) t1
    else (Outcome.ret (), t1)

/-- What a route of the router reports for a request (`mux.Route.Match`): it
matches, it matches but for the method, or it does not match. -/
inductive RouteResult
  | matched
  | methodMismatch
  | noMatch
  deriving DecidableEq, Repr

/-- The type `Handler`; `Route` stands for the route as the `Route` function
configures it. -/
structure Handler where
  Route : Request → RouteResult
  Middleware : Option (ServiceFunc → ServiceFunc)
  Func : ServiceFunc

/-- A route registered with the router and its HTTP callback. -/
structure MuxRoute where
  matcher : Request → RouteResult
  callback : Request → Go Unit

/-- The method `Handler.AddRoute`. -/
def Handler.AddRoute (h : Handler) (router : List MuxRoute) : List MuxRoute :=
  let fnc := h.Func
  let fnc := match h.Middleware with
    | some middleware => middleware fnc
    | none => fnc
  router ++ [{ matcher := h.Route, callback := fun r => recoverPanicMiddleware fnc r }]

/-! ## The server (server.go) -/

/-- The type `Server`: the routes of its router. -/
structure Server where
  router : List MuxRoute

/-- The `NotFoundHandler` that `NewServer` installs. -/
def notFoundHandler : Request → Go Unit := fun _ => do
  let msg := gabsNew
  match gabsSet (Value.str "resource not found") ["error", "message"] msg with
  | none =>
    logError ("set json path failed in not found handler: " ++ ErrPathCollision.text) []
    WriteHeader StatusInternalServerError
  | some msg => Respond StatusNotFound (some msg)

/-- The `MethodNotAllowedHandler` that `NewServer` installs. -/
def methodNotAllowedHandler : Request → Go Unit := fun r => do
  let msg := gabsNew
  match gabsSet (Value.str ("method " ++ r.method ++ " is not allowed")) ["error", "message"] msg
  with
  | none =>
    logError ("set json path failed in method not allowed handler: " ++ ErrPathCollision.text) []
    WriteHeader StatusInternalServerError
  | some msg => Respond StatusMethodNotAllowed (some msg)

/-- The function `NewServer`. -/
def NewServer : Server := { router := [] }

/-- The method `Server.RegisterHandlers`. -/
def Server.RegisterHandlers (s : Server) (handlers : List Handler) : Server :=
  { router := handlers.foldl (fun router h => h.AddRoute router) s.router }

/-- The outcome of `mux.Router.Match`: the callback of the first route that
matches, else the method-not-allowed handler when some route matched but for
the method, else the not-found handler. -/
def routerMatch : List MuxRoute → Bool → Request → Request → Go Unit
  | [], mismatch, _ => if mismatch then methodNotAllowedHandler else notFoundHandler
  | route :: rest, mismatch, r =>
    match route.matcher r with
    | RouteResult.matched => route.callback
    | RouteResult.methodMismatch => routerMatch rest true r
    | RouteResult.noMatch => routerMatch rest mismatch r

/-! ## Canonical paths (`path.Clean` and the `cleanPath` of `mux`)

The router is the one `mux.NewRouter()` returns: `SkipClean` is not set, so
`Router.ServeHTTP` first brings the path of the request to its canonical form
and answers a request whose path differs from it with a redirect.

A path is read as the list of its runes.  The bytes `/` and `.` that
`path.Clean` looks for are ASCII and occur in no other rune of a UTF-8 text,
and the lengths the function compares (`out.w` with `dotdot`, `0` and `1`)
are taken at the same places in runes as in bytes. -/

/-- The backtracking of `path.Clean` at a `..` element,
`out.w--; for out.w > dotdot && out.index(out.w) != '/' { out.w-- }`,
on the buffer written so far, last rune first: the head of the list is the
rune at index `out.w`. -/
def cleanBacktrack (dotdot : Nat) : List Char → List Char
  | [] => []
  | c :: rest => if rest.length > dotdot ∧ c ≠ '/' then cleanBacktrack dotdot rest else rest

/-- The loop `for r < n` of `path.Clean`: `rest` is `path[r:]`, `out` the
buffer written so far.  Every iteration moves `r` forward, so that a `fuel`
of `len(path)` iterations is never used up. -/
def cleanLoop (rooted : Bool) : Nat → List Char → List Char → Nat → List Char
  | 0, _, out, _ => out
  | fuel + 1, rest, out, dotdot =>
    match rest with
    | [] => out
    | c :: tl =>
      if c = '/' then cleanLoop rooted fuel tl out dotdot
      else if c = '.' ∧ (tl = [] ∨ tl.head? = some '/') then cleanLoop rooted fuel tl out dotdot
      else if c = '.' ∧ tl.head? = some '.' ∧ (tl.tail = [] ∨ tl.tail.head? = some '/') then
        if out.length > dotdot then
          cleanLoop rooted fuel tl.tail (cleanBacktrack dotdot out.reverse).reverse dotdot
        else if ¬ rooted then
          let out1 := (if out.length > 0 then out ++ ['/'] else out) ++ ['.', '.']
          cleanLoop rooted fuel tl.tail out1 out1.length
        else cleanLoop rooted fuel tl.tail out dotdot
      else
        let out1 :=
          if (rooted ∧ out.length ≠ 1) ∨ (¬ rooted ∧ out.length ≠ 0) then out ++ ['/'] else out
        cleanLoop rooted fuel (tl.dropWhile (fun x => x ≠ '/'))
          (out1 ++ c :: tl.takeWhile (fun x => x ≠ '/')) dotdot

/-- The function `path.Clean`. -/
def pathClean (path : List Char) : List Char :=
  if path = [] then ['.']
  else
    let rooted : Bool := path.head? = some '/'
    let out :=
      if rooted then cleanLoop rooted path.length path.tail ['/'] 1
      else cleanLoop rooted path.length path [] 0
    if out.length = 0 then ['.'] else out

/-- The function `cleanPath` of `mux`: the canonical form of a path, with
its trailing slash put back. -/
def cleanPath (p : String) : String :=
  if p = "" then "/"
  else
    let p1 : List Char := if p.toList.head? ≠ some '/' then '/' :: p.toList else p.toList
    let np := pathClean p1
    if p1.getLast? = some '/' ∧ np ≠ ['/'] then String.mk (np ++ ['/']) else String.mk np

/-- The status `http.StatusMovedPermanently`. -/
def StatusMovedPermanently : Int := 301

/-- The method `Server.ServeHTTP`: `s.router.ServeHTTP(w, r)`.  A request
whose path is not in canonical form is answered with a redirect to the URL
with the canonical path, before any route is tried; `urlString p` is the
text `url.String()` gives for the URL of the request with the path `p`. -/
def Server.ServeHTTP (s : Server) (urlString : String → String) (r : Request) : Go Unit :=
  if cleanPath r.path ≠ r.path then do
    headerSet "Location" (urlString (cleanPath r.path))
    WriteHeader StatusMovedPermanently
  else routerMatch s.router false r r

/-! ## `ozzo-validation` and `app.Validate` (app/validator.go)

The rules validate the string fields of the request.  `Rule.Validate`
returns nil, a validation error, or a `validation.InternalError`;
`validation.Validate` applies the rules of a field in order and stops at the
first error; `validation.ValidateStruct` validates the fields in order,
returns an internal error at once and otherwise collects the error of each
field under its JSON name. -/

/-- What `Rule.Validate` returns. -/
inductive RuleResult
  | pass
  | fail (e : Err)
  | internal (e : Err)
  deriving DecidableEq, Repr

/-- A `validation.Rule` applied to a string value. -/
abbrev Rule := String → Go RuleResult

/-- The function `validation.Validate(value, rules...)`. -/
def validationValidate (value : String) : List Rule → Go RuleResult
  | [] => Go.pure RuleResult.pass
  | rule :: rest => Go.bind (rule value) (fun res =>
    match res with
    | RuleResult.pass => validationValidate value rest
    | RuleResult.fail e => Go.pure (RuleResult.fail e)
    | RuleResult.internal e => Go.pure (RuleResult.internal e))

/-- The value `validation.Field(&field, rules...)`, with the JSON name and
the current value of the field it points to. -/
structure FieldRules where
  name : String
  value : String
  rules : List Rule

/-- What `validation.ValidateStruct` returns: nil, an `InternalError`, a
non-empty `validation.Errors`, or an error of another type. -/
inductive ValidateResult
  | valid
  | internal (e : Err)
  | errors (es : Errors)
  | unknown (e : Err)
  deriving DecidableEq, Repr

/-- The loop of `validation.ValidateStruct` over the fields. -/
def validateStructLoop : List FieldRules → Errors → Go ValidateResult
  | [], errs =>
    Go.pure (if errs.length > 0 then ValidateResult.errors errs else ValidateResult.valid)
  | fr :: rest, errs => Go.bind (validationValidate fr.value fr.rules) (fun res =>
    match res with
    | RuleResult.pass => validateStructLoop rest errs
    | RuleResult.internal e => Go.pure (ValidateResult.internal e)
    | RuleResult.fail e => validateStructLoop rest (assign fr.name e errs))

/-- The function `validation.ValidateStruct`. -/
def ValidateStruct (fields : List FieldRules) : Go ValidateResult :=
  validateStructLoop fields []

/-- The function `app.Validate`; `none` is the nil `validation.Errors`. -/
def Validate (fields : List FieldRules) : Go (Option Errors) := do
  match ← ValidateStruct fields with
  | ValidateResult.valid => pure none
  | ValidateResult.internal e => goPanic (PanicValue.err e)
  | ValidateResult.errors errs => pure (some errs)
  | ValidateResult.unknown _ =>
    goPanic (PanicValue.str "validator should know the type at this point")

/-- The error `validation.ErrRequired`. -/
def ErrRequired : Err := ⟨"cannot be blank"⟩

/-- The rule `validation.Required`: a string is empty when its length is 0. -/
def Required : Rule := fun value =>
  Go.pure (if value.utf8ByteSize = 0 then RuleResult.fail ErrRequired else RuleResult.pass)

/-- The rule `is.Email`: a string rule, which accepts the empty string and
otherwise asks `govalidator.IsEmail`. -/
def Email (isEmail : String → Bool) : Rule := fun value =>
  Go.pure (
    if value.utf8ByteSize = 0 then RuleResult.pass
    else if isEmail value then RuleResult.pass
    else RuleResult.fail (errorsNew "must be a valid email address"))

/-- The error of `validation.Length(min, max)` (`buildLengthRuleError`). -/
def lengthRuleError (min max : Int) : Err :=
  if min = 0 ∧ max > 0 then ⟨"the length must be no more than " ++ toString max⟩
  else if min > 0 ∧ max = 0 then ⟨"the length must be no less than " ++ toString min⟩
  else if min > 0 ∧ max > 0 then
    if min = max then ⟨"the length must be exactly " ++ toString min⟩
    else ⟨"the length must be between " ++ toString min ++ " and " ++ toString max⟩
  else ⟨"the value must be empty"⟩

/-- The rule `validation.Length(min, max)`: it accepts the empty string and
otherwise compares the length in bytes, `len(value)`. -/
def Length (min max : Int) : Rule := fun value =>
  Go.pure (
    if value.utf8ByteSize = 0 then RuleResult.pass
    else
      let l : Int := value.utf8ByteSize
      if (min > 0 ∧ l < min) ∨ (max > 0 ∧ l > max) then RuleResult.fail (lengthRuleError min max)
      else RuleResult.pass)

/-! ## The customer domain and the create handler
(domain/customer/customer.go, transport/rest/customers/create_handler.go) -/

/-- The interface `customer.Repository`: what each method returns, given the
history of effects so far (which holds the earlier calls).  A method may
panic; `Add` may receive a nil customer. -/
structure Repository where
  find : List Event → String → Outcome (Except Err (Option Customer))
  add : List Event → Option Customer → Outcome (Option Err)

/-- A call of `Repository.FindByUsername`. -/
def Repository.FindByUsername (repo : Repository) (username : String) :
    Go (Except Err (Option Customer)) := fun t =>
  match repo.find t username with
  | Outcome.ret res => (Outcome.ret res, t ++ [Event.findByUsername username])
  | Outcome.panic v => (Outcome.panic v, t ++ [Event.findByUsername username])

/-- A call of `Repository.Add`. -/
def Repository.Add (repo : Repository) (c : Option Customer) : Go (Option Err) := fun t =>
  match repo.add t c with
  | Outcome.ret res => (Outcome.ret res, t ++ [Event.add c])
  | Outcome.panic v => (Outcome.panic v, t ++ [Event.add c])

/-- The error `customer.ErrGeneratePassword`. -/
def ErrGeneratePassword : Err := errorsNew "password generation failed"

/-- The function `customer.New`; `bcrypt` is `bcrypt.GenerateFromPassword`
at cost 14 and `uuid` the value of `uuid.New()`. -/
def customerNew (bcrypt : String → Except Err String) (uuid : Nat) (username password : String) :
    Option Customer × Option Err :=
  match bcrypt password with
  | Except.error _ => (none, some ⟨"unable to create customer: " ++ ErrGeneratePassword.text⟩)
  | Except.ok bytes => (some { id := uuid, username := username, passwordHash := bytes }, none)

/-- The error `errUserExists`. -/
def errUserExists : Err := errorsNew "customers already exists with the given username"

/-- The method `usernameUniqueRule.Validate`. -/
def usernameUniqueRule (storage : Repository) : Rule := fun value => do
  match ← storage.FindByUsername value with
  | Except.error err => pure (RuleResult.internal err)
  | Except.ok (some _) => pure (RuleResult.fail errUserExists)
  | Except.ok none => pure RuleResult.pass

/-- The type `request` of the create handler. -/
structure CreateRequest where
  Username : String
  Password : String
  deriving DecidableEq, Repr

/-- The libraries the create handler calls: the JSON decoding of the body
into a `request`, `govalidator.IsEmail`, `bcrypt.GenerateFromPassword` and
`uuid.New`. -/
structure CreateDeps where
  decode : String → Except Err CreateRequest
  isEmail : String → Bool
  bcrypt : String → Except Err String
  uuid : Nat

/-- The constant `minPassLen`. -/
def minPassLen : Int := 6

/-- The constant `maxPassLen`. -/
def maxPassLen : Int := 256

/-- The function `NewCreateHandler`. -/
def NewCreateHandler (deps : CreateDeps) (repo : Repository) : Handler :=
  { Route := fun r =>
      if r.path = "/customers" then
        if r.method = "POST" then RouteResult.matched else RouteResult.methodMismatch
      else RouteResult.noMatch
    Middleware := none
    Func := fun r =>
      match r.Decode deps.decode with
      | Except.error err => RespondError StatusBadRequest err
      | Except.ok req => do
        let errs ← Validate [
          { name := "username", value := req.Username,
            rules := [Required, Email deps.isEmail, usernameUniqueRule repo] },
          { name := "password", value := req.Password,
            rules := [Required, Length minPassLen maxPassLen] }]
        match errs with
        | some errs => RespondValidationFailed errs
        | none => do
          let custErr := customerNew deps.bcrypt deps.uuid req.Username req.Password
          let _ ← repo.Add custErr.1
          WriteHeader StatusCreated }

/-! ## Reading a response, stated independently of the handlers -/

/-- The value at a key of a JSON object. -/
def Value.get (key : String) : Value → Option Value
  | Value.object fs => fs.lookup key
  | _ => none

/-- The object `error.validation_errors` of a response whose body is one
JSON document. -/
def validationErrorsOf (r : Response) : Option Errors :=
  match r.body with
  | [doc] =>
    match (doc.get "error").bind (Value.get "validation_errors") with
    | some (Value.errors es) => some es
    | _ => none
  | _ => none

/-- The message `error.validation_errors.<field>` of a response. -/
def fieldMessage (r : Response) (field : String) : Option String :=
  (validationErrorsOf r).bind (fun es => (es.lookup field).map (fun e => e.text))

/-- The error `recoverPanicMiddleware` logs for a recovered value. -/
def recoveredError : PanicValue → Err
  | PanicValue.str s => errorsNew s
  | PanicValue.err e => e
  | _ => ErrUnknown

/-- The JSON document `{"error": {"message": m}}`. -/
def errorDocument (m : String) : Value :=
  Value.object [("error", Value.object [("message", Value.str m)])]

/-- The route a handler ends up with in the router: its matcher and
`recoverPanicMiddleware` around its, possibly wrapped, function. -/
def registeredRoute (h : Handler) : MuxRoute :=
  { matcher := h.Route
    callback := recoverPanicMiddleware
      (match h.Middleware with
        | some middleware => middleware h.Func
        | none => h.Func) }

/-- The function `NewCheckHandler` (transport/rest/health/check_handler.go);
the `response` struct is encoded as the object of its one field `status`. -/
def NewCheckHandler : Handler :=
  { Route := fun r =>
      if r.path = "/health" then
        if r.method = "GET" then RouteResult.matched else RouteResult.methodMismatch
      else RouteResult.noMatch
    Middleware := none
    Func := fun _ => Respond 200 (some (Value.object [("status", Value.str "ok")])) }

/-- The validation of the username needs no lookup, or the lookup returns
without an error: the username is blank, or it is no email address, or
`FindByUsername` returns a customer or nil together with a nil error. -/
def lookupSettles (deps : CreateDeps) (repo : Repository) (t : List Event) (username : String) :
    Prop :=
  username = "" ∨ deps.isEmail username = false ∨
    ∃ c, repo.find t username = Outcome.ret (Except.ok c)

/-! ## Fixtures for concrete requests -/

/-- Libraries under which every body decodes to the given username and
password, every non-empty username is an email address and hashing succeeds. -/
def fixedDeps (username password : String) : CreateDeps :=
  { decode := fun _ => Except.ok { Username := username, Password := password }
    isEmail := fun _ => true
    bcrypt := fun p => Except.ok p
    uuid := 1 }

/-- A repository whose lookup fails with an error, as with an unreachable
database. -/
def unreachableRepo : Repository :=
  { find := fun _ _ => Outcome.ret (Except.error (errorsNew "unable to fetch customers"))
    add := fun _ _ => Outcome.ret none }

/-- A repository that holds no customer and accepts every `Add`. -/
def emptyRepo : Repository :=
  { find := fun _ _ => Outcome.ret (Except.ok none)
    add := fun _ _ => Outcome.ret none }

/-- A request `POST /customers`. -/
def postCustomers : Request := { method := "POST", path := "/customers", body := "" }

/-- A repository that finds a customer under every username. -/
def takenRepo : Repository :=
  { find := fun _ u => Outcome.ret (Except.ok (some { id := 7, username := u, passwordHash := "" }))
    add := fun _ _ => Outcome.ret none }

/-- A repository that holds no customer and whose `Add` returns an error. -/
def failingAddRepo : Repository :=
  { find := fun _ _ => Outcome.ret (Except.ok none)
    add := fun _ _ => Outcome.ret (some (errorsNew "unable to create customers")) }

/-- A password of 129 characters of two bytes each. -/
def multibytePassword : String := String.mk (List.replicate 129 'é')

/-! ## What `app.Validate` is to do, stated on the rules and the fields -/

/-- Spec side: the checks of a list of fields: every rule of every field
applied to the value of its field, in the order of the fields and of their
rules. -/
def checksOf (fields : List FieldRules) : List (Go RuleResult) :=
  (fields.map (fun fr => fr.rules.map (fun rule => rule fr.value))).flatten

/-- Spec side: every check passes, each run on the history the checks before
it left; the result is the history after the last check. -/
def allPass : List (Go RuleResult) → List Event → Option (List Event)
  | [], t => some t
  | check :: rest, t =>
    match check t with
    | (Outcome.ret RuleResult.pass, t1) => allPass rest t1
    | _ => none

/-- Spec side: the verdict on each field, by name: what the rules of the
field report for its value, the fields taken in order, each on the history
the fields before it left.  A verdict that is an internal error or a panic
is the last one. -/
def verdicts : List FieldRules → List Event → List (String × Outcome RuleResult)
  | [], _ => []
  | fr :: rest, t =>
    match validationValidate fr.value fr.rules t with
    | (Outcome.ret RuleResult.pass, t1) => (fr.name, Outcome.ret RuleResult.pass) :: verdicts rest t1
    | (Outcome.ret (RuleResult.fail e), t1) =>
      (fr.name, Outcome.ret (RuleResult.fail e)) :: verdicts rest t1
    | (Outcome.ret (RuleResult.internal e), _) => [(fr.name, Outcome.ret (RuleResult.internal e))]
    | (Outcome.panic v, _) => [(fr.name, Outcome.panic v)]

/-- Spec side: the mapping from the names of the fields whose verdict is a
user-input failure to the errors of these verdicts, added to `errs`. -/
def failuresOf (vs : List (String × Outcome RuleResult)) (errs : Errors) : Errors :=
  vs.foldl (fun errs v =>
    match v.2 with
    | Outcome.ret (RuleResult.fail e) => assign v.1 e errs
    | _ => errs) errs

end Rest

namespace Money

/-! ## Truncating division by one hundred -/

theorem tdiv_hundred (a : Int) :
    Int.tdiv a 100 = if 0 ≤ a then a / 100 else -((-a) / 100) := by
  split
  · rename_i h
    exact Int.tdiv_eq_ediv h (by decide)
  · rename_i h
    have h1 : (0 : Int) ≤ -a := by omega
    have h2 := Int.neg_tdiv (-a) 100
    rw [neg_neg] at h2
    rw [h2, Int.tdiv_eq_ediv h1 (by decide)]

theorem tmod_hundred (a : Int) :
    Int.tmod a 100 = if 0 ≤ a then a % 100 else -((-a) % 100) := by
  rw [Int.tmod_def, tdiv_hundred]
  split <;> omega

/-! ## Decimal text: basic facts -/

theorem digitChar_toNat (d : Nat) (h : d < 10) : (Nat.digitChar d).toNat = d + 48 := by
  interval_cases d <;> decide

theorem digitChar_isDigit (d : Nat) (h : d < 10) :
    '0' ≤ Nat.digitChar d ∧ Nat.digitChar d ≤ '9' := by
  interval_cases d <;> decide

theorem formatDecFuel_fuel (f : Nat) : ∀ (g n : Nat), n < f → n < g →
    formatDecFuel f n = formatDecFuel g n := by
  induction f with
  | zero => intro g n h; omega
  | succ f ih =>
    intro g n hf hg
    cases g with
    | zero => omega
    | succ g =>
      simp only [formatDecFuel]
      split
      · rfl
      · rw [ih g (n / 10) (by omega) (by omega)]

theorem formatDec_lt (n : Nat) (h : n < 10) : formatDec n = [Nat.digitChar n] := by
  simp [formatDec, formatDecFuel, h]

theorem formatDec_ge (n : Nat) (h : 10 ≤ n) :
    formatDec n = formatDec (n / 10) ++ [Nat.digitChar (n % 10)] := by
  have h1 : ¬ n < 10 := by omega
  have e : formatDecFuel (n + 1) n
      = formatDecFuel n (n / 10) ++ [Nat.digitChar (n % 10)] := by
    rw [formatDecFuel, if_neg h1]
  rw [formatDec, e, formatDec,
    formatDecFuel_fuel n (n / 10 + 1) (n / 10) (by omega) (by omega)]

theorem char_le_iff (a b : Char) : a ≤ b ↔ a.toNat ≤ b.toNat := Iff.rfl

theorem char_eq_iff (a b : Char) : a = b ↔ a.toNat = b.toNat := by
  constructor
  · intro h; rw [h]
  · intro h; exact Char.ext (UInt32.ext h)

theorem formatDec_digits (n : Nat) : ∀ c ∈ formatDec n, '0' ≤ c ∧ c ≤ '9' := by
  induction n using Nat.strong_induction_on with
  | _ n ih =>
    intro c hc
    by_cases h : n < 10
    · rw [formatDec_lt n h, List.mem_singleton] at hc
      subst hc
      exact digitChar_isDigit n h
    · rw [formatDec_ge n (by omega), List.mem_append, List.mem_singleton] at hc
      rcases hc with hc | hc
      · exact ih (n / 10) (by omega) c hc
      · subst hc
        exact digitChar_isDigit (n % 10) (by omega)

/-- The decimal text of `0` is `0`; that of a positive number opens with a
digit from `1` to `9`, followed by digits. -/
theorem formatDec_shape (n : Nat) :
    ∃ c cs, formatDec n = c :: cs ∧ (∀ x ∈ cs, '0' ≤ x ∧ x ≤ '9') ∧
      ((n = 0 ∧ c = '0' ∧ cs = []) ∨ (0 < n ∧ '1' ≤ c ∧ c ≤ '9')) := by
  induction n using Nat.strong_induction_on with
  | _ n ih =>
    by_cases h : n < 10
    · refine ⟨Nat.digitChar n, [], formatDec_lt n h, by simp, ?_⟩
      interval_cases n
      · left; exact ⟨rfl, rfl, rfl⟩
      all_goals right; decide
    · obtain ⟨c, cs, e, hcs, hc⟩ := ih (n / 10) (by omega)
      refine ⟨c, cs ++ [Nat.digitChar (n % 10)], ?_, ?_, ?_⟩
      · rw [formatDec_ge n (by omega), e]; rfl
      · intro x hx
        rw [List.mem_append, List.mem_singleton] at hx
        rcases hx with hx | hx
        · exact hcs x hx
        · subst hx; exact digitChar_isDigit (n % 10) (by omega)
      · right
        rcases hc with ⟨h0, _, _⟩ | ⟨_, h1⟩
        · omega
        · exact ⟨by omega, h1⟩

theorem parseUintLoop_append (xs ys : List Char) : ∀ acc : Nat,
    parseUintLoop (xs ++ ys) acc = (parseUintLoop xs acc).bind (parseUintLoop ys) := by
  induction xs with
  | nil => intro acc; rfl
  | cons x xs ih =>
    intro acc
    simp only [List.cons_append, parseUintLoop]
    split
    · split
      · rfl
      · split
        · rfl
        · exact ih _
    · rfl

theorem parseUintLoop_digit (acc d : Nat) (hd : d < 10) (h : acc * 10 + d ≤ MaxUint64) :
    parseUintLoop [Nat.digitChar d] acc = some (acc * 10 + d) := by
  have hdig := digitChar_isDigit d hd
  have hval : (Nat.digitChar d).toNat - '0'.toNat = d := by
    rw [digitChar_toNat d hd]; simp
  have h1 : ¬ acc ≥ MaxUint64 / 10 + 1 := by
    simp only [MaxUint64] at h ⊢; omega
  have h2 : ¬ acc * 10 + d > MaxUint64 := by omega
  simp only [parseUintLoop, hdig, and_self, if_true, hval, h1, h2, if_false]

theorem parseUintLoop_formatDec (n : Nat) (h : n ≤ MaxUint64) :
    parseUintLoop (formatDec n) 0 = some n := by
  induction n using Nat.strong_induction_on with
  | _ n ih =>
    by_cases h10 : n < 10
    · rw [formatDec_lt n h10]
      have := parseUintLoop_digit 0 n h10 (by omega)
      simpa using this
    · rw [formatDec_ge n (by omega), parseUintLoop_append, ih (n / 10) (by omega) (by omega)]
      simp only [Option.some_bind]
      rw [parseUintLoop_digit (n / 10) (n % 10) (by omega) (by omega)]
      congr 1
      omega

theorem formatDec_ne_nil (n : Nat) : formatDec n ≠ [] := by
  obtain ⟨c, cs, e, _⟩ := formatDec_shape n
  rw [e]; exact List.cons_ne_nil c cs

theorem ParseUint_formatDec (n : Nat) (h : n ≤ MaxUint64) :
    ParseUint (formatDec n) = some n := by
  rw [ParseUint, if_neg (formatDec_ne_nil n)]
  exact parseUintLoop_formatDec n h

theorem wrap64_of_isInt64 (x : Int) (h : IsInt64 x) : wrap64 x = x := by
  simp only [IsInt64, MinInt64, MaxInt64] at h
  simp only [wrap64]
  omega

theorem ParseInt_minus (cs : List Char) (un : Nat) (h : ParseUint cs = some un)
    (h2 : un ≤ 9223372036854775808) :
    ParseInt ('-' :: cs) = some (wrap64 (-wrap64 un)) := by
  have h3 : ¬ un > 9223372036854775808 := by omega
  unfold ParseInt
  simp only [or_true, if_true, h, decide_True, not_true_eq_false, false_and, if_false,
    true_and, h3]

theorem ParseInt_unsigned (c : Char) (cs : List Char) (un : Nat) (hp : c ≠ '+') (hm : c ≠ '-')
    (h : ParseUint (c :: cs) = some un) (h2 : un < 9223372036854775808) :
    ParseInt (c :: cs) = some (wrap64 un) := by
  have h3 : ¬ un ≥ 9223372036854775808 := by omega
  unfold ParseInt
  simp only [hp, hm, or_self, if_false, h, decide_False, Bool.false_eq_true, not_false_eq_true,
    true_and, h3, false_and]

theorem ParseInt_Itoa (a : Int) (h : IsInt64 a) : ParseInt (Itoa a) = some a := by
  have hr := h
  simp only [IsInt64, MinInt64, MaxInt64] at hr
  by_cases hneg : a < 0
  · simp only [Itoa, hneg, if_true]
    rw [ParseInt_minus _ _ (ParseUint_formatDec _ (by simp only [MaxUint64]; omega)) (by omega)]
    apply congrArg some
    simp only [wrap64]
    omega
  · obtain ⟨c, cs, e, hcs, hc⟩ := formatDec_shape a.toNat
    have hcd : '0' ≤ c ∧ c ≤ '9' :=
      formatDec_digits a.toNat c (by rw [e]; exact List.mem_cons_self c cs)
    have hplus : c ≠ '+' := by rintro rfl; revert hcd; decide
    have hminus : c ≠ '-' := by rintro rfl; revert hcd; decide
    have hp := ParseUint_formatDec a.toNat (by simp only [MaxUint64]; omega)
    simp only [Itoa, hneg, if_false]
    rw [e] at hp ⊢
    rw [ParseInt_unsigned c cs _ hplus hminus hp (by omega)]
    apply congrArg some
    simp only [wrap64]
    omega

/-! ## The scanner on decimal text -/

theorem scan_digits_one (cs : List Char) (h : ∀ x ∈ cs, '0' ≤ x ∧ x ≤ '9') :
    cs.foldl scanStep ScanState.one = ScanState.one := by
  induction cs with
  | nil => rfl
  | cons x xs ih =>
    have hx := h x (List.mem_cons_self x xs)
    simp only [List.foldl_cons, scanStep, hx, and_self, if_true]
    exact ih (fun y hy => h y (List.mem_cons_of_mem x hy))

theorem scan_formatDec_from (st : ScanState) (n : Nat)
    (hst : st = ScanState.beginValue ∨ st = ScanState.neg) :
    scanEOF ((formatDec n).foldl scanStep st) = true := by
  obtain ⟨c, cs, e, hcs, hc⟩ := formatDec_shape n
  rw [e, List.foldl_cons]
  rcases hc with ⟨_, rfl, rfl⟩ | ⟨_, hc⟩
  · rcases hst with rfl | rfl <;> decide
  · have hstep : scanStep st c = ScanState.one := by
      have h0 : c ≠ '0' := by rintro rfl; revert hc; decide
      rcases hst with rfl | rfl
      · have hs : isSpace c = false := by
          simp only [isSpace, Bool.or_eq_false_iff, decide_eq_false_iff_not]
          refine ⟨⟨⟨?_, ?_⟩, ?_⟩, ?_⟩ <;> rintro rfl <;> revert hc <;> decide
        have ho : ¬ (c = '{' ∨ c = '[' ∨ c = '"' ∨ c = 't' ∨ c = 'f') := by
          rintro (rfl | rfl | rfl | rfl | rfl) <;> revert hc <;> decide
        have hm : c ≠ '-' := by rintro rfl; revert hc; decide
        have hn : c ≠ 'n' := by rintro rfl; revert hc; decide
        simp only [scanStep, hs, Bool.false_eq_true, if_false, ho, hm, h0, hn, hc, and_self,
          if_true]
      · simp only [scanStep, h0, if_false, hc, and_self, if_true]
    rw [hstep, scan_digits_one cs hcs]
    decide

theorem checkValid_Itoa (a : Int) : checkValid (Itoa a) = true := by
  unfold checkValid Itoa
  split
  · rw [List.foldl_cons]
    exact scan_formatDec_from _ _ (Or.inr (by decide))
  · exact scan_formatDec_from _ _ (Or.inl rfl)

theorem takeWhile_eq_self_of_all {α : Type} (p : α → Bool) (l : List α) (h : ∀ x ∈ l, p x = true) :
    l.takeWhile p = l := by
  induction l with
  | nil => rfl
  | cons x xs ih =>
    rw [List.takeWhile_cons, h x (List.mem_cons_self x xs)]
    simp only [if_true]
    rw [ih (fun y hy => h y (List.mem_cons_of_mem x hy))]

theorem isNumberByte_of_digit (c : Char) (h : '0' ≤ c ∧ c ≤ '9') : isNumberByte c = true := by
  simp [isNumberByte, h]

theorem jsonUnmarshalInt64_Itoa (a v : Int) (h : IsInt64 a) :
    jsonUnmarshalInt64 (Itoa a) v = some a := by
  have hvalid := checkValid_Itoa a
  have hparse := ParseInt_Itoa a h
  obtain ⟨c, cs, e, hcs, hc⟩ := formatDec_shape (if a < 0 then (-a).toNat else a.toNat)
  have hcd : '0' ≤ c ∧ c ≤ '9' := by
    rcases hc with ⟨_, rfl, _⟩ | ⟨_, hc⟩
    · decide
    · refine ⟨?_, hc.2⟩
      rw [char_le_iff] at hc ⊢
      have := hc.1
      simp at this ⊢
      omega
  have hall : ∀ x ∈ c :: cs, isNumberByte x = true := by
    intro x hx
    rcases List.mem_cons.mp hx with rfl | hx
    · exact isNumberByte_of_digit _ hcd
    · exact isNumberByte_of_digit _ (hcs x hx)
  have hns : isSpace c = false := by
    simp only [isSpace, Bool.or_eq_false_iff, decide_eq_false_iff_not]
    refine ⟨⟨⟨?_, ?_⟩, ?_⟩, ?_⟩ <;> rintro rfl <;> revert hcd <;> decide
  have hnn : c ≠ 'n' := by rintro rfl; revert hcd; decide
  unfold jsonUnmarshalInt64
  rw [hvalid]
  by_cases hneg : a < 0
  · rw [if_pos hneg] at e
    have hI : Itoa a = '-' :: c :: cs := by simp only [Itoa, hneg, if_true, e]
    rw [hI] at hparse ⊢
    have hd : List.dropWhile isSpace ('-' :: c :: cs) = '-' :: c :: cs := by
      rw [List.dropWhile_cons]; rfl
    simp only [hd, not_true_eq_false, if_false]
    rw [takeWhile_eq_self_of_all _ _ hall, hparse]
    simp [h]
  · rw [if_neg hneg] at e
    have hI : Itoa a = c :: cs := by simp only [Itoa, hneg, if_false, e]
    rw [hI] at hparse ⊢
    have hd : List.dropWhile isSpace (c :: cs) = c :: cs := by
      rw [List.dropWhile_cons, hns]; rfl
    simp only [hd, not_true_eq_false, if_false, hnn, hcd, and_self, or_true, if_true]
    rw [takeWhile_eq_self_of_all _ _ (fun x hx => hall x (List.mem_cons_of_mem c hx)), hparse]
    simp [h]

/-! ## The scanner: what an accepted text looks like -/

theorem scan_error (s : List Char) : s.foldl scanStep ScanState.error = ScanState.error := by
  induction s with
  | nil => rfl
  | cons x xs ih => simpa [List.foldl_cons, scanStep] using ih

theorem scan_otherKind (s : List Char) :
    s.foldl scanStep ScanState.otherKind = ScanState.otherKind := by
  induction s with
  | nil => rfl
  | cons x xs ih => simpa [List.foldl_cons, scanStep] using ih

theorem scan_dropWhile_space (b : List Char) :
    b.foldl scanStep ScanState.beginValue
      = (b.dropWhile isSpace).foldl scanStep ScanState.beginValue := by
  induction b with
  | nil => rfl
  | cons x xs ih =>
    by_cases hx : isSpace x = true
    · rw [List.dropWhile_cons_of_pos hx, List.foldl_cons]
      simp only [scanStep, hx, if_true]
      exact ih
    · rw [List.dropWhile_cons_of_neg hx]

theorem scan_endTop_spaces (s : List Char)
    (h : scanEOF (s.foldl scanStep ScanState.endTop) = true) : ∀ c ∈ s, isSpace c = true := by
  induction s with
  | nil => intro c hc; cases hc
  | cons x xs ih =>
    rw [List.foldl_cons] at h
    by_cases hx : isSpace x = true
    · have e : scanStep ScanState.endTop x = ScanState.endTop := by
        simp [scanStep, stateEndTop, hx]
      rw [e] at h
      intro c hc
      rcases List.mem_cons.mp hc with rfl | hc
      · exact hx
      · exact ih h c hc
    · have e : scanStep ScanState.endTop x = ScanState.error := by
        simp [scanStep, stateEndTop, hx]
      rw [e, scan_error] at h
      exact absurd h (by decide)

/-- After a complete value only whitespace is accepted. -/
theorem scan_stateEndTop (x : Char) (xs : List Char)
    (h : scanEOF (xs.foldl scanStep (stateEndTop x)) = true) :
    ∀ c ∈ x :: xs, isSpace c = true := by
  by_cases hs : isSpace x = true
  · rw [stateEndTop, if_pos hs] at h
    have := scan_endTop_spaces xs h
    intro c hc
    rcases List.mem_cons.mp hc with rfl | hc
    · exact hs
    · exact this c hc
  · rw [stateEndTop, if_neg hs, scan_error] at h
    exact absurd h (by decide)

theorem scanStep_after_digits (st : ScanState) (x : Char)
    (hst : st = ScanState.zero ∨ st = ScanState.one) (hx : isNumberByte x = false) :
    scanStep st x = stateEndTop x := by
  simp only [isNumberByte, Bool.or_eq_false_iff, decide_eq_false_iff_not] at hx
  obtain ⟨⟨⟨⟨⟨h1, h2⟩, h3⟩, h4⟩, _⟩, _⟩ := hx
  rcases hst with rfl | rfl
  · simp only [scanStep, state0, h2, h3, h4, or_self, if_false, stateEndValue]
  · simp only [scanStep, state0, h1, h2, h3, h4, or_self, if_false, stateEndValue]

theorem scan_after_digits (st : ScanState) (s : List Char)
    (hst : st = ScanState.zero ∨ st = ScanState.one)
    (hhead : ∀ x ∈ s.head?, isNumberByte x = false)
    (h : scanEOF (s.foldl scanStep st) = true) : ∀ c ∈ s, isSpace c = true := by
  cases s with
  | nil => intro c hc; cases hc
  | cons x xs =>
    rw [List.foldl_cons, scanStep_after_digits st x hst (hhead x (by simp))] at h
    exact scan_stateEndTop x xs h

theorem scan_null (rest : List Char)
    (h : scanEOF (rest.foldl scanStep ScanState.n) = true) :
    ∃ post, rest = 'u' :: 'l' :: 'l' :: post ∧ ∀ c ∈ post, isSpace c = true := by
  cases rest with
  | nil => exact absurd h (by decide)
  | cons x1 r1 =>
    rw [List.foldl_cons] at h
    by_cases h1 : x1 = 'u'
    swap
    · simp only [scanStep, h1, if_false] at h
      rw [scan_error] at h; exact absurd h (by decide)
    subst h1
    cases r1 with
    | nil => exact absurd h (by decide)
    | cons x2 r2 =>
      rw [List.foldl_cons] at h
      by_cases h2 : x2 = 'l'
      swap
      · simp only [scanStep, h2, if_true, if_false] at h
        rw [scan_error] at h; exact absurd h (by decide)
      subst h2
      cases r2 with
      | nil => exact absurd h (by decide)
      | cons x3 r3 =>
        rw [List.foldl_cons] at h
        by_cases h3 : x3 = 'l'
        swap
        · simp only [scanStep, h3, if_true, if_false] at h
          rw [scan_error] at h; exact absurd h (by decide)
        subst h3
        refine ⟨r3, rfl, ?_⟩
        cases r3 with
        | nil => intro c hc; cases hc
        | cons x4 r4 =>
          rw [List.foldl_cons] at h
          have e : scanStep (scanStep (scanStep (scanStep ScanState.n 'u') 'l') 'l') x4
              = stateEndTop x4 := rfl
          rw [e] at h
          exact scan_stateEndTop x4 r4 h

/-! ## What `ParseInt` accepts -/

theorem parseUintLoop_some (ds : List Char) : ∀ (acc un : Nat), parseUintLoop ds acc = some un →
    (∀ c ∈ ds, '0' ≤ c ∧ c ≤ '9') ∧
      un = ds.foldl (fun a c => a * 10 + (c.toNat - '0'.toNat)) acc := by
  induction ds with
  | nil =>
    intro acc un h
    simp only [parseUintLoop, Option.some.injEq] at h
    exact ⟨fun c hc => (by cases hc), h.symm⟩
  | cons x xs ih =>
    intro acc un h
    rw [parseUintLoop] at h
    by_cases hx : '0' ≤ x ∧ x ≤ '9'
    · rw [if_pos hx] at h
      by_cases h1 : acc ≥ MaxUint64 / 10 + 1
      · simp only [h1, if_true] at h
        exact absurd h (by simp)
      · simp only [h1, if_false] at h
        by_cases h2 : acc * 10 + (x.toNat - '0'.toNat) > MaxUint64
        · rw [if_pos h2] at h; exact absurd h (by simp)
        · rw [if_neg h2] at h
          obtain ⟨hd, hv⟩ := ih _ _ h
          refine ⟨?_, by rw [List.foldl_cons]; exact hv⟩
          intro c hc
          rcases List.mem_cons.mp hc with rfl | hc
          · exact hx
          · exact hd c hc
    · rw [if_neg hx] at h; exact absurd h (by simp)

theorem ParseUint_some (ds : List Char) (un : Nat) (h : ParseUint ds = some un) :
    ds ≠ [] ∧ (∀ c ∈ ds, '0' ≤ c ∧ c ≤ '9') ∧ un = decValue ds := by
  unfold ParseUint at h
  by_cases hd : ds = []
  · rw [if_pos hd] at h; exact absurd h (by simp)
  · rw [if_neg hd] at h
    exact ⟨hd, parseUintLoop_some ds 0 un h⟩

theorem ParseInt_minus_some (cs : List Char) (n : Int) (h : ParseInt ('-' :: cs) = some n) :
    cs ≠ [] ∧ (∀ c ∈ cs, '0' ≤ c ∧ c ≤ '9') ∧ decValue cs ≤ 9223372036854775808 := by
  unfold ParseInt at h
  simp only [or_true, if_true] at h
  cases hp : ParseUint cs with
  | none => rw [hp] at h; exact absurd h (by simp)
  | some un =>
    rw [hp] at h
    obtain ⟨h1, h2, h3⟩ := ParseUint_some cs un hp
    refine ⟨h1, h2, ?_⟩
    by_contra hgt
    have hgt2 : un > 9223372036854775808 := by rw [h3]; omega
    simp only [decide_True, not_true_eq_false, false_and, if_false, true_and, hgt2, if_true] at h
    exact absurd h (by simp)

theorem ParseInt_unsigned_some (c : Char) (cs : List Char) (n : Int)
    (hp : c ≠ '+') (hm : c ≠ '-') (h : ParseInt (c :: cs) = some n) :
    (∀ x ∈ c :: cs, '0' ≤ x ∧ x ≤ '9') ∧ decValue (c :: cs) < 9223372036854775808 := by
  unfold ParseInt at h
  simp only [hp, hm, or_self, if_false] at h
  cases hq : ParseUint (c :: cs) with
  | none => rw [hq] at h; exact absurd h (by simp)
  | some un =>
    rw [hq] at h
    obtain ⟨_, h2, h3⟩ := ParseUint_some (c :: cs) un hq
    refine ⟨h2, ?_⟩
    by_contra hge
    have hge2 : un ≥ 9223372036854775808 := by rw [h3]; omega
    simp only [decide_False, Bool.false_eq_true, not_false_eq_true, true_and, hge2, if_true] at h
    exact absurd h (by simp)

/-! ## From an accepted text to the grammar -/

theorem digit_not_space (c : Char) (h : '0' ≤ c ∧ c ≤ '9') : isSpace c = false := by
  simp only [isSpace, Bool.or_eq_false_iff, decide_eq_false_iff_not]
  refine ⟨⟨⟨?_, ?_⟩, ?_⟩, ?_⟩ <;> rintro rfl <;> revert h <;> decide

theorem dropWhile_eq_self_of_all_not {α : Type} (p : α → Bool) (l : List α)
    (h : ∀ x ∈ l, p x = false) : l.dropWhile p = l := by
  cases l with
  | nil => rfl
  | cons x xs =>
    rw [List.dropWhile_cons, h x (List.mem_cons_self x xs)]
    rfl

theorem takeWhile_eq_nil_of_all_not {α : Type} (p : α → Bool) (l : List α)
    (h : ∀ x ∈ l, p x = false) : l.takeWhile p = [] := by
  cases l with
  | nil => rfl
  | cons x xs =>
    rw [List.takeWhile_cons, h x (List.mem_cons_self x xs)]
    rfl

theorem jsonToken_of_split (b tok post : List Char) (hb : b.dropWhile isSpace = tok ++ post)
    (htok : ∀ c ∈ tok, isSpace c = false) (hpost : ∀ c ∈ post, isSpace c = true) :
    jsonToken b = some tok := by
  have h1 : ∀ c ∈ tok, (fun c => !isSpace c) c = true := by
    intro c hc; simp [htok c hc]
  have h2 : ∀ c ∈ post, (fun c => !isSpace c) c = false := by
    intro c hc; simp [hpost c hc]
  unfold jsonToken
  simp only [hb]
  rw [List.dropWhile_append_of_pos h1, List.takeWhile_append_of_pos h1,
    dropWhile_eq_self_of_all_not _ _ h2, takeWhile_eq_nil_of_all_not _ _ h2,
    List.append_nil, if_pos (List.all_eq_true.mpr hpost)]

/-- A digit string the scanner accepts from a state where a number may
begin follows the grammar `0|[1-9][0-9]*`, and only whitespace follows it. -/
theorem scan_natLiteral (st : ScanState) (d : Char) (ds rest : List Char)
    (hst : scanStep st d = if d = '0' then ScanState.zero else ScanState.one)
    (hd : ∀ c ∈ d :: ds, '0' ≤ c ∧ c ≤ '9')
    (hhead : ∀ x ∈ rest.head?, isNumberByte x = false)
    (h : scanEOF ((ds ++ rest).foldl scanStep (scanStep st d)) = true) :
    isNatLiteral (d :: ds) = true ∧ ∀ c ∈ rest, isSpace c = true := by
  rw [hst] at h
  by_cases h0 : d = '0'
  · rw [if_pos h0] at h
    cases ds with
    | nil =>
      refine ⟨by simp [isNatLiteral, h0], ?_⟩
      exact scan_after_digits _ rest (Or.inl rfl) hhead h
    | cons d2 ds2 =>
      have hd2 : '0' ≤ d2 ∧ d2 ≤ '9' := hd d2 (by simp)
      have hnd : d2 ≠ '.' ∧ d2 ≠ 'e' ∧ d2 ≠ 'E' := by
        refine ⟨?_, ?_, ?_⟩ <;> rintro rfl <;> revert hd2 <;> decide
      have e : scanStep ScanState.zero d2 = ScanState.error := by
        simp only [scanStep, state0, hnd.1, hnd.2.1, hnd.2.2, or_self, if_false, stateEndValue,
          stateEndTop, digit_not_space d2 hd2, Bool.false_eq_true]
      rw [List.cons_append, List.foldl_cons, e, scan_error] at h
      exact absurd h (by decide)
  · rw [if_neg h0] at h
    have hds : ∀ c ∈ ds, '0' ≤ c ∧ c ≤ '9' := fun c hc => hd c (List.mem_cons_of_mem d hc)
    rw [List.foldl_append, scan_digits_one ds hds] at h
    refine ⟨?_, scan_after_digits _ rest (Or.inr rfl) hhead h⟩
    have hd1 : '0' ≤ d ∧ d ≤ '9' := hd d (by simp)
    have h19 : '1' ≤ d ∧ d ≤ '9' := by
      refine ⟨?_, hd1.2⟩
      have hne : d.toNat ≠ '0'.toNat := fun hh => h0 ((char_eq_iff d '0').mpr hh)
      have := hd1.1
      rw [char_le_iff] at this ⊢
      simp at this hne ⊢
      omega
    simp only [isNatLiteral, h0, if_false, h19, and_self, decide_True, Bool.true_and,
      List.all_eq_true, decide_eq_true_eq]
    exact hds

theorem digit_one_nine (d : Char) (hd : '0' ≤ d ∧ d ≤ '9') (h0 : d ≠ '0') :
    '1' ≤ d ∧ d ≤ '9' := by
  refine ⟨?_, hd.2⟩
  have hne : d.toNat ≠ '0'.toNat := fun hh => h0 ((char_eq_iff d '0').mpr hh)
  have := hd.1
  rw [char_le_iff] at this ⊢
  simp at this hne ⊢
  omega

theorem scanStep_neg_digit (d : Char) (hd : '0' ≤ d ∧ d ≤ '9') :
    scanStep ScanState.neg d = if d = '0' then ScanState.zero else ScanState.one := by
  by_cases h0 : d = '0'
  · simp only [scanStep, h0, if_true]
  · simp only [scanStep, h0, if_false, digit_one_nine d hd h0, and_self, if_true]

theorem scanStep_beginValue_digit (d : Char) (hd : '0' ≤ d ∧ d ≤ '9') :
    scanStep ScanState.beginValue d = if d = '0' then ScanState.zero else ScanState.one := by
  have ho : ¬ (d = '{' ∨ d = '[' ∨ d = '"' ∨ d = 't' ∨ d = 'f') := by
    rintro (rfl | rfl | rfl | rfl | rfl) <;> revert hd <;> decide
  have hm : d ≠ '-' := by rintro rfl; revert hd; decide
  have hn : d ≠ 'n' := by rintro rfl; revert hd; decide
  by_cases h0 : d = '0'
  · subst h0; decide
  · simp only [scanStep, digit_not_space d hd, Bool.false_eq_true, if_false, ho, hm, h0, hn,
      digit_one_nine d hd h0, and_self, if_true]

/-- A text that `json.Unmarshal` stores into an `int64` without an error is
the literal `null` or an integer literal in the `int64` range. -/
theorem jsonUnmarshalInt64_some (b : List Char) (v n : Int)
    (h : jsonUnmarshalInt64 b v = some n) : isNullJSON b = true ∨ isIntegerJSON b = true := by
  unfold jsonUnmarshalInt64 at h
  by_cases hv : checkValid b = true
  swap
  · rw [if_pos hv] at h; exact absurd h (by simp)
  rw [if_neg (by simp [hv])] at h
  rw [checkValid, scan_dropWhile_space] at hv
  have hhd := List.head?_dropWhile_not isSpace b
  cases hbody : b.dropWhile isSpace with
  | nil => rw [hbody] at h; exact absurd h (by simp)
  | cons c rest =>
    rw [hbody] at h hv hhd
    simp only [List.head?_cons] at hhd
    rw [List.foldl_cons] at hv
    simp only at h
    by_cases hn : c = 'n'
    · left
      subst hn
      have e : scanStep ScanState.beginValue 'n' = ScanState.n := by decide
      rw [e] at hv
      obtain ⟨post, rfl, hpost⟩ := scan_null rest hv
      have ht := jsonToken_of_split b ['n', 'u', 'l', 'l'] post hbody (by decide) hpost
      simp [isNullJSON, ht]
    · right
      rw [if_neg hn] at h
      by_cases hc : c = '-' ∨ ('0' ≤ c ∧ c ≤ '9')
      swap
      · rw [if_neg hc] at h; exact absurd h (by simp)
      rw [if_pos hc] at h
      obtain ⟨ds, rest1, hsplit, hds, hhead⟩ :
          ∃ ds rest1, ds ++ rest1 = rest ∧ rest.takeWhile isNumberByte = ds ∧
            ∀ x ∈ rest1.head?, isNumberByte x = false := by
        refine ⟨_, _, List.takeWhile_append_dropWhile isNumberByte rest, rfl, ?_⟩
        have := List.head?_dropWhile_not isNumberByte rest
        intro x hx
        rw [Option.mem_def] at hx
        rw [hx] at this
        exact this
      rw [hds] at h
      rw [← hsplit] at hv hbody
      cases hP : ParseInt (c :: ds) with
      | none => rw [hP] at h; exact absurd h (by simp)
      | some m =>
        by_cases hm : c = '-'
        · subst hm
          obtain ⟨hne, hdig, hval⟩ := ParseInt_minus_some ds m hP
          cases ds with
          | nil => exact absurd rfl hne
          | cons d ds1 =>
            have e : scanStep ScanState.beginValue '-' = ScanState.neg := by decide
            rw [e, List.cons_append, List.foldl_cons] at hv
            obtain ⟨hnat, hsp⟩ := scan_natLiteral ScanState.neg d ds1 rest1
              (scanStep_neg_digit d (hdig d (by simp))) hdig hhead hv
            have ht := jsonToken_of_split b ('-' :: d :: ds1) rest1 hbody
              (by
                intro x hx
                rcases List.mem_cons.mp hx with rfl | hx
                · decide
                · exact digit_not_space x (hdig x hx)) hsp
            have hr : IsInt64 (literalValue ('-' :: d :: ds1)) := by
              simp only [literalValue, if_true, IsInt64, MinInt64, MaxInt64]
              omega
            simp only [isIntegerJSON, ht, isIntegerLiteral, if_true, hnat, hr, decide_True,
              Bool.and_self]
        · have hplus : c ≠ '+' := by
            rcases hc with hc | hc
            · exact absurd hc hm
            · rintro rfl; revert hc; decide
          obtain ⟨hdig, hval⟩ := ParseInt_unsigned_some c ds m hplus hm hP
          obtain ⟨hnat, hsp⟩ := scan_natLiteral ScanState.beginValue c ds rest1
            (scanStep_beginValue_digit c (hdig c (by simp))) hdig hhead hv
          have ht := jsonToken_of_split b (c :: ds) rest1 hbody
            (fun x hx => digit_not_space x (hdig x hx)) hsp
          have hr : IsInt64 (literalValue (c :: ds)) := by
            simp only [literalValue, hm, if_false, IsInt64, MinInt64, MaxInt64]
            omega
          simp only [isIntegerJSON, ht, isIntegerLiteral, hm, if_false, hnat, hr, decide_True,
            Bool.and_self]

/-! ## Decimal text denotes its number -/

theorem decValue_append_singleton (xs : List Char) (c : Char) :
    decValue (xs ++ [c]) = decValue xs * 10 + (c.toNat - '0'.toNat) := by
  simp [decValue, List.foldl_append]

theorem decValue_formatDec (n : Nat) : decValue (formatDec n) = n := by
  induction n using Nat.strong_induction_on with
  | _ n ih =>
    by_cases h : n < 10
    · rw [formatDec_lt n h]
      have := digitChar_toNat n h
      simp [decValue, this]
    · rw [formatDec_ge n (by omega), decValue_append_singleton, ih (n / 10) (by omega),
        digitChar_toNat (n % 10) (by omega)]
      simp
      omega

theorem isNatLiteral_formatDec (n : Nat) : isNatLiteral (formatDec n) = true := by
  obtain ⟨c, cs, e, hcs, hc⟩ := formatDec_shape n
  rw [e]
  rcases hc with ⟨_, rfl, rfl⟩ | ⟨_, hc⟩
  · decide
  · have h0 : c ≠ '0' := by rintro rfl; revert hc; decide
    simp only [isNatLiteral, h0, if_false, hc, and_self, decide_True, Bool.true_and,
      List.all_eq_true, decide_eq_true_eq]
    exact hcs

/-! ## `fmtCommas` on ASCII text -/

theorem utf8Size_ascii (c : Char) (h : c.toNat ≤ 127) : c.utf8Size = 1 := by
  unfold Char.utf8Size
  have : c.val ≤ UInt32.ofNatCore 127 (by decide) := by
    show c.val.toNat ≤ 127
    exact h
  exact if_pos this

theorem reverse_eq (s : List Char) : reverse s = s.reverse := by
  have : ∀ (s acc : List Char), s.foldl (fun result v => v :: result) acc = s.reverse ++ acc := by
    intro s
    induction s with
    | nil => intro acc; rfl
    | cons x xs ih => intro acc; simp [List.foldl_cons, ih]
  simp [reverse, this s []]

theorem byteLen_ascii (s : List Char) (h : ∀ c ∈ s, c.toNat ≤ 127) : byteLen s = s.length := by
  induction s with
  | nil => rfl
  | cons x xs ih =>
    simp only [byteLen, List.map_cons, List.sum_cons, List.length_cons] at ih ⊢
    rw [utf8Size_ascii x (h x (List.mem_cons_self x xs)),
      ih (fun c hc => h c (List.mem_cons_of_mem x hc))]
    omega

theorem fmtCommasStep_ascii (l1 : Int) (i : Nat) (buf : List Char) (r : Char)
    (h : r.toNat ≤ 127) :
    fmtCommasStep 3 2 l1 (i, buf) r
      = (i + 1, if (i : Int) % 3 = 2 ∧ (i : Int) ≠ l1 then buf ++ [r, ','] else buf ++ [r]) := by
  simp only [fmtCommasStep, utf8Size_ascii r h]
  split <;> simp

theorem fmtCommas_loop : ∀ (xs : List Char) (i : Nat) (buf : List Char) (l1 : Int),
    (∀ c ∈ xs, c.toNat ≤ 127) → i % 3 = 0 → l1 = (i : Int) + xs.length - 1 →
    (xs.foldl (fmtCommasStep 3 2 l1) (i, buf)).2 = buf ++ groupRev xs
  | [], i, buf, l1, _, _, _ => by simp [groupRev]
  | [a], i, buf, l1, h, hi, hl => by
    have ha := h a (by simp)
    have h1 : ¬ ((i : Int) % 3 = 2 ∧ (i : Int) ≠ l1) := by omega
    simp only [List.foldl_cons, List.foldl_nil, fmtCommasStep_ascii _ _ _ _ ha, groupRev, h1,
      if_false]
  | [a, b], i, buf, l1, h, hi, hl => by
    have ha := h a (by simp)
    have hb := h b (by simp)
    have h1 : ¬ ((i : Int) % 3 = 2 ∧ (i : Int) ≠ l1) := by omega
    have h2 : ¬ (((i + 1 : Nat) : Int) % 3 = 2 ∧ ((i + 1 : Nat) : Int) ≠ l1) := by
      push_cast; omega
    simp only [List.foldl_cons, List.foldl_nil, fmtCommasStep_ascii _ _ _ _ ha,
      fmtCommasStep_ascii _ _ _ _ hb, groupRev, h1, h2, if_false, List.append_assoc,
      List.singleton_append]
  | [a, b, c], i, buf, l1, h, hi, hl => by
    have ha := h a (by simp)
    have hb := h b (by simp)
    have hc := h c (by simp)
    have hl2 : l1 = (i : Int) + 2 := by
      rw [hl]; simp only [List.length_cons, List.length_nil]; push_cast; omega
    have h1 : ¬ ((i : Int) % 3 = 2 ∧ (i : Int) ≠ l1) := by omega
    have h2 : ¬ (((i + 1 : Nat) : Int) % 3 = 2 ∧ ((i + 1 : Nat) : Int) ≠ l1) := by
      push_cast; omega
    have h3 : ¬ (((i + 1 + 1 : Nat) : Int) % 3 = 2 ∧ ((i + 1 + 1 : Nat) : Int) ≠ l1) := by
      push_cast; omega
    simp only [List.foldl_cons, List.foldl_nil, fmtCommasStep_ascii _ _ _ _ ha,
      fmtCommasStep_ascii _ _ _ _ hb, fmtCommasStep_ascii _ _ _ _ hc, groupRev, h1, h2, h3,
      if_false, List.append_assoc, List.singleton_append, List.cons_append, List.nil_append]
  | a :: b :: c :: d :: rest, i, buf, l1, h, hi, hl => by
    have ha := h a (by simp)
    have hb := h b (by simp)
    have hc := h c (by simp)
    have hl2 : l1 = (i : Int) + 3 + rest.length := by
      rw [hl]; simp only [List.length_cons]; push_cast; omega
    have ih := fmtCommas_loop (d :: rest) (i + 3) (buf ++ [a, b, c, ',']) l1
      (fun x hx => h x (by simp at hx ⊢; tauto)) (by omega)
      (by rw [hl2]; simp only [List.length_cons]; push_cast; omega)
    have h1 : ¬ ((i : Int) % 3 = 2 ∧ (i : Int) ≠ l1) := by omega
    have h2 : ¬ (((i + 1 : Nat) : Int) % 3 = 2 ∧ ((i + 1 : Nat) : Int) ≠ l1) := by
      push_cast; omega
    have h3 : ((i + 1 + 1 : Nat) : Int) % 3 = 2 ∧ ((i + 1 + 1 : Nat) : Int) ≠ l1 := by
      push_cast; omega
    rw [List.foldl_cons, fmtCommasStep_ascii _ _ _ _ ha, if_neg h1]
    rw [List.foldl_cons, fmtCommasStep_ascii _ _ _ _ hb, if_neg h2]
    rw [List.foldl_cons, fmtCommasStep_ascii _ _ _ _ hc, if_pos h3]
    have e : buf ++ [a] ++ [b] ++ [c, ','] = buf ++ [a, b, c, ','] := by simp
    rw [e, show i + 1 + 1 + 1 = i + 3 from rfl, ih, groupRev]
    simp

theorem fmtCommas_ascii (s : List Char) (h : ∀ c ∈ s, c.toNat ≤ 127) :
    fmtCommas s = (groupRev s.reverse).reverse := by
  have hr : ∀ c ∈ s.reverse, c.toNat ≤ 127 := fun c hc => h c (List.mem_reverse.mp hc)
  simp only [fmtCommas, reverse_eq]
  rw [byteLen_ascii _ hr]
  have := fmtCommas_loop s.reverse 0 [] ((s.reverse.length : Int) - 1) hr rfl (by simp)
  rw [show ((3 : Int) - 1) = 2 from rfl, this]
  simp
theorem groupRev_grouped : ∀ (rs : List Char), rs ≠ [] →
    IsGroupedBy3 (groupRev rs).reverse rs.reverse
  | [], h => absurd rfl h
  | [a], _ => ⟨[a], [], by simp, by simp, by simp, by simp, by simp [groupRev]⟩
  | [a, b], _ => ⟨[b, a], [], by simp, by simp, by simp, by simp, by simp [groupRev]⟩
  | [a, b, c], _ => ⟨[c, b, a], [], by simp, by simp, by simp, by simp, by simp [groupRev]⟩
  | a :: b :: c :: d :: rest, _ => by
    obtain ⟨first, groups, h1, h2, h3, h4, h5⟩ := groupRev_grouped (d :: rest) (by simp)
    refine ⟨first, groups ++ [[c, b, a]], h1, h2, ?_, ?_, ?_⟩
    · intro g hg
      rcases List.mem_append.mp hg with hg | hg
      · exact h3 g hg
      · rw [List.mem_singleton] at hg; rw [hg]; rfl
    · have e : (a :: b :: c :: d :: rest).reverse = (d :: rest).reverse ++ [c, b, a] := by simp
      rw [e, h4]
      simp
    · have e : (groupRev (a :: b :: c :: d :: rest)).reverse
          = (groupRev (d :: rest)).reverse ++ [',', c, b, a] := by
        rw [groupRev]; simp
      rw [e, h5]
      simp

theorem groupRev_mem : ∀ (rs : List Char) (x : Char), x ∈ groupRev rs → x ∈ rs ∨ x = ','
  | [], x, h => by simp [groupRev] at h
  | [a], x, h => by simp only [groupRev] at h; exact Or.inl h
  | [a, b], x, h => by simp only [groupRev] at h; exact Or.inl h
  | [a, b, c], x, h => by simp only [groupRev] at h; exact Or.inl h
  | a :: b :: c :: d :: rest, x, h => by
    rw [groupRev] at h
    simp only [List.mem_cons] at h ⊢
    rcases h with h | h | h | h | h
    · exact Or.inl (Or.inl h)
    · exact Or.inl (Or.inr (Or.inl h))
    · exact Or.inl (Or.inr (Or.inr (Or.inl h)))
    · exact Or.inr h
    · rcases groupRev_mem (d :: rest) x h with h | h
      · simp only [List.mem_cons] at h
        exact Or.inl (Or.inr (Or.inr (Or.inr h)))
      · exact Or.inr h

/-- On ASCII text `fmtCommas` groups by three from the right. -/
theorem fmtCommas_grouped (s : List Char) (hs : s ≠ []) (h : ∀ c ∈ s, c.toNat ≤ 127) :
    IsGroupedBy3 (fmtCommas s) s := by
  rw [fmtCommas_ascii s h]
  have := groupRev_grouped s.reverse (by simpa using hs)
  rwa [List.reverse_reverse] at this

theorem fmtCommas_mem (s : List Char) (h : ∀ c ∈ s, c.toNat ≤ 127) (x : Char)
    (hx : x ∈ fmtCommas s) : x ∈ s ∨ x = ',' := by
  rw [fmtCommas_ascii s h, List.mem_reverse] at hx
  rcases groupRev_mem _ x hx with h1 | h1
  · exact Or.inl (List.mem_reverse.mp h1)
  · exact Or.inr h1

/-! ## The shape of a rendered amount -/

theorem Pound_eq : Pound = 100 := by decide

theorem Itoa_natCast (m : Nat) : Itoa (m : Int) = formatDec m := by
  have h : ¬ ((m : Int) < 0) := by omega
  simp only [Itoa, h, if_false, Int.toNat_ofNat]

theorem String_parts (m : Nat) (hm : (m : Int) ≤ MaxInt64) :
    Int.tmod (m : Int) Pound = ((m % 100 : Nat) : Int) ∧
      Int.tdiv (wrap64 ((m : Int) - Int.tmod (m : Int) Pound)) Pound = ((m / 100 : Nat) : Int) := by
  simp only [MaxInt64] at hm
  have h1 : Int.tmod (m : Int) Pound = ((m % 100 : Nat) : Int) := by
    rw [Pound_eq, tmod_hundred, if_pos (by omega)]
    push_cast
    rfl
  refine ⟨h1, ?_⟩
  rw [h1, wrap64_of_isInt64 _ (by simp only [IsInt64, MinInt64, MaxInt64]; omega), Pound_eq,
    tdiv_hundred, if_pos (by omega)]
  push_cast
  omega

/-- The text `String` produces for an amount other than `MinAmount`. -/
theorem String_eq (a : Int) (h : IsInt64 a) (hmin : a ≠ MinInt64) :
    Amount.String a
      = (if a < 0 then ['-'] else []) ++ ['£'] ++ fmtCommas (formatDec (a.natAbs / 100))
          ++ ['.'] ++ (if 0 < a.natAbs % 100 then formatDec (a.natAbs % 100) else ['0', '0']) := by
  have hr := h
  simp only [IsInt64, MinInt64, MaxInt64] at hr hmin
  have key : ∀ amt : Int, amt = (a.natAbs : Int) →
      (if Int.tmod amt Pound > 0 then Itoa (Int.tmod amt Pound) else ['0', '0'])
        = (if 0 < a.natAbs % 100 then formatDec (a.natAbs % 100) else ['0', '0']) ∧
      Itoa (Int.tdiv (wrap64 (amt - Int.tmod amt Pound)) Pound) = formatDec (a.natAbs / 100) := by
    intro amt hamt
    obtain ⟨p1, p2⟩ := String_parts a.natAbs (by simp only [MaxInt64]; omega)
    rw [hamt, p2, p1, Itoa_natCast, Itoa_natCast]
    refine ⟨?_, rfl⟩
    by_cases h0 : 0 < a.natAbs % 100
    · rw [if_pos h0, if_pos (by omega)]
    · rw [if_neg h0, if_neg (by omega)]
  unfold Amount.String
  by_cases hneg : a < 0
  · have e : wrap64 (-a) = (a.natAbs : Int) := by
      rw [wrap64_of_isInt64 _ (by simp only [IsInt64, MinInt64, MaxInt64]; omega)]
      omega
    obtain ⟨k1, k2⟩ := key (wrap64 (-a)) e
    simp only [hneg, if_true, k1, k2]
  · have e : a = (a.natAbs : Int) := by omega
    obtain ⟨k1, k2⟩ := key a e
    simp only [hneg, if_false, k1, k2]

theorem digit_ascii (c : Char) (h : '0' ≤ c ∧ c ≤ '9') : c.toNat ≤ 127 := by
  have := h.2
  rw [char_le_iff] at this
  simp at this
  omega

theorem formatDec_ascii (n : Nat) : ∀ c ∈ formatDec n, c.toNat ≤ 127 :=
  fun c hc => digit_ascii c (formatDec_digits n c hc)

theorem dropWhile_until {α : Type} (p : α → Bool) (xs ys : List α) (y : α)
    (hx : ∀ x ∈ xs, p x = true) (hy : p y = false) :
    (xs ++ y :: ys).dropWhile p = y :: ys := by
  rw [List.dropWhile_append_of_pos hx, List.dropWhile_cons, hy]
  rfl

theorem takeWhile_until {α : Type} (p : α → Bool) (xs ys : List α) (y : α)
    (hx : ∀ x ∈ xs, p x = true) (hy : p y = false) :
    (xs ++ y :: ys).takeWhile p = xs := by
  rw [List.takeWhile_append_of_pos hx, List.takeWhile_cons, hy]
  simp

theorem integerText_parts (sign body frac : List Char) (hs : '£' ∉ sign) (hb : '.' ∉ body) :
    integerText (sign ++ ['£'] ++ body ++ ['.'] ++ frac) = body := by
  have e : sign ++ ['£'] ++ body ++ ['.'] ++ frac = sign ++ '£' :: (body ++ '.' :: frac) := by
    simp
  rw [integerText, e, dropWhile_until _ sign _ '£' _ (by simp), List.tail_cons,
    takeWhile_until _ body frac '.' _ (by simp)]
  · intro x hx
    have : x ≠ '.' := fun hh => hb (hh ▸ hx)
    simp [this]
  · intro x hx
    have : x ≠ '£' := fun hh => hs (hh ▸ hx)
    simp [this]

theorem fractionText_parts (sign body frac : List Char) (hs : '.' ∉ sign) (hb : '.' ∉ body) :
    fractionText (sign ++ ['£'] ++ body ++ ['.'] ++ frac) = frac := by
  have e : sign ++ ['£'] ++ body ++ ['.'] ++ frac = (sign ++ '£' :: body) ++ '.' :: frac := by
    simp
  rw [fractionText, e, dropWhile_until _ _ frac '.' _ (by simp), List.tail_cons]
  intro x hx
  have : x ≠ '.' := by
    rintro rfl
    rcases List.mem_append.mp hx with hx | hx
    · exact hs hx
    · rcases List.mem_cons.mp hx with hx | hx
      · exact absurd hx (by decide)
      · exact hb hx
  simp [this]

/-- The runes of the grouped integer part are digits and commas. -/
theorem fmtCommas_formatDec_mem (n : Nat) (x : Char) (hx : x ∈ fmtCommas (formatDec n)) :
    ('0' ≤ x ∧ x ≤ '9') ∨ x = ',' := by
  rcases fmtCommas_mem _ (formatDec_ascii n) x hx with h | h
  · exact Or.inl (formatDec_digits n x h)
  · exact Or.inr h

theorem fmtCommas_formatDec_no_dot (n : Nat) : '.' ∉ fmtCommas (formatDec n) := by
  intro h
  rcases fmtCommas_formatDec_mem n '.' h with h | h
  · revert h; decide
  · revert h; decide

/-- Away from `MinAmount` the integer part of a rendered amount is the
decimal text of `|a| / 100` grouped by three from the right, and no comma
stands in the fraction (the part of C3 the code meets). -/
theorem String_integerText_grouped (a : Int) (h : IsInt64 a) (hmin : a ≠ MinInt64) :
    IsGroupedBy3 (integerText (Amount.String a)) (formatDec (a.natAbs / 100)) ∧
      ',' ∉ fractionText (Amount.String a) := by
  rw [String_eq a h hmin]
  have hs1 : '£' ∉ (if a < 0 then ['-'] else []) := by split <;> decide
  have hs2 : '.' ∉ (if a < 0 then ['-'] else []) := by split <;> decide
  rw [integerText_parts _ _ _ hs1 (fmtCommas_formatDec_no_dot _),
    fractionText_parts _ _ _ hs2 (fmtCommas_formatDec_no_dot _)]
  refine ⟨fmtCommas_grouped _ (formatDec_ne_nil _) (formatDec_ascii _), ?_⟩
  split
  · intro hc
    have := formatDec_digits _ _ hc
    revert this; decide
  · decide

/-- Away from `MinAmount` the fraction of a rendered amount is the remainder
`|a| mod 100` written by `strconv.Itoa`, or `00` for the remainder zero: two
digits exactly when the remainder is zero or at least ten (the part of C1 the
code meets), and one digit otherwise. -/
theorem String_fractionText (a : Int) (h : IsInt64 a) (hmin : a ≠ MinInt64) :
    fractionText (Amount.String a)
        = (if 0 < a.natAbs % 100 then formatDec (a.natAbs % 100) else ['0', '0']) ∧
      ((a.natAbs % 100 = 0 ∨ 10 ≤ a.natAbs % 100) →
        fractionText (Amount.String a) = zeroPad2 (formatDec (a.natAbs % 100))) ∧
      ((1 ≤ a.natAbs % 100 ∧ a.natAbs % 100 ≤ 9) →
        fractionText (Amount.String a) = [Nat.digitChar (a.natAbs % 100)]) := by
  have hs2 : '.' ∉ (if a < 0 then ['-'] else []) := by split <;> decide
  have e : fractionText (Amount.String a)
      = (if 0 < a.natAbs % 100 then formatDec (a.natAbs % 100) else ['0', '0']) := by
    rw [String_eq a h hmin, fractionText_parts _ _ _ hs2 (fmtCommas_formatDec_no_dot _)]
  refine ⟨e, ?_, ?_⟩
  · rintro (h0 | h10)
    · rw [e, h0]; decide
    · have hlt : a.natAbs % 100 / 10 < 10 := by omega
      rw [e, if_pos (by omega), formatDec_ge _ h10, formatDec_lt _ hlt]
      rfl
  · rintro ⟨h1, h9⟩
    rw [e, if_pos (by omega), formatDec_lt _ (by omega)]

/-- Away from `MinAmount` a rendered amount opens with `-£` when negative
and with `£` otherwise, and has no further `-` (the part of C2 the code
meets). -/
theorem String_sign (a : Int) (h : IsInt64 a) (hmin : a ≠ MinInt64) :
    (a < 0 → ∃ rest, Amount.String a = '-' :: '£' :: rest ∧ '-' ∉ rest) ∧
      (0 ≤ a → ∃ rest, Amount.String a = '£' :: rest ∧ '-' ∉ rest) := by
  have hrest : '-' ∉ fmtCommas (formatDec (a.natAbs / 100)) ++ ['.']
      ++ (if 0 < a.natAbs % 100 then formatDec (a.natAbs % 100) else ['0', '0']) := by
    intro hc
    rcases List.mem_append.mp hc with hc | hc
    · rcases List.mem_append.mp hc with hc | hc
      · rcases fmtCommas_formatDec_mem _ _ hc with h1 | h1 <;> revert h1 <;> decide
      · revert hc; decide
    · split at hc
      · have := formatDec_digits _ _ hc
        revert this; decide
      · revert hc; decide
  rw [String_eq a h hmin]
  constructor
  · intro hneg
    refine ⟨_, ?_, hrest⟩
    simp only [hneg, if_true, List.cons_append, List.nil_append, List.append_assoc]
  · intro hpos
    have hneg : ¬ a < 0 := by omega
    refine ⟨_, ?_, hrest⟩
    simp only [hneg, if_false, List.cons_append, List.nil_append, List.append_assoc]

/-! ## The claims -/

/-- C1 (the code departs from it): the fraction of a rendered amount is not
always two digits.  Five pence is rendered `£0.5`: the remainder `5` is
written by `strconv.Itoa` without the padding `0`, where the claim requires
the fraction `05`. -/
theorem String_fraction_single_digit :
    Amount.String 5 = ['£', '0', '.', '5'] ∧
      fractionText (Amount.String 5) = ['5'] ∧
      zeroPad2 (formatDec ((5 : Int).natAbs % 100)) = ['0', '5'] ∧
      fractionText (Amount.String 5) ≠ zeroPad2 (formatDec ((5 : Int).natAbs % 100)) := by
  decide

/-- C2 (the code departs from it): `MinAmount` is rendered with two `-`
signs, `-£-92,233,720,368,547,758.00`; the negation of the working copy
overflows and leaves it negative. -/
theorem String_MinAmount_two_signs :
    Amount.String MinAmount = "-£-92,233,720,368,547,758.00".toList ∧
      (Amount.String MinAmount).count '-' = 2 := by
  decide

/-- C3 (the code departs from it): for `MinAmount` the text between `£` and
`.` is `-92,233,720,368,547,758`; with the commas removed it is not the
decimal representation of `|MinAmount| / 100`. -/
theorem String_MinAmount_integerText :
    integerText (Amount.String MinAmount) = "-92,233,720,368,547,758".toList ∧
      (integerText (Amount.String MinAmount)).filter (fun c => c ≠ ',')
        ≠ formatDec (MinAmount.natAbs / 100) := by
  decide

/-- C4: for every `Amount` in the `int64` range, `MarshalJSON` succeeds and
`UnmarshalJSON` applied to its output succeeds and sets the receiver,
whatever it held, to exactly that amount. -/
theorem JSON_roundtrip (a r : Amount) (h : IsInt64 a) :
    (Amount.MarshalJSON a).2 = none ∧
      Amount.UnmarshalJSON r (Amount.MarshalJSON a).1 = (a, none) := by
  refine ⟨rfl, ?_⟩
  simp only [Amount.UnmarshalJSON, Amount.MarshalJSON, jsonMarshalInt64, Amount.Pence,
    jsonUnmarshalInt64_Itoa a 0 h, FromPence]

/-- The round trip at `MinAmount`, with a receiver that held `7`. -/
theorem JSON_roundtrip_witness :
    IsInt64 MinAmount ∧ (Amount.MarshalJSON MinAmount).2 = none ∧
      Amount.UnmarshalJSON 7 (Amount.MarshalJSON MinAmount).1 = (MinAmount, none) :=
  ⟨by decide, JSON_roundtrip MinAmount 7 (by decide)⟩

/-- C5 as stated fails: the payload `null` is not an integer JSON number,
yet `UnmarshalJSON` returns a nil error on it and sets the receiver to `0`. -/
theorem UnmarshalJSON_null_no_error :
    isIntegerJSON ['n', 'u', 'l', 'l'] = false ∧
      Amount.UnmarshalJSON 7 ['n', 'u', 'l', 'l'] = (0, none) := by
  decide

/-- C5, amended: for every payload that is neither an integer JSON number in
the `int64` range nor the JSON literal `null` (each with optional whitespace
around it), `UnmarshalJSON` returns a non-nil error and leaves the receiver
as it was. -/
theorem UnmarshalJSON_error (r : Amount) (b : List Char)
    (hint : isIntegerJSON b = false) (hnull : isNullJSON b = false) :
    Amount.UnmarshalJSON r b = (r, some GoError.unmarshalToInt64) := by
  cases hres : jsonUnmarshalInt64 b 0 with
  | none => simp only [Amount.UnmarshalJSON, hres]
  | some n =>
    rcases jsonUnmarshalInt64_some b 0 n hres with h | h
    · rw [h] at hnull; exact absurd hnull (by decide)
    · rw [h] at hint; exact absurd hint (by decide)

/-- The payload `1.5` is rejected and the receiver keeps its value `7`. -/
theorem UnmarshalJSON_error_witness :
    isIntegerJSON ['1', '.', '5'] = false ∧ isNullJSON ['1', '.', '5'] = false ∧
      Amount.UnmarshalJSON 7 ['1', '.', '5'] = (7, some GoError.unmarshalToInt64) :=
  ⟨by decide, by decide, UnmarshalJSON_error 7 ['1', '.', '5'] (by decide) (by decide)⟩

/-- C6: for every `Amount`, `MarshalJSON` returns no error and its bytes are
the decimal text of the pence: a `-` exactly when the amount is negative,
followed by digits in the form `0|[1-9][0-9]*` that denote its magnitude; no
other byte (quote, currency symbol, decimal point, brace) occurs. -/
theorem MarshalJSON_bare_integer (a : Amount) :
    (Amount.MarshalJSON a).2 = none ∧
      (∃ ds, isNatLiteral ds = true ∧ decValue ds = (Amount.Pence a).natAbs ∧
        (Amount.MarshalJSON a).1 = if a < 0 then '-' :: ds else ds) ∧
      ∀ c ∈ (Amount.MarshalJSON a).1, c = '-' ∨ ('0' ≤ c ∧ c ≤ '9') := by
  refine ⟨rfl, ?_, ?_⟩
  · by_cases hneg : a < 0
    · refine ⟨formatDec (-a).toNat, isNatLiteral_formatDec _, ?_, ?_⟩
      · rw [decValue_formatDec]; simp only [Amount.Pence, Amount] at *; omega
      · simp only [Amount.MarshalJSON, jsonMarshalInt64, Amount.Pence, Itoa, hneg, if_true]
    · refine ⟨formatDec a.toNat, isNatLiteral_formatDec _, ?_, ?_⟩
      · rw [decValue_formatDec]; simp only [Amount.Pence, Amount] at *; omega
      · simp only [Amount.MarshalJSON, jsonMarshalInt64, Amount.Pence, Itoa, hneg, if_false]
  · intro c hc
    simp only [Amount.MarshalJSON, jsonMarshalInt64, Amount.Pence, Itoa] at hc
    split at hc
    · rcases List.mem_cons.mp hc with rfl | hc
      · exact Or.inl rfl
      · exact Or.inr (formatDec_digits _ c hc)
    · exact Or.inr (formatDec_digits _ c hc)

/-- C7: `FromPence` and `Pence` are mutually inverse; the statement holds for
every integer, so in particular on the whole `int64` range. -/
theorem FromPence_Pence_inverse (p : Int) (a : Amount) :
    Amount.Pence (FromPence p) = p ∧ FromPence (Amount.Pence a) = a :=
  ⟨rfl, rfl⟩

/-- C8: `Max` is an upper bound of its arguments and one of them; `Min` is a
lower bound of its arguments and one of them. -/
theorem Max_Min_bounds (a b : Amount) :
    Max a b ≥ a ∧ Max a b ≥ b ∧ (Max a b = a ∨ Max a b = b) ∧
      Min a b ≤ a ∧ Min a b ≤ b ∧ (Min a b = a ∨ Min a b = b) := by
  unfold Max Min
  refine ⟨?_, ?_, ?_, ?_, ?_, ?_⟩ <;> split <;> rename_i h
  · exact le_refl a
  · exact not_lt.mp h
  · exact le_of_lt h
  · exact le_refl b
  · exact Or.inl rfl
  · exact Or.inr rfl
  · exact le_refl a
  · exact not_lt.mp h
  · exact le_of_lt h
  · exact le_refl b
  · exact Or.inl rfl
  · exact Or.inr rfl

/-- C10: `Pounds` adds the conversion of `w` to the conversion of `r`
divided by one hundred, where `w` and `r` are the quotient and remainder of
the truncating division of the pence by 100: the only integers with
`w * 100 + r = pence`, `|r| < 100` and `r` zero or of the sign of the
amount.  For `-1` pence they are `0` and `-1`, not `-1` and `99`. -/
theorem Pounds_truncating {F : Type} (ops : Float64Ops F) (a : Amount) :
    (∃ w r : Int, w * 100 + r = Amount.Pence a ∧ |r| < 100 ∧
        (r = 0 ∨ (0 < r ∧ 0 < a) ∨ (r < 0 ∧ a < 0))) ∧
      (∀ w r : Int, w * 100 + r = Amount.Pence a → |r| < 100 →
        (r = 0 ∨ (0 < r ∧ 0 < a) ∨ (r < 0 ∧ a < 0)) →
        (w = Int.tdiv a 100 ∧ r = Int.tmod a 100) ∧
        Amount.Pounds ops a
          = ops.add (ops.ofAmount w) (ops.div (ops.ofAmount r) ops.hundred)) ∧
      Amount.Pounds ops (-1)
        = ops.add (ops.ofAmount 0) (ops.div (ops.ofAmount (-1)) ops.hundred) := by
  have hq := tdiv_hundred a
  have hr := tmod_hundred a
  have key : ∀ w r : Int, w * 100 + r = a → |r| < 100 →
      (r = 0 ∨ (0 < r ∧ 0 < a) ∨ (r < 0 ∧ a < 0)) →
      w = Int.tdiv a 100 ∧ r = Int.tmod a 100 := by
    intro w r h1 h2 h3
    rw [abs_lt] at h2
    simp only [Amount] at *
    rw [hq, hr]
    split <;> omega
  refine ⟨⟨Int.tdiv a 100, Int.tmod a 100, ?_, ?_, ?_⟩, ?_, ?_⟩
  · simp only [Amount.Pence, Amount] at *
    rw [hq, hr]
    split <;> omega
  · rw [abs_lt]
    simp only [Amount] at *
    rw [hr]
    split <;> omega
  · simp only [Amount] at *
    rw [hr]
    split <;> omega
  · intro w r h1 h2 h3
    obtain ⟨hw, hr⟩ := key w r h1 h2 h3
    refine ⟨⟨hw, hr⟩, ?_⟩
    rw [hw, hr]
    rfl
  · rfl


/-! ## Reading a rendered amount back -/

theorem groupRev_filter : ∀ (rs : List Char),
    (groupRev rs).filter (fun c => decide (c ≠ ',')) = rs.filter (fun c => decide (c ≠ ','))
  | [] => rfl
  | [_] => rfl
  | [_, _] => rfl
  | [_, _, _] => rfl
  | a :: b :: c :: d :: rest => by
    rw [groupRev]
    have ih := groupRev_filter (d :: rest)
    simp only [List.filter_cons, ih]
    simp

/-- Without its commas the grouped text is the text that was grouped. -/
theorem fmtCommas_filter (s : List Char) (h : ∀ c ∈ s, '0' ≤ c ∧ c ≤ '9') :
    (fmtCommas s).filter (fun c => decide (c ≠ ',')) = s := by
  rw [fmtCommas_ascii s (fun c hc => digit_ascii c (h c hc)), List.filter_reverse,
    groupRev_filter, ← List.filter_reverse, List.reverse_reverse]
  apply List.filter_eq_self.mpr
  intro c hc
  have := h c hc
  have hne : c ≠ ',' := by
    rintro rfl
    revert this; decide
  simp [hne]

/-- The grouped decimal text determines the number. -/
theorem fmtCommas_formatDec_injective (m n : Nat)
    (h : fmtCommas (formatDec m) = fmtCommas (formatDec n)) : m = n := by
  have h1 := congrArg (List.filter (fun c => decide (c ≠ ','))) h
  rw [fmtCommas_filter _ (formatDec_digits m), fmtCommas_filter _ (formatDec_digits n)] at h1
  have h2 := congrArg decValue h1
  rwa [decValue_formatDec, decValue_formatDec] at h2

/-- The fraction determines the remainder. -/
theorem fraction_injective (r s : Nat)
    (h : (if 0 < r then formatDec r else ['0', '0'])
      = (if 0 < s then formatDec s else ['0', '0'])) : r = s := by
  have key : ∀ k : Nat, decValue (if 0 < k then formatDec k else ['0', '0']) = k := by
    intro k
    by_cases hk : 0 < k
    · rw [if_pos hk, decValue_formatDec]
    · have : k = 0 := by omega
      subst this
      rfl
  have h2 := congrArg decValue h
  rwa [key, key] at h2

/-- Two amounts other than `MinAmount` with the same text are equal. -/
theorem String_injective_away (a b : Int) (ha : IsInt64 a) (hb : IsInt64 b)
    (hamin : a ≠ MinInt64) (hbmin : b ≠ MinInt64) (h : Amount.String a = Amount.String b) :
    a = b := by
  have hsign : a < 0 ↔ b < 0 := by
    obtain ⟨an, ap⟩ := String_sign a ha hamin
    obtain ⟨bn, bp⟩ := String_sign b hb hbmin
    constructor
    · intro hneg
      by_contra hb0
      obtain ⟨ra, hra, _⟩ := an hneg
      obtain ⟨rb, hrb, _⟩ := bp (by omega)
      rw [hra, hrb] at h
      injection h with h1 _
      exact absurd h1 (by decide)
    · intro hneg
      by_contra ha0
      obtain ⟨ra, hra, _⟩ := ap (by omega)
      obtain ⟨rb, hrb, _⟩ := bn hneg
      rw [hra, hrb] at h
      injection h with h1 _
      exact absurd h1 (by decide)
  have hq : a.natAbs / 100 = b.natAbs / 100 := by
    have h1 := congrArg integerText h
    rw [String_eq a ha hamin, String_eq b hb hbmin] at h1
    have hs1 : ∀ x : Int, '£' ∉ (if x < 0 then ['-'] else []) := by
      intro x; split <;> decide
    rw [integerText_parts _ _ _ (hs1 a) (fmtCommas_formatDec_no_dot _),
      integerText_parts _ _ _ (hs1 b) (fmtCommas_formatDec_no_dot _)] at h1
    exact fmtCommas_formatDec_injective _ _ h1
  have hr : a.natAbs % 100 = b.natAbs % 100 := by
    have h1 := (String_fractionText a ha hamin).1
    have h2 := (String_fractionText b hb hbmin).1
    rw [h, h2] at h1
    exact (fraction_injective _ _ h1).symm
  have habs : a.natAbs = b.natAbs := by omega
  omega

/-- The text of `MinAmount` is the text of no other amount. -/
theorem String_MinInt64_unique (b : Int) (hb : IsInt64 b) (hbmin : b ≠ MinInt64)
    (h : Amount.String MinInt64 = Amount.String b) : False := by
  have hmin : Amount.String MinInt64 = '-' :: '£' :: '-' :: "92,233,720,368,547,758.00".toList := by
    decide
  obtain ⟨bn, bp⟩ := String_sign b hb hbmin
  rw [hmin] at h
  by_cases hneg : b < 0
  · obtain ⟨rb, hrb, hno⟩ := bn hneg
    rw [hrb] at h
    injection h with _ h1
    injection h1 with _ h2
    rw [← h2] at hno
    exact hno (List.mem_cons_self _ _)
  · obtain ⟨rb, hrb, _⟩ := bp (by omega)
    rw [hrb] at h
    injection h with h1 _
    exact absurd h1 (by decide)

/-- C27: `Amount.String` is injective over the whole `int64` range: two
amounts are rendered as the same text only when they are equal.  This holds
with the one-digit fractions (`£0.5` for five pence differs from `£0.50` for
fifty pence) and with the text of `MinAmount`, the only one with a `-` after
the `£`. -/
theorem String_injective (a b : Amount) (ha : IsInt64 a) (hb : IsInt64 b) :
    Amount.String a = Amount.String b ↔ a = b := by
  constructor
  · intro h
    by_cases hamin : a = MinInt64
    · by_cases hbmin : b = MinInt64
      · rw [hamin, hbmin]
      · rw [hamin] at h
        exact absurd h (fun hh => String_MinInt64_unique b hb hbmin hh)
    · by_cases hbmin : b = MinInt64
      · rw [hbmin] at h
        exact absurd h.symm (fun hh => String_MinInt64_unique a ha hamin hh)
      · exact String_injective_away a b ha hb hamin hbmin h
  · intro h
    rw [h]

/-- Five pence and fifty pence, and `MinAmount` and the amount eight pence
above it, are rendered differently. -/
theorem String_injective_witness :
    IsInt64 5 ∧ IsInt64 50 ∧ Amount.String 5 ≠ Amount.String 50 ∧
      IsInt64 MinAmount ∧ IsInt64 (-9223372036854775800) ∧
      Amount.String MinAmount ≠ Amount.String (-9223372036854775800) :=
  ⟨by decide, by decide,
    fun h => absurd ((String_injective 5 50 (by decide) (by decide)).mp h) (by decide),
    by decide, by decide,
    fun h => absurd ((String_injective MinAmount (-9223372036854775800) (by decide)
      (by decide)).mp h) (by decide)⟩


/-! ## The exact `float64` operations -/

/-- The fuel of `floorLog2` is enough: it computes the binary logarithm. -/
theorem log2Fuel_eq : ∀ (fuel n : Nat), n ≤ fuel → log2Fuel fuel n = Nat.log2 n := by
  intro fuel
  induction fuel with
  | zero =>
    intro n h
    have : n = 0 := by omega
    subst this
    rw [Nat.log2]
    simp [log2Fuel]
  | succ f ih =>
    intro n h
    rw [Nat.log2]
    by_cases h2 : n < 2
    · simp [log2Fuel, h2, Nat.not_le.mpr h2]
    · have hge : n ≥ 2 := by omega
      rw [log2Fuel, if_neg h2, if_pos hge, ih (n / 2) (by omega)]

theorem floorLog2_eq (n : Nat) : floorLog2 n = Nat.log2 n := log2Fuel_eq n n (Nat.le_refl n)

set_option maxRecDepth 4000 in
/-- C11 (the code departs from it): for the amount 72057594045927800, a
whole number of pounds, `Floor` returns 72057594045927808: the product of
the pounds and 100 is above `2^53` and is rounded to a multiple of 16.  The
pounds of the result, 720575940459278.125, are above the pounds of the
amount, 720575940459278.  Likewise `Ceil` of 900000000001000003 is
900000000000999936, whose pounds are below those of the amount.  No value
leaves the range of `int64`. -/
theorem Floor_Ceil_cross_amount :
    (0 < (72057594045927800 : Amount) ∧ (72057594045927800 : Amount) ≤ MaxAmount) ∧
      Amount.Pounds binary64 72057594045927800 = some ⟨5764607523674224, -3⟩ ∧
      Amount.Floor 72057594045927800 = some 72057594045927808 ∧
      Amount.Pounds binary64 72057594045927808 = some ⟨5764607523674225, -3⟩ ∧
      Float64.le ⟨5764607523674225, -3⟩ ⟨5764607523674224, -3⟩ = false ∧
      (0 < (900000000001000003 : Amount) ∧ (900000000001000003 : Amount) ≤ MaxAmount) ∧
      Amount.Pounds binary64 900000000001000003 = some ⟨9000000000010000, 0⟩ ∧
      Amount.Ceil 900000000001000003 = some 900000000000999936 ∧
      Amount.Pounds binary64 900000000000999936 = some ⟨9000000000009999, 0⟩ ∧
      Float64.le ⟨9000000000010000, 0⟩ ⟨9000000000009999, 0⟩ = false := by
  decide

set_option maxRecDepth 4000 in
/-- C26 (the code departs from it): the pounds of 29 pence are the `float64`
nearest to 0.29, `5224175567749775 / 2^54`, just below 0.29; their product
with 100 is rounded to `29 - 2^-48`, which `FromPounds` cuts to 28 pence.
The amounts of the paired tables (123, 12, 10123 and their negatives) come
back unchanged. -/
theorem FromPounds_Pounds_loses_penny :
    IsInt64 29 ∧ (29 : Amount).natAbs < 2 ^ 53 ∧
      Amount.Pounds binary64 29 = some ⟨5224175567749775, -54⟩ ∧
      Float64.mul ⟨5224175567749775, -54⟩ ⟨7036874417766400, -46⟩
        = some ⟨8162774324609023, -48⟩ ∧
      (8162774324609023 : Int) = 29 * 2 ^ 48 - 1 ∧
      (Amount.Pounds binary64 29).bind FromPounds = some 28 ∧
      (Amount.Pounds binary64 123).bind FromPounds = some 123 ∧
      (Amount.Pounds binary64 12).bind FromPounds = some 12 ∧
      (Amount.Pounds binary64 10123).bind FromPounds = some 10123 ∧
      (Amount.Pounds binary64 (-123)).bind FromPounds = some (-123) ∧
      (Amount.Pounds binary64 (-12)).bind FromPounds = some (-12) ∧
      (Amount.Pounds binary64 (-10123)).bind FromPounds = some (-10123) := by
  decide

end Money

namespace Rest

/-! ## The response a history amounts to -/

theorem response_append (t es : List Event) :
    response (t ++ es) = es.foldl Response.step (response t) := by
  simp [response, List.foldl_append]

theorem WriteHeader_eq (code : Int) (t : List Event)
    (h : (response t).wroteHeader = true ∨ (100 ≤ code ∧ code ≤ 999)) :
    WriteHeader code t = (Outcome.ret (), t ++ [Event.writeHeader code]) := by
  unfold WriteHeader
  by_cases hw : (response t).wroteHeader = true
  · rw [if_pos hw]
  · rcases h with h | h
    · exact absurd h hw
    · rw [if_neg hw, if_neg (by omega)]

theorem response_headerSet (t : List Event) (k v : String) :
    (response (t ++ [Event.headerSet k v])).wroteHeader = (response t).wroteHeader := by
  rw [response_append]; rfl

theorem Respond_none_eq (status : Int) (t : List Event)
    (h : (response t).wroteHeader = true ∨ (100 ≤ status ∧ status ≤ 999)) :
    Respond status none t
      = (Outcome.ret (), t ++ [Event.headerSet "Content-Type" "application/json",
          Event.writeHeader status]) := by
  have hw := WriteHeader_eq status (t ++ [Event.headerSet "Content-Type" "application/json"])
    (by rw [response_headerSet]; exact h)
  simp only [Respond, bind, Go.bind, headerSet, emit, hw, pure, Go.pure, List.append_assoc,
    List.singleton_append]

theorem Respond_some_eq (status : Int) (d : Value) (t : List Event)
    (h : (response t).wroteHeader = true ∨ (100 ≤ status ∧ status ≤ 999))
    (he : d.encodeErr = none) :
    Respond status (some d) t
      = (Outcome.ret (), t ++ [Event.headerSet "Content-Type" "application/json",
          Event.writeHeader status, Event.write d]) := by
  have hw := WriteHeader_eq status (t ++ [Event.headerSet "Content-Type" "application/json"])
    (by rw [response_headerSet]; exact h)
  simp only [Respond, bind, Go.bind, headerSet, emit, hw, jsonEncode, he, pure, Go.pure,
    List.append_assoc, List.singleton_append, List.cons_append, List.nil_append]

theorem lookup_assign {α : Type} (k : String) (v : α) (l : List (String × α)) :
    (assign k v l).lookup k = some v := by
  induction l with
  | nil => simp [assign, List.lookup]
  | cons p rest ih =>
    obtain ⟨k1, v1⟩ := p
    by_cases h : k1 = k
    · simp [assign, h, List.lookup]
    · have hne : (k == k1) = false := by
        simp only [beq_eq_false_iff_ne, ne_eq]
        exact fun hh => h hh.symm
      simp only [assign, h, if_false, List.lookup, hne]
      exact ih

theorem Response.step_body_invariant (r : Response) (e : Event)
    (h : r.wroteHeader = false → r.body = []) :
    (r.step e).wroteHeader = false → (r.step e).body = [] := by
  cases e with
  | headerSet k v => exact h
  | writeHeader c =>
    simp only [Response.step]
    split
    · exact h
    · intro hh; exact absurd hh (by simp)
  | write d =>
    simp only [Response.step]
    split
    · rename_i hw; intro hh; rw [hw] at hh; exact absurd hh (by simp)
    · intro hh; exact absurd hh (by simp)
  | log entry => exact h
  | findByUsername u => exact h
  | add c => exact h

theorem foldl_step_body_invariant (es : List Event) : ∀ (r : Response),
    (r.wroteHeader = false → r.body = []) →
    (es.foldl Response.step r).wroteHeader = false → (es.foldl Response.step r).body = [] := by
  induction es with
  | nil => intro r h; exact h
  | cons e rest ih =>
    intro r h
    exact ih (r.step e) (Response.step_body_invariant r e h)

/-- No body byte is written before the header. -/
theorem response_body_of_fresh (t : List Event) (h : (response t).wroteHeader = false) :
    (response t).body = [] :=
  foldl_step_body_invariant t Response.init (fun _ => rfl) h

/-- The response after `Respond` has set the header and written the status
on a writer whose header was not yet written. -/
theorem response_after_respond (t : List Event) (status : Int) (body : List Value)
    (hfresh : (response t).wroteHeader = false) :
    response (t ++ ([Event.headerSet "Content-Type" "application/json",
        Event.writeHeader status] ++ body.map Event.write))
      = { wroteHeader := true, code := status,
          headerMap := assign "Content-Type" "application/json" (response t).headerMap,
          sentHeader := assign "Content-Type" "application/json" (response t).headerMap,
          body := body } := by
  have hb := response_body_of_fresh t hfresh
  rw [response_append, List.foldl_append]
  simp only [List.foldl_cons, List.foldl_nil, Response.step, hfresh, Bool.false_eq_true,
    if_false]
  have key : ∀ (bs : List Value) (r : Response), r.wroteHeader = true →
      (bs.map Event.write).foldl Response.step r = { r with body := r.body ++ bs } := by
    intro bs
    induction bs with
    | nil => intro r _; simp
    | cons b rest ih =>
      intro r hr
      simp only [List.map_cons, List.foldl_cons, Response.step, hr, if_true]
      rw [ih _ rfl]
      simp
  rw [key body _ rfl]
  simp [hb]

/-! ## The responder -/

theorem errorDocument_encodeErr (m : String) : (errorDocument m).encodeErr = none := rfl

theorem RespondError_eq (status : Int) (err : Err) (t : List Event)
    (h : (response t).wroteHeader = true ∨ (100 ≤ status ∧ status ≤ 999)) :
    RespondError status err t
      = (Outcome.ret (), t ++ [
          Event.log { level := Level.error, message := "responding application error",
                      fields := [Field.error err, Field.int "status_code" status] },
          Event.headerSet "Content-Type" "application/json",
          Event.writeHeader status,
          Event.write (errorDocument err.text)]) := by
  have hset : gabsSet (Value.str err.text) ["error", "message"] gabsNew
      = some (errorDocument err.text) := rfl
  have hr := Respond_some_eq status (errorDocument err.text)
    (t ++ [Event.log ⟨Level.error, "responding application error",
      [Field.error err, Field.int "status_code" status]⟩])
    (by rw [response_append]; exact h) (errorDocument_encodeErr _)
  simp only [RespondError, bind, Go.bind, logError, emit, hset, hr, List.append_assoc,
    List.singleton_append]

/-- The JSON document of a failed validation. -/
theorem validationDocument_eq (errors : Errors) :
    (gabsSet (Value.str "request contains invalid fields") ["error", "message"] gabsNew).bind
        (gabsSet (Value.errors errors) ["error", "validation_errors"])
      = some (Value.object [("error", Value.object [
          ("message", Value.str "request contains invalid fields"),
          ("validation_errors", Value.errors errors)])]) := rfl

theorem RespondValidationFailed_eq (errors : Errors) (t : List Event) :
    RespondValidationFailed errors t
      = (Outcome.ret (), t ++ [
          Event.headerSet "Content-Type" "application/json",
          Event.writeHeader StatusBadRequest,
          Event.write (Value.object [("error", Value.object [
            ("message", Value.str "request contains invalid fields"),
            ("validation_errors", Value.errors errors)])])]) := by
  have h1 : gabsSet (Value.str "request contains invalid fields") ["error", "message"] gabsNew
      = some (errorDocument "request contains invalid fields") := rfl
  have h2 : gabsSet (Value.errors errors) ["error", "validation_errors"]
      (errorDocument "request contains invalid fields")
      = some (Value.object [("error", Value.object [
          ("message", Value.str "request contains invalid fields"),
          ("validation_errors", Value.errors errors)])]) := rfl
  have hr := Respond_some_eq StatusBadRequest (Value.object [("error", Value.object [
          ("message", Value.str "request contains invalid fields"),
          ("validation_errors", Value.errors errors)])]) t
    (Or.inr (by decide)) rfl
  simp only [RespondValidationFailed, h1, h2, hr]

/-! ## Validation of the create request -/

theorem utf8ByteSize_go_eq_zero (l : List Char) (h : String.utf8ByteSize.go l = 0) : l = [] := by
  cases l with
  | nil => rfl
  | cons c cs =>
    simp only [String.utf8ByteSize.go] at h
    have := Char.utf8Size_pos c
    omega

theorem utf8ByteSize_eq_zero_iff (s : String) : s.utf8ByteSize = 0 ↔ s = "" := by
  constructor
  · intro h
    cases s with
    | mk l =>
      have : l = [] := utf8ByteSize_go_eq_zero l h
      subst this
      rfl
  · intro h; subst h; rfl

theorem validate_password (p : String) (t : List Event) :
    validationValidate p [Required, Length minPassLen maxPassLen] t
      = (Outcome.ret (
          if p.utf8ByteSize = 0 then RuleResult.fail ErrRequired
          else if 6 ≤ p.utf8ByteSize ∧ p.utf8ByteSize ≤ 256 then RuleResult.pass
          else RuleResult.fail ⟨"the length must be between 6 and 256"⟩), t) := by
  by_cases h0 : p.utf8ByteSize = 0
  · simp [validationValidate, Go.bind, Go.pure, Required, h0]
  · by_cases hr : 6 ≤ p.utf8ByteSize ∧ p.utf8ByteSize ≤ 256
    · have hcond : ¬ ((minPassLen > 0 ∧ (p.utf8ByteSize : Int) < minPassLen) ∨
          (maxPassLen > 0 ∧ (p.utf8ByteSize : Int) > maxPassLen)) := by
        simp only [minPassLen, maxPassLen]; omega
      simp only [validationValidate, Go.bind, Go.pure, Required, h0, if_false, Length, hcond,
        hr, and_self, if_true]
    · have hcond : ((minPassLen > 0 ∧ (p.utf8ByteSize : Int) < minPassLen) ∨
          (maxPassLen > 0 ∧ (p.utf8ByteSize : Int) > maxPassLen)) := by
        simp only [minPassLen, maxPassLen]; omega
      have hmsg : lengthRuleError minPassLen maxPassLen
          = ⟨"the length must be between 6 and 256"⟩ := by decide
      simp only [validationValidate, Go.bind, Go.pure, Required, h0, if_false, Length, hcond,
        hr, if_true, hmsg]

theorem validate_username_blank (deps : CreateDeps) (repo : Repository) (u : String)
    (t : List Event) (h : u.utf8ByteSize = 0) :
    validationValidate u [Required, Email deps.isEmail, usernameUniqueRule repo] t
      = (Outcome.ret (RuleResult.fail ErrRequired), t) := by
  simp [validationValidate, Go.bind, Go.pure, Required, h]

theorem validate_username_no_email (deps : CreateDeps) (repo : Repository) (u : String)
    (t : List Event) (h : u.utf8ByteSize ≠ 0) (he : deps.isEmail u = false) :
    validationValidate u [Required, Email deps.isEmail, usernameUniqueRule repo] t
      = (Outcome.ret (RuleResult.fail (errorsNew "must be a valid email address")), t) := by
  simp [validationValidate, Go.bind, Go.pure, Required, Email, h, he]

theorem validate_username_lookup (deps : CreateDeps) (repo : Repository) (u : String)
    (t : List Event) (h : u.utf8ByteSize ≠ 0) (he : deps.isEmail u = true) :
    validationValidate u [Required, Email deps.isEmail, usernameUniqueRule repo] t
      = (match repo.find t u with
          | Outcome.ret (Except.error err) => Outcome.ret (RuleResult.internal err)
          | Outcome.ret (Except.ok (some _)) => Outcome.ret (RuleResult.fail errUserExists)
          | Outcome.ret (Except.ok none) => Outcome.ret RuleResult.pass
          | Outcome.panic v => Outcome.panic v,
         t ++ [Event.findByUsername u]) := by
  simp only [validationValidate, Go.bind, Go.pure, Required, Email, h, he, if_false, if_true,
    usernameUniqueRule, bind, pure, Repository.FindByUsername]
  cases hf : repo.find t u with
  | panic v => rfl
  | ret res =>
    cases res with
    | error e => rfl
    | ok c =>
      cases c with
      | none => rfl
      | some c => rfl

/-- The two fields of the create request as `app.Validate` receives them. -/
theorem Validate_create (deps : CreateDeps) (repo : Repository) (req : CreateRequest)
    (t t1 : List Event) (ru : Outcome RuleResult)
    (hu : validationValidate req.Username
      [Required, Email deps.isEmail, usernameUniqueRule repo] t = (ru, t1)) :
    Validate [
        { name := "username", value := req.Username,
          rules := [Required, Email deps.isEmail, usernameUniqueRule repo] },
        { name := "password", value := req.Password,
          rules := [Required, Length minPassLen maxPassLen] }] t
      = (match ru with
          | Outcome.panic v => Outcome.panic v
          | Outcome.ret (RuleResult.internal e) => Outcome.panic (PanicValue.err e)
          | Outcome.ret RuleResult.pass =>
            if req.Password.utf8ByteSize = 0 then
              Outcome.ret (some [("password", ErrRequired)])
            else if 6 ≤ req.Password.utf8ByteSize ∧ req.Password.utf8ByteSize ≤ 256 then
              Outcome.ret none
            else Outcome.ret (some [("password", ⟨"the length must be between 6 and 256"⟩)])
          | Outcome.ret (RuleResult.fail eu) =>
            if req.Password.utf8ByteSize = 0 then
              Outcome.ret (some [("username", eu), ("password", ErrRequired)])
            else if 6 ≤ req.Password.utf8ByteSize ∧ req.Password.utf8ByteSize ≤ 256 then
              Outcome.ret (some [("username", eu)])
            else Outcome.ret (some [("username", eu),
              ("password", ⟨"the length must be between 6 and 256"⟩)]),
         t1) := by
  have hp := validate_password req.Password t1
  cases ru with
  | panic v =>
    simp only [Validate, ValidateStruct, validateStructLoop, bind, Go.bind, hu]
  | ret res =>
    cases res with
    | internal e =>
      simp only [Validate, ValidateStruct, validateStructLoop, bind, Go.bind, hu, Go.pure,
        goPanic]
    | pass =>
      simp only [Validate, ValidateStruct, validateStructLoop, bind, Go.bind, hu, hp]
      by_cases h0 : req.Password.utf8ByteSize = 0
      · simp [h0, assign, Go.pure, pure]
      · by_cases hr : 6 ≤ req.Password.utf8ByteSize ∧ req.Password.utf8ByteSize ≤ 256
        · simp [h0, hr, Go.pure, pure]
        · simp [h0, hr, assign, Go.pure, pure]
    | fail eu =>
      simp only [Validate, ValidateStruct, validateStructLoop, bind, Go.bind, hu, hp]
      by_cases h0 : req.Password.utf8ByteSize = 0
      · simp [h0, assign, Go.pure, pure]
      · by_cases hr : 6 ≤ req.Password.utf8ByteSize ∧ req.Password.utf8ByteSize ≤ 256
        · simp [h0, hr, assign, Go.pure, pure]
        · simp [h0, hr, assign, Go.pure, pure]

theorem recoverPanicMiddleware_ret (next : ServiceFunc) (r : Request) (t t1 : List Event)
    (h : next r t = (Outcome.ret (), t1)) :
    recoverPanicMiddleware next r t = (Outcome.ret (), t1) := by
  simp only [recoverPanicMiddleware, h]

/-- The response after `RespondValidationFailed` on a writer whose header was
not yet written. -/
theorem RespondValidationFailed_response (errs : Errors) (t : List Event)
    (hfresh : (response t).wroteHeader = false) :
    response (RespondValidationFailed errs t).2
      = { wroteHeader := true, code := 400,
          headerMap := assign "Content-Type" "application/json" (response t).headerMap,
          sentHeader := assign "Content-Type" "application/json" (response t).headerMap,
          body := [Value.object [("error", Value.object [
            ("message", Value.str "request contains invalid fields"),
            ("validation_errors", Value.errors errs)])]] } := by
  have hr := response_after_respond t StatusBadRequest [Value.object [("error", Value.object [
      ("message", Value.str "request contains invalid fields"),
      ("validation_errors", Value.errors errs)])]] hfresh
  simp only [List.map_cons, List.map_nil, List.append_assoc, List.cons_append,
    List.nil_append] at hr
  rw [RespondValidationFailed_eq]
  exact hr

theorem RespondValidationFailed_calls (errs : Errors) (t : List Event) :
    addCalls (RespondValidationFailed errs t).2 = addCalls t ∧
      findCalls (RespondValidationFailed errs t).2 = findCalls t := by
  rw [RespondValidationFailed_eq]
  simp [addCalls, findCalls, List.filterMap_append]

/-- The create function once the body is decoded. -/
theorem createFunc_eq (deps : CreateDeps) (repo : Repository) (r : Request)
    (req : CreateRequest) (t : List Event) (hdec : deps.decode r.body = Except.ok req) :
    (NewCreateHandler deps repo).Func r t
      = (match Validate [
            { name := "username", value := req.Username,
              rules := [Required, Email deps.isEmail, usernameUniqueRule repo] },
            { name := "password", value := req.Password,
              rules := [Required, Length minPassLen maxPassLen] }] t with
          | (Outcome.panic v, t1) => (Outcome.panic v, t1)
          | (Outcome.ret (some errs), t1) => RespondValidationFailed errs t1
          | (Outcome.ret none, t1) =>
            Go.bind (repo.Add (customerNew deps.bcrypt deps.uuid req.Username req.Password).1)
              (fun _ => WriteHeader StatusCreated) t1) := by
  simp only [NewCreateHandler, Request.Decode, hdec, bind, Go.bind]
  split <;> rename_i h <;> simp only [h]
  · rename_i a t1
    cases a <;> rfl

/-- The callback of the create handler when validation fails with `errs`. -/
theorem create_callback_invalid (deps : CreateDeps) (repo : Repository) (r : Request)
    (req : CreateRequest) (t t1 : List Event) (errs : Errors)
    (hdec : deps.decode r.body = Except.ok req)
    (hv : Validate [
        { name := "username", value := req.Username,
          rules := [Required, Email deps.isEmail, usernameUniqueRule repo] },
        { name := "password", value := req.Password,
          rules := [Required, Length minPassLen maxPassLen] }] t = (Outcome.ret (some errs), t1)) :
    (registeredRoute (NewCreateHandler deps repo)).callback r t
      = RespondValidationFailed errs t1 := by
  have hf : (NewCreateHandler deps repo).Func r t = RespondValidationFailed errs t1 := by
    rw [createFunc_eq deps repo r req t hdec, hv]
  have hret : RespondValidationFailed errs t1 = (Outcome.ret (), (RespondValidationFailed errs t1).2) := by
    rw [RespondValidationFailed_eq]
  show recoverPanicMiddleware (NewCreateHandler deps repo).Func r t = _
  rw [hret]
  apply recoverPanicMiddleware_ret
  rw [hf, ← hret]

theorem response_findByUsername (t : List Event) (u : String) :
    response (t ++ [Event.findByUsername u]) = response t := by
  rw [response_append]; rfl

theorem addCalls_findByUsername (t : List Event) (u : String) :
    addCalls (t ++ [Event.findByUsername u]) = addCalls t := by
  simp [addCalls, List.filterMap_append]

/-- When the username needs no lookup or the lookup returns without an
error, its validation returns a result that is no internal error, and the only
effect is the lookup, if any. -/
theorem validate_username_settled (deps : CreateDeps) (repo : Repository) (u : String)
    (t : List Event) (hs : lookupSettles deps repo t u) :
    ∃ (ru : RuleResult) (t1 : List Event),
      validationValidate u [Required, Email deps.isEmail, usernameUniqueRule repo] t
        = (Outcome.ret ru, t1) ∧
      (∀ e, ru ≠ RuleResult.internal e) ∧
      response t1 = response t ∧ addCalls t1 = addCalls t ∧
      (u = "" → ru = RuleResult.fail ErrRequired ∧ t1 = t) := by
  by_cases h0 : u.utf8ByteSize = 0
  · exact ⟨_, t, validate_username_blank deps repo u t h0, fun e => by simp, rfl, rfl,
      fun _ => ⟨rfl, rfl⟩⟩
  · have hne : u ≠ "" := fun h => h0 ((utf8ByteSize_eq_zero_iff u).mpr h)
    by_cases he : deps.isEmail u = true
    · rcases hs with hs | hs | ⟨c, hc⟩
      · exact absurd hs hne
      · rw [he] at hs; exact absurd hs (by simp)
      · have hv := validate_username_lookup deps repo u t h0 he
        rw [hc] at hv
        cases c with
        | none =>
          exact ⟨_, _, hv, fun e => by simp, response_findByUsername t u,
            addCalls_findByUsername t u, fun h => absurd h hne⟩
        | some c =>
          exact ⟨_, _, hv, fun e => by simp, response_findByUsername t u,
            addCalls_findByUsername t u, fun h => absurd h hne⟩
    · have he2 : deps.isEmail u = false := by simpa using he
      exact ⟨_, t, validate_username_no_email deps repo u t h0 he2, fun e => by simp, rfl, rfl,
        fun h => absurd h hne⟩

/-- When the username validation reports no internal error and the password
rules fail with `ep`, `app.Validate` returns errors that hold `ep` for the
password and the error of the username, if any. -/
theorem Validate_create_password_fails (deps : CreateDeps) (repo : Repository)
    (req : CreateRequest) (t t1 : List Event) (ru : RuleResult) (ep : Err)
    (hu : validationValidate req.Username
      [Required, Email deps.isEmail, usernameUniqueRule repo] t = (Outcome.ret ru, t1))
    (hint : ∀ e, ru ≠ RuleResult.internal e)
    (hp : (if req.Password.utf8ByteSize = 0 then RuleResult.fail ErrRequired
          else if 6 ≤ req.Password.utf8ByteSize ∧ req.Password.utf8ByteSize ≤ 256
            then RuleResult.pass
          else RuleResult.fail ⟨"the length must be between 6 and 256"⟩) = RuleResult.fail ep) :
    ∃ errs : Errors,
      Validate [
        { name := "username", value := req.Username,
          rules := [Required, Email deps.isEmail, usernameUniqueRule repo] },
        { name := "password", value := req.Password,
          rules := [Required, Length minPassLen maxPassLen] }] t = (Outcome.ret (some errs), t1) ∧
      errs.lookup "password" = some ep ∧
      (∀ eu, ru = RuleResult.fail eu → errs.lookup "username" = some eu) := by
  have hv := Validate_create deps repo req t t1 (Outcome.ret ru) hu
  cases ru with
  | internal e => exact absurd rfl (hint e)
  | pass =>
    by_cases h0 : req.Password.utf8ByteSize = 0
    · simp only [h0, if_true] at hv hp
      injection hp with hp
      subst hp
      exact ⟨_, hv, rfl, fun eu h => by simp at h⟩
    · by_cases hr : 6 ≤ req.Password.utf8ByteSize ∧ req.Password.utf8ByteSize ≤ 256
      · simp only [h0, hr, and_self, if_true, if_false] at hp
        exact absurd hp (by simp)
      · simp only [h0, hr, if_false] at hv hp
        injection hp with hp
        subst hp
        exact ⟨_, hv, rfl, fun eu h => by simp at h⟩
  | fail eu =>
    by_cases h0 : req.Password.utf8ByteSize = 0
    · simp only [h0, if_true] at hv hp
      injection hp with hp
      subst hp
      refine ⟨_, hv, rfl, ?_⟩
      intro eu2 h
      injection h with h
      subst h
      rfl
    · by_cases hr : 6 ≤ req.Password.utf8ByteSize ∧ req.Password.utf8ByteSize ≤ 256
      · simp only [h0, hr, and_self, if_true, if_false] at hp
        exact absurd hp (by simp)
      · simp only [h0, hr, if_false] at hv hp
        injection hp with hp
        subst hp
        refine ⟨_, hv, rfl, ?_⟩
        intro eu2 h
        injection h with h
        subst h
        rfl

/-! ## The claims on the transport layer -/

/-- C15: for every status code `status` (100..999) and every error `err`,
`RespondError` returns after exactly four effects in this order: one
error-level log entry `responding application error` carrying `err` and
`status_code = status`, the header `Content-Type: application/json`, the
status, and one body write, the JSON document with the single key `error`
holding the single key `message` with the text of `err`.  On a writer whose
header was not yet written the response has status `status`, that content
type and exactly that body. -/
theorem RespondError_logs_then_responds (status : Int) (err : Err) (t : List Event)
    (hcode : 100 ≤ status ∧ status ≤ 999) :
    RespondError status err t
        = (Outcome.ret (), t ++ [
            Event.log { level := Level.error, message := "responding application error",
                        fields := [Field.error err, Field.int "status_code" status] },
            Event.headerSet "Content-Type" "application/json",
            Event.writeHeader status,
            Event.write (Value.object [("error", Value.object [("message", Value.str err.text)])])])
      ∧ ((response t).wroteHeader = false →
          (response (RespondError status err t).2).code = status ∧
          (response (RespondError status err t).2).sentHeader.lookup "Content-Type"
            = some "application/json" ∧
          (response (RespondError status err t).2).body
            = [Value.object [("error", Value.object [("message", Value.str err.text)])]]) := by
  have he := RespondError_eq status err t (Or.inr hcode)
  refine ⟨he, ?_⟩
  intro hfresh
  have hfresh2 : (response (t ++ [Event.log ⟨Level.error, "responding application error",
      [Field.error err, Field.int "status_code" status]⟩])).wroteHeader = false := by
    rw [response_append]; exact hfresh
  have hr := response_after_respond _ status [errorDocument err.text] hfresh2
  rw [he]
  simp only [List.map_cons, List.map_nil, List.append_assoc, List.cons_append,
    List.nil_append] at hr
  rw [hr]
  exact ⟨rfl, lookup_assign _ _ _, rfl⟩

/-- The status 404 on an unwritten response. -/
theorem RespondError_logs_then_responds_witness :
    (100 ≤ (404 : Int) ∧ (404 : Int) ≤ 999) ∧
      (response (RespondError 404 (errorsNew "no such thing") []).2).code = 404 :=
  ⟨by decide,
    ((RespondError_logs_then_responds 404 (errorsNew "no such thing") [] (by decide)).2 rfl).1⟩

/-- C16: for every `validation.Errors` value `errs`, `RespondValidationFailed`
sets the content type, writes status 400 and writes one JSON document whose
key `error` holds the message `request contains invalid fields` and, under
`validation_errors`, the mapping `errs` itself and nothing else.  On a writer
whose header was not yet written the response has status 400 and that body,
so that every field of `errs` is read back with its message and no other
field is. -/
theorem RespondValidationFailed_responds_400 (errs : Errors) (t : List Event) :
    RespondValidationFailed errs t
        = (Outcome.ret (), t ++ [
            Event.headerSet "Content-Type" "application/json",
            Event.writeHeader 400,
            Event.write (Value.object [("error", Value.object [
              ("message", Value.str "request contains invalid fields"),
              ("validation_errors", Value.errors errs)])])])
      ∧ ((response t).wroteHeader = false →
          (response (RespondValidationFailed errs t).2).code = 400 ∧
          (response (RespondValidationFailed errs t).2).body
            = [Value.object [("error", Value.object [
                ("message", Value.str "request contains invalid fields"),
                ("validation_errors", Value.errors errs)])]] ∧
          validationErrorsOf (response (RespondValidationFailed errs t).2) = some errs ∧
          ∀ field, fieldMessage (response (RespondValidationFailed errs t).2) field
            = (errs.lookup field).map (fun e => e.text)) := by
  have he := RespondValidationFailed_eq errs t
  refine ⟨he, ?_⟩
  intro hfresh
  have hr := response_after_respond t StatusBadRequest [Value.object [("error", Value.object [
      ("message", Value.str "request contains invalid fields"),
      ("validation_errors", Value.errors errs)])]] hfresh
  rw [he]
  simp only [List.map_cons, List.map_nil, List.append_assoc, List.cons_append,
    List.nil_append] at hr
  rw [hr]
  refine ⟨rfl, rfl, rfl, fun field => rfl⟩

/-- C17: for every status code `status` (100..999) and every `data`, on a
writer whose header was not yet written `Respond` returns and the response
has status `status`; for nil `data` the body stays empty; for non-nil `data`
that `json.Marshal` accepts the body is the JSON encoding of `data` and the
header `Content-Type` sent is `application/json`. -/
theorem Respond_writes_status_and_body (status : Int) (data : Option Value) (t : List Event)
    (hcode : 100 ≤ status ∧ status ≤ 999) (hfresh : (response t).wroteHeader = false) :
    (Respond status data t).1 = Outcome.ret () ∧
      (response (Respond status data t).2).code = status ∧
      (data = none → (response (Respond status data t).2).body = []) ∧
      (∀ d, data = some d → d.encodeErr = none →
        (response (Respond status data t).2).body = [d] ∧
        (response (Respond status data t).2).sentHeader.lookup "Content-Type"
          = some "application/json") := by
  cases data with
  | none =>
    have he := Respond_none_eq status t (Or.inr hcode)
    have hr := response_after_respond t status [] hfresh
    simp only [List.map_nil, List.append_nil] at hr
    rw [he]
    refine ⟨rfl, by rw [hr], fun _ => by rw [hr], ?_⟩
    intro d hd
    exact absurd hd (by simp)
  | some d =>
    cases hee : d.encodeErr with
    | none =>
      have he := Respond_some_eq status d t (Or.inr hcode) hee
      have hr := response_after_respond t status [d] hfresh
      simp only [List.map_cons, List.map_nil, List.append_assoc, List.cons_append,
        List.nil_append] at hr
      rw [he]
      refine ⟨rfl, by rw [hr], fun h => absurd h (by simp), ?_⟩
      intro d2 hd2 _
      have : d = d2 := by injection hd2
      subst this
      rw [hr]
      exact ⟨rfl, lookup_assign _ _ _⟩
    | some e =>
      have hw := WriteHeader_eq status (t ++ [Event.headerSet "Content-Type" "application/json"])
        (by right; exact hcode)
      have hw2 := WriteHeader_eq StatusInternalServerError
        (t ++ [Event.headerSet "Content-Type" "application/json", Event.writeHeader status,
          Event.log ⟨Level.error, "unable to encode response", [Field.error e]⟩])
        (by right; decide)
      have he : Respond status (some d) t = (Outcome.ret (),
          t ++ [Event.headerSet "Content-Type" "application/json", Event.writeHeader status,
            Event.log ⟨Level.error, "unable to encode response", [Field.error e]⟩,
            Event.writeHeader StatusInternalServerError]) := by
        simp only [Respond, bind, Go.bind, headerSet, emit, hw, jsonEncode, hee, logError,
          List.append_assoc, List.singleton_append, List.cons_append, List.nil_append] at hw2 ⊢
        rw [hw2]
      rw [he]
      refine ⟨rfl, ?_, fun h => absurd h (by simp), ?_⟩
      · rw [response_append]
        simp only [List.foldl_cons, List.foldl_nil, Response.step, hfresh, Bool.false_eq_true,
          if_false, if_true]
      · intro d2 hd2 hnone
        have : d = d2 := by injection hd2
        subst this
        rw [hee] at hnone
        exact absurd hnone (by simp)

/-- The status 200 and an encodable string on an unwritten response. -/
theorem Respond_writes_status_and_body_witness :
    (100 ≤ (200 : Int) ∧ (200 : Int) ≤ 999) ∧ (response []).wroteHeader = false ∧
      (response (Respond 200 (some (Value.str "ok")) []).2).code = 200 :=
  ⟨by decide, rfl,
    (Respond_writes_status_and_body 200 (some (Value.str "ok")) [] (by decide) rfl).2.1⟩

/-- What the deferred function of `recoverPanicMiddleware` does once `next`
has panicked with a non-nil value. -/
theorem recoverPanicMiddleware_panic_eq (next : ServiceFunc) (r : Request) (t t1 : List Event)
    (rec : PanicValue) (hp : next r t = (Outcome.panic rec, t1)) (hrec : rec ≠ PanicValue.nil) :
    recoverPanicMiddleware next r t
      = (Outcome.ret (), t1 ++ [
          Event.writeHeader 500,
          Event.log { level := Level.error, message := "application panicked",
                      fields := [Field.error (recoveredError rec)] }]) := by
  have hw := WriteHeader_eq StatusInternalServerError t1 (Or.inr (by decide))
  have herr : (match rec with
      | PanicValue.str e => errorsNew e
      | PanicValue.err e => e
      | _ => ErrUnknown) = recoveredError rec := by
    cases rec <;> rfl
  simp only [recoverPanicMiddleware, hp, hrec, ne_eq, not_false_eq_true, if_true, bind, Go.bind,
    hw, logError, emit, herr, List.append_assoc, List.singleton_append]
  rfl

/-- The status after a recovered panic on a writer whose header was not
yet written. -/
theorem recoverPanicMiddleware_panic_code (next : ServiceFunc) (r : Request)
    (t t1 : List Event) (rec : PanicValue) (hp : next r t = (Outcome.panic rec, t1))
    (hrec : rec ≠ PanicValue.nil) (hfresh : (response t1).wroteHeader = false) :
    (response (recoverPanicMiddleware next r t).2).code = 500 := by
  rw [recoverPanicMiddleware_panic_eq next r t t1 rec hp hrec, response_append]
  simp only [List.foldl_cons, List.foldl_nil, Response.step, hfresh, Bool.false_eq_true,
    if_false]

/-- The wrapped function never panics. -/
theorem recoverPanicMiddleware_returns (next : ServiceFunc) (r : Request) (t : List Event) :
    (recoverPanicMiddleware next r t).1 = Outcome.ret () := by
  cases hn : next r t with
  | mk o t1 =>
    cases o with
    | ret u => simp only [recoverPanicMiddleware, hn]
    | panic rec =>
      by_cases hrec : rec = PanicValue.nil
      · simp only [recoverPanicMiddleware, hn, hrec, ne_eq, not_true_eq_false, if_false]
      · rw [recoverPanicMiddleware_panic_eq next r t t1 rec hn hrec]

/-- C13 as stated fails: a core function that writes status 200 and then
panics with a string is recovered, but the response keeps the status 200;
the call `WriteHeader(500)` of the deferred function comes after the header
was written and is ignored by the writer. -/
theorem recoverPanicMiddleware_status_stays :
    (recoverPanicMiddleware
        (fun _ => Go.bind (WriteHeader 200) (fun _ => goPanic (PanicValue.str "boom")))
        { method := "GET", path := "/test-panic-recovery", body := "" } []).1 = Outcome.ret () ∧
      (response (recoverPanicMiddleware
        (fun _ => Go.bind (WriteHeader 200) (fun _ => goPanic (PanicValue.str "boom")))
        { method := "GET", path := "/test-panic-recovery", body := "" } []).2).code = 200 := by
  decide

/-- C13, amended: for every core function that panics with a non-nil value
while handling a request, the wrapped function returns normally, having
called `WriteHeader(500)` and then written exactly one error-level log entry
`application panicked`, whose error has the text of the panic value when it
is a string, is the panic value when it is an error, and is `ErrUnknown`
(`unknown error`) otherwise.  The response status is 500 when the core
function had not written the header before it panicked. -/
theorem recoverPanicMiddleware_recovers (next : ServiceFunc) (r : Request) (t t1 : List Event)
    (rec : PanicValue) (hp : next r t = (Outcome.panic rec, t1)) (hrec : rec ≠ PanicValue.nil) :
    recoverPanicMiddleware next r t
        = (Outcome.ret (), t1 ++ [
            Event.writeHeader 500,
            Event.log { level := Level.error, message := "application panicked",
                        fields := [Field.error (recoveredError rec)] }])
      ∧ logsOf (recoverPanicMiddleware next r t).2
        = logsOf t1 ++ [{ level := Level.error, message := "application panicked",
                          fields := [Field.error (recoveredError rec)] }]
      ∧ (∀ s, recoveredError (PanicValue.str s) = errorsNew s)
      ∧ (∀ e, recoveredError (PanicValue.err e) = e)
      ∧ (∀ n, recoveredError (PanicValue.other n) = ErrUnknown ∧ ErrUnknown.text = "unknown error")
      ∧ ((response t1).wroteHeader = false →
          (response (recoverPanicMiddleware next r t).2).code = 500) := by
  have he := recoverPanicMiddleware_panic_eq next r t t1 rec hp hrec
  refine ⟨he, ?_, fun _ => rfl, fun _ => rfl, fun _ => ⟨rfl, rfl⟩, ?_⟩
  · rw [he]
    simp [logsOf, List.filterMap_append]
  · exact recoverPanicMiddleware_panic_code next r t t1 rec hp hrec

/-- A core function that panics at once with a string, as in the test
`TestPanicIsRecovered`. -/
theorem recoverPanicMiddleware_recovers_witness :
    PanicValue.str "something really bad happened" ≠ PanicValue.nil ∧
      (response ([] : List Event)).wroteHeader = false ∧
      (response (recoverPanicMiddleware
        (fun _ => goPanic (PanicValue.str "something really bad happened"))
        { method := "GET", path := "/test-panic-recovery", body := "" } []).2).code = 500 :=
  ⟨by decide, rfl,
    (recoverPanicMiddleware_recovers
      (fun _ => goPanic (PanicValue.str "something really bad happened"))
      { method := "GET", path := "/test-panic-recovery", body := "" } [] []
      (PanicValue.str "something really bad happened") rfl (by decide)).2.2.2.2.2 rfl⟩

/-- C14 as stated fails: with a middleware in place, a `Func` that responds
with status 201 and then panics with an error is recovered by the callback
that `AddRoute` registers, but the response keeps the status 201 instead of
becoming a 500 response. -/
theorem AddRoute_status_stays :
    ((Handler.AddRoute
        { Route := fun _ => RouteResult.matched
          Middleware := some (fun next r => Go.bind (headerSet "X-Wrapped" "1") (fun _ => next r))
          Func := fun _ => Go.bind (Respond 201 none)
            (fun _ => goPanic (PanicValue.err (errorsNew "connection lost"))) } []).map
      (fun route =>
        ((route.callback { method := "POST", path := "/customers", body := "" } []).1,
         (response (route.callback { method := "POST", path := "/customers", body := "" } []).2).code)))
      = [(Outcome.ret (), 201)] := by
  decide

/-- C14, amended: for every `Handler`, with or without a `Middleware`,
`AddRoute` registers one route whose HTTP callback is
`recoverPanicMiddleware` around `Middleware(Func)` when `Middleware` is
non-nil and around `Func` otherwise.  The callback never panics, so no panic
of the wrapped function reaches the router; when the wrapped function panics
with a non-nil value the callback calls `WriteHeader(500)` and logs the
recovered error, and the response status is 500 when the header had not been
written before the panic. -/
theorem AddRoute_recovers_outermost (h : Handler) (router : List MuxRoute) :
    ∃ route : MuxRoute,
      h.AddRoute router = router ++ [route] ∧
      route.matcher = h.Route ∧
      route.callback = recoverPanicMiddleware
        (match h.Middleware with
          | some middleware => middleware h.Func
          | none => h.Func) ∧
      (∀ r t, (route.callback r t).1 = Outcome.ret ()) ∧
      (∀ r t rec t1,
        (match h.Middleware with
          | some middleware => middleware h.Func
          | none => h.Func) r t = (Outcome.panic rec, t1) →
        rec ≠ PanicValue.nil →
        route.callback r t
            = (Outcome.ret (), t1 ++ [
                Event.writeHeader 500,
                Event.log { level := Level.error, message := "application panicked",
                            fields := [Field.error (recoveredError rec)] }]) ∧
          ((response t1).wroteHeader = false →
            (response (route.callback r t).2).code = 500)) := by
  refine ⟨⟨h.Route, recoverPanicMiddleware _⟩, rfl, rfl, rfl, ?_, ?_⟩
  · intro r t
    exact recoverPanicMiddleware_returns _ r t
  · intro r t rec t1 hp hrec
    exact ⟨recoverPanicMiddleware_panic_eq _ r t t1 rec hp hrec,
      recoverPanicMiddleware_panic_code _ r t t1 rec hp hrec⟩

/-! ## The server -/

theorem AddRoute_eq (h : Handler) (router : List MuxRoute) :
    h.AddRoute router = router ++ [registeredRoute h] := rfl

theorem foldl_AddRoute (handlers : List Handler) : ∀ router : List MuxRoute,
    handlers.foldl (fun router h => h.AddRoute router) router
      = router ++ handlers.map registeredRoute := by
  induction handlers with
  | nil => intro router; simp
  | cons h rest ih =>
    intro router
    rw [List.foldl_cons, ih, AddRoute_eq]
    simp

theorem RegisterHandlers_router (handlers : List Handler) :
    (NewServer.RegisterHandlers handlers).router = handlers.map registeredRoute := by
  simp [Server.RegisterHandlers, NewServer, foldl_AddRoute]

theorem routerMatch_no_route (routes : List MuxRoute) (r : Request) :
    ∀ mismatch : Bool, (∀ route ∈ routes, route.matcher r ≠ RouteResult.matched) →
    routerMatch routes mismatch r
      = if mismatch = true ∨ ∃ route ∈ routes, route.matcher r = RouteResult.methodMismatch
        then methodNotAllowedHandler else notFoundHandler := by
  induction routes with
  | nil => intro mismatch _; simp [routerMatch]
  | cons route rest ih =>
    intro mismatch h
    have hrest : ∀ route ∈ rest, route.matcher r ≠ RouteResult.matched :=
      fun x hx => h x (List.mem_cons_of_mem route hx)
    have hhead := h route (List.mem_cons_self route rest)
    cases hm : route.matcher r with
    | matched => exact absurd hm hhead
    | methodMismatch =>
      simp only [routerMatch, hm]
      rw [ih true hrest]
      simp [hm]
    | noMatch =>
      simp only [routerMatch, hm]
      rw [ih mismatch hrest]
      simp [hm]

theorem notFoundHandler_eq (r : Request) (t : List Event) :
    notFoundHandler r t
      = (Outcome.ret (), t ++ [
          Event.headerSet "Content-Type" "application/json",
          Event.writeHeader 404,
          Event.write (errorDocument "resource not found")]) := by
  have hset : gabsSet (Value.str "resource not found") ["error", "message"] gabsNew
      = some (errorDocument "resource not found") := rfl
  simp only [notFoundHandler, hset]
  exact Respond_some_eq StatusNotFound _ t (Or.inr (by decide)) rfl

theorem methodNotAllowedHandler_eq (r : Request) (t : List Event) :
    methodNotAllowedHandler r t
      = (Outcome.ret (), t ++ [
          Event.headerSet "Content-Type" "application/json",
          Event.writeHeader 405,
          Event.write (errorDocument ("method " ++ r.method ++ " is not allowed"))]) := by
  have hset : gabsSet (Value.str ("method " ++ r.method ++ " is not allowed"))
      ["error", "message"] gabsNew
      = some (errorDocument ("method " ++ r.method ++ " is not allowed")) := rfl
  simp only [methodNotAllowedHandler, hset]
  exact Respond_some_eq StatusMethodNotAllowed _ t (Or.inr (by decide)) rfl

/-- More fuel than the length of the rest of the path changes nothing: the
loop of `path.Clean` ends before its fuel does. -/
theorem cleanLoop_fuel (rooted : Bool) : ∀ (f g : Nat) (rest out : List Char) (dotdot : Nat),
    rest.length ≤ f → rest.length ≤ g →
    cleanLoop rooted f rest out dotdot = cleanLoop rooted g rest out dotdot := by
  intro f
  induction f with
  | zero =>
    intro g rest out dotdot hf _
    have hnil : rest = [] := List.length_eq_zero.mp (Nat.le_zero.mp hf)
    subst hnil
    cases g <;> rfl
  | succ f ih =>
    intro g rest out dotdot hf hg
    cases rest with
    | nil => cases g <;> rfl
    | cons c tl =>
      cases g with
      | zero => simp at hg
      | succ g =>
        simp only [List.length_cons, Nat.add_le_add_iff_right] at hf hg
        have htail : tl.tail.length ≤ tl.length := by simp
        have hdrop : (tl.dropWhile (fun x => decide (x ≠ '/'))).length ≤ tl.length :=
          (List.dropWhile_sublist _).length_le
        simp only [cleanLoop]
        split
        · exact ih g tl _ _ hf hg
        · split
          · exact ih g tl _ _ hf hg
          · split
            · split
              · exact ih g _ _ _ (by omega) (by omega)
              · split
                · exact ih g _ _ _ (by omega) (by omega)
                · exact ih g _ _ _ (by omega) (by omega)
            · exact ih g _ _ _ (by omega) (by omega)

/-- The redirect of a request whose path is not in canonical form. -/
theorem ServeHTTP_redirect (s : Server) (urlString : String → String) (r : Request)
    (t : List Event) (h : cleanPath r.path ≠ r.path) :
    s.ServeHTTP urlString r t
      = (Outcome.ret (), t ++ [
          Event.headerSet "Location" (urlString (cleanPath r.path)),
          Event.writeHeader 301]) := by
  have hw := WriteHeader_eq StatusMovedPermanently
    (t ++ [Event.headerSet "Location" (urlString (cleanPath r.path))]) (Or.inr (by decide))
  simp only [Server.ServeHTTP, h, ne_eq, not_false_eq_true, if_true, bind, Go.bind, headerSet,
    emit, hw, List.append_assoc, List.singleton_append]
  rfl

/-- C18 as stated fails: on a server with the health handler, the request
`GET //unknown-path` matches no registered route, but its path is not in
canonical form: the router answers with status 301 and the header
`Location`, without a body, instead of status 404 and the JSON document. -/
theorem Server_redirects_unclean_path :
    (∀ h ∈ [NewCheckHandler],
        h.Route { method := "GET", path := "//unknown-path", body := "" }
          = RouteResult.noMatch) ∧
      cleanPath "//unknown-path" = "/unknown-path" ∧
      (response ((NewServer.RegisterHandlers [NewCheckHandler]).ServeHTTP (fun p => p)
        { method := "GET", path := "//unknown-path", body := "" } []).2).code = 301 ∧
      (response ((NewServer.RegisterHandlers [NewCheckHandler]).ServeHTTP (fun p => p)
        { method := "GET", path := "//unknown-path", body := "" } []).2).body = [] ∧
      (response ((NewServer.RegisterHandlers [NewCheckHandler]).ServeHTTP (fun p => p)
        { method := "GET", path := "//unknown-path", body := "" } []).2).sentHeader
        = [("Location", "/unknown-path")] := by
  refine ⟨?_, by decide, ?_⟩
  · intro h hh
    rw [List.mem_singleton] at hh
    subst hh
    decide
  · rw [ServeHTTP_redirect _ _ _ _ (by decide)]
    exact ⟨rfl, rfl, rfl⟩

/-- C18, amended: on a server built by `NewServer` and `RegisterHandlers`, a
request whose path is in canonical form (`cleanPath` leaves it as it is) and
that no registered route matches, not even but for the method, is answered
with status 404 and the JSON document with the single message
`resource not found`; such a request that no route matches but that some
route matches but for the method is answered with status 405 and the message
`method M is not allowed`, `M` being the method of the request.  Both
answers are written by `Respond`: the header `Content-Type` sent is
`application/json`.  A request whose path is not in canonical form is
answered with status 301, the header `Location` and no body, whatever the
routes. -/
theorem Server_not_found_and_method_not_allowed (handlers : List Handler)
    (urlString : String → String) (r : Request)
    (t : List Event) (hfresh : (response t).wroteHeader = false) :
    (cleanPath r.path = r.path → (∀ h ∈ handlers, h.Route r = RouteResult.noMatch) →
        ((NewServer.RegisterHandlers handlers).ServeHTTP urlString r t).1 = Outcome.ret () ∧
        response ((NewServer.RegisterHandlers handlers).ServeHTTP urlString r t).2
          = { wroteHeader := true, code := 404,
              headerMap := assign "Content-Type" "application/json" (response t).headerMap,
              sentHeader := assign "Content-Type" "application/json" (response t).headerMap,
              body := [Value.object [("error",
                Value.object [("message", Value.str "resource not found")])]] }) ∧
    (cleanPath r.path = r.path → (∀ h ∈ handlers, h.Route r ≠ RouteResult.matched) →
      (∃ h ∈ handlers, h.Route r = RouteResult.methodMismatch) →
        ((NewServer.RegisterHandlers handlers).ServeHTTP urlString r t).1 = Outcome.ret () ∧
        response ((NewServer.RegisterHandlers handlers).ServeHTTP urlString r t).2
          = { wroteHeader := true, code := 405,
              headerMap := assign "Content-Type" "application/json" (response t).headerMap,
              sentHeader := assign "Content-Type" "application/json" (response t).headerMap,
              body := [Value.object [("error", Value.object [("message",
                Value.str ("method " ++ r.method ++ " is not allowed"))])]] }) ∧
    (assign "Content-Type" "application/json" (response t).headerMap).lookup "Content-Type"
      = some "application/json" ∧
    (cleanPath r.path ≠ r.path →
        (NewServer.RegisterHandlers handlers).ServeHTTP urlString r t
          = (Outcome.ret (), t ++ [
              Event.headerSet "Location" (urlString (cleanPath r.path)),
              Event.writeHeader 301]) ∧
        (response ((NewServer.RegisterHandlers handlers).ServeHTTP urlString r t).2).code = 301 ∧
        (response ((NewServer.RegisterHandlers handlers).ServeHTTP urlString r t).2).body
          = []) := by
  have hroutes := RegisterHandlers_router handlers
  refine ⟨?_, ?_, lookup_assign _ _ _, ?_⟩
  · intro hclean hno
    have h1 : ∀ route ∈ handlers.map registeredRoute,
        route.matcher r ≠ RouteResult.matched := by
      intro route hr
      rcases List.mem_map.mp hr with ⟨h, hh, rfl⟩
      show h.Route r ≠ RouteResult.matched
      rw [hno h hh]; decide
    have h2 : ¬ (false = true ∨ ∃ route ∈ handlers.map registeredRoute,
        route.matcher r = RouteResult.methodMismatch) := by
      rintro (hf | ⟨route, hr, hm⟩)
      · exact absurd hf (by decide)
      · rcases List.mem_map.mp hr with ⟨h, hh, rfl⟩
        have : h.Route r = RouteResult.methodMismatch := hm
        rw [hno h hh] at this
        exact absurd this (by decide)
    have hserve : (NewServer.RegisterHandlers handlers).ServeHTTP urlString r
        = notFoundHandler r := by
      simp only [Server.ServeHTTP, hclean, ne_eq, not_true_eq_false, if_false]
      rw [hroutes, routerMatch_no_route _ r false h1, if_neg h2]
    have hr := response_after_respond t 404 [errorDocument "resource not found"] hfresh
    simp only [List.map_cons, List.map_nil, List.append_assoc, List.cons_append,
      List.nil_append] at hr
    rw [hserve, notFoundHandler_eq]
    exact ⟨rfl, hr⟩
  · intro hclean hno hmis
    have h1 : ∀ route ∈ handlers.map registeredRoute,
        route.matcher r ≠ RouteResult.matched := by
      intro route hr
      rcases List.mem_map.mp hr with ⟨h, hh, rfl⟩
      exact hno h hh
    have h2 : (false = true ∨ ∃ route ∈ handlers.map registeredRoute,
        route.matcher r = RouteResult.methodMismatch) := by
      obtain ⟨h, hh, hm⟩ := hmis
      exact Or.inr ⟨registeredRoute h, List.mem_map.mpr ⟨h, hh, rfl⟩, hm⟩
    have hserve : (NewServer.RegisterHandlers handlers).ServeHTTP urlString r
        = methodNotAllowedHandler r := by
      simp only [Server.ServeHTTP, hclean, ne_eq, not_true_eq_false, if_false]
      rw [hroutes, routerMatch_no_route _ r false h1, if_pos h2]
    have hr := response_after_respond t 405
      [errorDocument ("method " ++ r.method ++ " is not allowed")] hfresh
    simp only [List.map_cons, List.map_nil, List.append_assoc, List.cons_append,
      List.nil_append] at hr
    rw [hserve, methodNotAllowedHandler_eq]
    exact ⟨rfl, hr⟩
  · intro hunclean
    have hb := response_body_of_fresh t hfresh
    rw [ServeHTTP_redirect _ _ _ _ hunclean]
    refine ⟨rfl, ?_, ?_⟩
    · rw [response_append]
      simp only [List.foldl_cons, List.foldl_nil, Response.step, hfresh, Bool.false_eq_true,
        if_false]
    · rw [response_append]
      simp only [List.foldl_cons, List.foldl_nil, Response.step, hfresh, Bool.false_eq_true,
        if_false, hb]

/-- The health handler alone: `GET /unknown-path` is answered with 404,
`POST /health` with 405 and `GET //health` with 301. -/
theorem Server_not_found_and_method_not_allowed_witness :
    (response ([] : List Event)).wroteHeader = false ∧
      cleanPath "/unknown-path" = "/unknown-path" ∧ cleanPath "/health" = "/health" ∧
      cleanPath "//health" ≠ "//health" ∧
      (response ((NewServer.RegisterHandlers [NewCheckHandler]).ServeHTTP (fun p => p)
        { method := "GET", path := "/unknown-path", body := "" } []).2).code = 404 ∧
      (response ((NewServer.RegisterHandlers [NewCheckHandler]).ServeHTTP (fun p => p)
        { method := "POST", path := "/health", body := "" } []).2).code = 405 ∧
      (response ((NewServer.RegisterHandlers [NewCheckHandler]).ServeHTTP (fun p => p)
        { method := "GET", path := "//health", body := "" } []).2).code = 301 :=
  ⟨rfl, by decide, by decide, by decide,
    by
      have h := (Server_not_found_and_method_not_allowed [NewCheckHandler] (fun p => p)
        { method := "GET", path := "/unknown-path", body := "" } [] rfl).1 (by decide)
        (by intro h hh; rw [List.mem_singleton] at hh; subst hh; decide)
      rw [h.2],
    by
      have h := (Server_not_found_and_method_not_allowed [NewCheckHandler] (fun p => p)
        { method := "POST", path := "/health", body := "" } [] rfl).2.1 (by decide)
        (by intro h hh; rw [List.mem_singleton] at hh; subst hh; decide)
        ⟨NewCheckHandler, List.mem_singleton.mpr rfl, by decide⟩
      rw [h.2],
    ((Server_not_found_and_method_not_allowed [NewCheckHandler] (fun p => p)
      { method := "GET", path := "//health", body := "" } [] rfl).2.2.2 (by decide)).2.1⟩

/-- When the username rules fail with `eu` (no internal error), `app.Validate`
returns errors that hold `eu` for the username. -/
theorem Validate_create_username_fails (deps : CreateDeps) (repo : Repository)
    (req : CreateRequest) (t t1 : List Event) (eu : Err)
    (hu : validationValidate req.Username
      [Required, Email deps.isEmail, usernameUniqueRule repo] t
        = (Outcome.ret (RuleResult.fail eu), t1)) :
    ∃ errs : Errors,
      Validate [
        { name := "username", value := req.Username,
          rules := [Required, Email deps.isEmail, usernameUniqueRule repo] },
        { name := "password", value := req.Password,
          rules := [Required, Length minPassLen maxPassLen] }] t = (Outcome.ret (some errs), t1) ∧
      errs.lookup "username" = some eu := by
  have hv := Validate_create deps repo req t t1 _ hu
  by_cases h0 : req.Password.utf8ByteSize = 0
  · simp only [h0, if_true] at hv
    exact ⟨_, hv, rfl⟩
  · by_cases hr : 6 ≤ req.Password.utf8ByteSize ∧ req.Password.utf8ByteSize ≤ 256
    · simp only [h0, hr, and_self, if_true, if_false] at hv
      exact ⟨_, hv, rfl⟩
    · simp only [h0, hr, if_false] at hv
      exact ⟨_, hv, rfl⟩

/-- C19 as stated fails: with an empty password, a username that is an
email address and a repository whose lookup returns an error, the request
ends as a recovered panic: the status is 500 and no validation error for the
password is written. -/
theorem create_blank_password_lookup_fails :
    (fixedDeps "a@b.c" "").decode postCustomers.body
        = Except.ok { Username := "a@b.c", Password := "" } ∧
      (response ((registeredRoute (NewCreateHandler (fixedDeps "a@b.c" "") unreachableRepo)).callback
        postCustomers []).2).code = 500 ∧
      fieldMessage (response
        ((registeredRoute (NewCreateHandler (fixedDeps "a@b.c" "") unreachableRepo)).callback
          postCustomers []).2) "password" = none :=
  ⟨rfl, by decide, by decide⟩

/-- C19, amended: for every `POST /customers` request whose body decodes,
(1) when the decoded username is empty the response is 400 with
`validation_errors.username` equal to `cannot be blank`, no lookup is
performed and `Add` is not called; (2) when the decoded password is empty and
the validation of the username needs no lookup or its lookup returns without
an error, the response is 400 with `validation_errors.password` equal to
`cannot be blank` and `Add` is not called.  A body with both fields empty
meets both parts. -/
theorem create_blank_fields (deps : CreateDeps) (repo : Repository) (r : Request)
    (req : CreateRequest) (t : List Event) (hfresh : (response t).wroteHeader = false)
    (hdec : deps.decode r.body = Except.ok req) :
    (req.Username = "" →
      (response ((registeredRoute (NewCreateHandler deps repo)).callback r t).2).code = 400 ∧
      fieldMessage (response ((registeredRoute (NewCreateHandler deps repo)).callback r t).2)
        "username" = some "cannot be blank" ∧
      findCalls ((registeredRoute (NewCreateHandler deps repo)).callback r t).2 = findCalls t ∧
      addCalls ((registeredRoute (NewCreateHandler deps repo)).callback r t).2 = addCalls t) ∧
    (req.Password = "" → lookupSettles deps repo t req.Username →
      (response ((registeredRoute (NewCreateHandler deps repo)).callback r t).2).code = 400 ∧
      fieldMessage (response ((registeredRoute (NewCreateHandler deps repo)).callback r t).2)
        "password" = some "cannot be blank" ∧
      addCalls ((registeredRoute (NewCreateHandler deps repo)).callback r t).2 = addCalls t) := by
  constructor
  · intro hu
    have h0 : req.Username.utf8ByteSize = 0 := (utf8ByteSize_eq_zero_iff _).mpr hu
    obtain ⟨errs, hv, hlook⟩ := Validate_create_username_fails deps repo req t t ErrRequired
      (validate_username_blank deps repo req.Username t h0)
    rw [create_callback_invalid deps repo r req t t errs hdec hv,
      RespondValidationFailed_response errs t hfresh]
    obtain ⟨ha, hf⟩ := RespondValidationFailed_calls errs t
    refine ⟨rfl, ?_, hf, ha⟩
    show (errs.lookup "username").map (fun e => e.text) = some "cannot be blank"
    rw [hlook]; rfl
  · intro hp hs
    have h0 : req.Password.utf8ByteSize = 0 := (utf8ByteSize_eq_zero_iff _).mpr hp
    obtain ⟨ru, t1, hu, hint, hresp, hadd, _⟩ :=
      validate_username_settled deps repo req.Username t hs
    obtain ⟨errs, hv, hlook, _⟩ := Validate_create_password_fails deps repo req t t1 ru
      ErrRequired hu hint (by rw [if_pos h0])
    have hfresh1 : (response t1).wroteHeader = false := by rw [hresp]; exact hfresh
    rw [create_callback_invalid deps repo r req t t1 errs hdec hv,
      RespondValidationFailed_response errs t1 hfresh1]
    obtain ⟨ha, _⟩ := RespondValidationFailed_calls errs t1
    refine ⟨rfl, ?_, by rw [ha, hadd]⟩
    show (errs.lookup "password").map (fun e => e.text) = some "cannot be blank"
    rw [hlook]; rfl

/-- The body with both fields empty, on an empty repository. -/
theorem create_blank_fields_witness :
    (response ([] : List Event)).wroteHeader = false ∧
      (fixedDeps "" "").decode postCustomers.body = Except.ok { Username := "", Password := "" } ∧
      (response ((registeredRoute (NewCreateHandler (fixedDeps "" "") emptyRepo)).callback
        postCustomers []).2).code = 400 :=
  ⟨rfl, rfl,
    ((create_blank_fields (fixedDeps "" "") emptyRepo postCustomers
      { Username := "", Password := "" } [] rfl rfl).1 rfl).1⟩

/-- C20 as stated fails: with a password of five bytes, a username that is
an email address and a repository whose lookup returns an error, the request
ends as a recovered panic: the status is 500 and no validation error for the
password is written. -/
theorem create_short_password_lookup_fails :
    (fixedDeps "a@b.c" "12345").decode postCustomers.body
        = Except.ok { Username := "a@b.c", Password := "12345" } ∧
      ("12345" : String).utf8ByteSize = 5 ∧
      (response ((registeredRoute
        (NewCreateHandler (fixedDeps "a@b.c" "12345") unreachableRepo)).callback
          postCustomers []).2).code = 500 ∧
      fieldMessage (response ((registeredRoute
        (NewCreateHandler (fixedDeps "a@b.c" "12345") unreachableRepo)).callback
          postCustomers []).2) "password" = none :=
  ⟨rfl, by decide, by decide, by decide⟩

/-- C20, amended: for every `POST /customers` request whose body decodes to
a non-empty password, the password rules pass if and only if the length of
the password in bytes is between 6 and 256 inclusive, and otherwise fail with
`the length must be between 6 and 256`; when they fail and the validation of
the username needs no lookup or its lookup returns without an error, the
response is 400 with `validation_errors.password` equal to that message and
`Add` is not called. -/
theorem create_password_length (deps : CreateDeps) (repo : Repository) (r : Request)
    (req : CreateRequest) (t : List Event) (hfresh : (response t).wroteHeader = false)
    (hdec : deps.decode r.body = Except.ok req) (hne : req.Password ≠ "") :
    (validationValidate req.Password [Required, Length minPassLen maxPassLen] t
        = (Outcome.ret RuleResult.pass, t)
      ↔ (6 ≤ req.Password.utf8ByteSize ∧ req.Password.utf8ByteSize ≤ 256)) ∧
    (¬ (6 ≤ req.Password.utf8ByteSize ∧ req.Password.utf8ByteSize ≤ 256) →
      validationValidate req.Password [Required, Length minPassLen maxPassLen] t
        = (Outcome.ret (RuleResult.fail ⟨"the length must be between 6 and 256"⟩), t)) ∧
    (¬ (6 ≤ req.Password.utf8ByteSize ∧ req.Password.utf8ByteSize ≤ 256) →
      lookupSettles deps repo t req.Username →
      (response ((registeredRoute (NewCreateHandler deps repo)).callback r t).2).code = 400 ∧
      fieldMessage (response ((registeredRoute (NewCreateHandler deps repo)).callback r t).2)
        "password" = some "the length must be between 6 and 256" ∧
      addCalls ((registeredRoute (NewCreateHandler deps repo)).callback r t).2 = addCalls t) := by
  have h0 : req.Password.utf8ByteSize ≠ 0 := fun h => hne ((utf8ByteSize_eq_zero_iff _).mp h)
  have hp := validate_password req.Password t
  rw [if_neg h0] at hp
  refine ⟨?_, ?_, ?_⟩
  · constructor
    · intro h
      by_contra hr
      rw [hp, if_neg hr] at h
      injection h with h1 _
      injection h1 with h2
      exact absurd h2 (by simp)
    · intro hr
      rw [hp, if_pos hr]
  · intro hr
    rw [hp, if_neg hr]
  · intro hr hs
    obtain ⟨ru, t1, hu, hint, hresp, hadd, _⟩ :=
      validate_username_settled deps repo req.Username t hs
    obtain ⟨errs, hv, hlook, _⟩ := Validate_create_password_fails deps repo req t t1 ru
      ⟨"the length must be between 6 and 256"⟩ hu hint (by rw [if_neg h0, if_neg hr])
    have hfresh1 : (response t1).wroteHeader = false := by rw [hresp]; exact hfresh
    rw [create_callback_invalid deps repo r req t t1 errs hdec hv,
      RespondValidationFailed_response errs t1 hfresh1]
    obtain ⟨ha, _⟩ := RespondValidationFailed_calls errs t1
    refine ⟨rfl, ?_, by rw [ha, hadd]⟩
    show (errs.lookup "password").map (fun e => e.text)
      = some "the length must be between 6 and 256"
    rw [hlook]; rfl

/-- A password of five bytes with a free username on an empty repository. -/
theorem create_password_length_witness :
    (response ([] : List Event)).wroteHeader = false ∧
      (fixedDeps "a@b.c" "12345").decode postCustomers.body
        = Except.ok { Username := "a@b.c", Password := "12345" } ∧
      ("12345" : String) ≠ "" ∧
      (response ((registeredRoute (NewCreateHandler (fixedDeps "a@b.c" "12345") emptyRepo)).callback
        postCustomers []).2).code = 400 :=
  ⟨rfl, rfl, by decide,
    ((create_password_length (fixedDeps "a@b.c" "12345") emptyRepo postCustomers
      { Username := "a@b.c", Password := "12345" } [] rfl rfl (by decide)).2.2 (by decide)
      (Or.inr (Or.inr ⟨none, rfl⟩))).1⟩


/-! ## The create handler on a request that passes validation -/

/-- The callback of the create handler on a request whose username is a
free email address and whose password has 6 to 256 bytes, when `Add`
returns. -/
theorem create_callback_valid (deps : CreateDeps) (repo : Repository) (r : Request)
    (req : CreateRequest) (t : List Event) (res : Option Err)
    (hdec : deps.decode r.body = Except.ok req)
    (hne : req.Username ≠ "") (hemail : deps.isEmail req.Username = true)
    (hfind : repo.find t req.Username = Outcome.ret (Except.ok none))
    (hlen : 6 ≤ req.Password.utf8ByteSize ∧ req.Password.utf8ByteSize ≤ 256)
    (hadd : repo.add (t ++ [Event.findByUsername req.Username])
      (customerNew deps.bcrypt deps.uuid req.Username req.Password).1 = Outcome.ret res) :
    (registeredRoute (NewCreateHandler deps repo)).callback r t
      = (Outcome.ret (), t ++ [
          Event.findByUsername req.Username,
          Event.add (customerNew deps.bcrypt deps.uuid req.Username req.Password).1,
          Event.writeHeader 201]) := by
  have h0 : req.Username.utf8ByteSize ≠ 0 := fun h => hne ((utf8ByteSize_eq_zero_iff _).mp h)
  have hu := validate_username_lookup deps repo req.Username t h0 hemail
  rw [hfind] at hu
  have hv := Validate_create deps repo req t _ _ hu
  have hp0 : ¬ req.Password.utf8ByteSize = 0 := by omega
  simp only [hp0, hlen, and_self, if_true, if_false] at hv
  have hw := WriteHeader_eq StatusCreated
    (t ++ [Event.findByUsername req.Username] ++
      [Event.add (customerNew deps.bcrypt deps.uuid req.Username req.Password).1])
    (Or.inr (by decide))
  have hf : (NewCreateHandler deps repo).Func r t
      = (Outcome.ret (), t ++ [
          Event.findByUsername req.Username,
          Event.add (customerNew deps.bcrypt deps.uuid req.Username req.Password).1,
          Event.writeHeader 201]) := by
    rw [createFunc_eq deps repo r req t hdec, hv]
    simp only [Go.bind, Repository.Add, hadd, hw]
    simp [StatusCreated]
  exact recoverPanicMiddleware_ret _ r t _ hf

/-- C21: for every `POST /customers` request whose body decodes to a username
that is a valid email address for which `FindByUsername` returns an existing
customer, on a writer whose header was not yet written the callback returns
with status 400 and `validation_errors.username` equal to
`customers already exists with the given username`; the lookup is the only
call on the repository, `Add` is not called.  When `FindByUsername` returns
no customer and no error, the uniqueness rule reports no error. -/
theorem create_existing_username (deps : CreateDeps) (repo : Repository) (r : Request)
    (req : CreateRequest) (t : List Event) (c : Customer)
    (hfresh : (response t).wroteHeader = false)
    (hdec : deps.decode r.body = Except.ok req)
    (hne : req.Username ≠ "") (hemail : deps.isEmail req.Username = true)
    (hfind : repo.find t req.Username = Outcome.ret (Except.ok (some c))) :
    ((registeredRoute (NewCreateHandler deps repo)).callback r t).1 = Outcome.ret () ∧
    (response ((registeredRoute (NewCreateHandler deps repo)).callback r t).2).code = 400 ∧
    fieldMessage (response ((registeredRoute (NewCreateHandler deps repo)).callback r t).2)
      "username" = some "customers already exists with the given username" ∧
    findCalls ((registeredRoute (NewCreateHandler deps repo)).callback r t).2
      = findCalls t ++ [req.Username] ∧
    addCalls ((registeredRoute (NewCreateHandler deps repo)).callback r t).2 = addCalls t ∧
    (∀ (storage : Repository) (value : String) (s : List Event),
      storage.find s value = Outcome.ret (Except.ok none) →
      usernameUniqueRule storage value s
        = (Outcome.ret RuleResult.pass, s ++ [Event.findByUsername value])) := by
  have h0 : req.Username.utf8ByteSize ≠ 0 := fun h => hne ((utf8ByteSize_eq_zero_iff _).mp h)
  have hu := validate_username_lookup deps repo req.Username t h0 hemail
  rw [hfind] at hu
  obtain ⟨errs, hv, hlook⟩ := Validate_create_username_fails deps repo req t _ errUserExists hu
  have hfresh1 : (response (t ++ [Event.findByUsername req.Username])).wroteHeader = false := by
    rw [response_findByUsername]; exact hfresh
  obtain ⟨ha, hf⟩ := RespondValidationFailed_calls errs (t ++ [Event.findByUsername req.Username])
  rw [create_callback_invalid deps repo r req t _ errs hdec hv,
    RespondValidationFailed_response errs _ hfresh1]
  refine ⟨by rw [RespondValidationFailed_eq], rfl, ?_, ?_, ?_, ?_⟩
  · show (errs.lookup "username").map (fun e => e.text)
      = some "customers already exists with the given username"
    rw [hlook]; rfl
  · rw [hf]; simp [findCalls, List.filterMap_append]
  · rw [ha, addCalls_findByUsername]
  · intro storage value s hs
    simp only [usernameUniqueRule, bind, Go.bind, Repository.FindByUsername, hs, pure, Go.pure]

/-- A username that the repository already holds. -/
theorem create_existing_username_witness :
    (response ([] : List Event)).wroteHeader = false ∧
      (fixedDeps "a@b.c" "secret1").decode postCustomers.body
        = Except.ok { Username := "a@b.c", Password := "secret1" } ∧
      ("a@b.c" : String) ≠ "" ∧
      (response ((registeredRoute (NewCreateHandler (fixedDeps "a@b.c" "secret1") takenRepo)).callback
        postCustomers []).2).code = 400 :=
  ⟨rfl, rfl, by decide,
    (create_existing_username (fixedDeps "a@b.c" "secret1") takenRepo postCustomers
      { Username := "a@b.c", Password := "secret1" } []
      { id := 7, username := "a@b.c", passwordHash := "" } rfl rfl (by decide) rfl rfl).2.1⟩

/-- The response after the lookup, the call of `Add` and the status 201 on a
writer whose header was not yet written. -/
theorem response_created (t : List Event) (u : String) (c : Option Customer)
    (hfresh : (response t).wroteHeader = false) :
    (response (t ++ [Event.findByUsername u, Event.add c, Event.writeHeader 201])).code = 201 ∧
    (response (t ++ [Event.findByUsername u, Event.add c, Event.writeHeader 201])).body = [] := by
  have hb := response_body_of_fresh t hfresh
  rw [response_append]
  simp only [List.foldl_cons, List.foldl_nil, Response.step, hfresh, Bool.false_eq_true,
    if_false, hb, and_self]

/-- When `app.Validate` returns nil for the create request, the username
was looked up once and nothing else happened. -/
theorem Validate_create_none (deps : CreateDeps) (repo : Repository) (req : CreateRequest)
    (t t1 : List Event)
    (hv : Validate [
        { name := "username", value := req.Username,
          rules := [Required, Email deps.isEmail, usernameUniqueRule repo] },
        { name := "password", value := req.Password,
          rules := [Required, Length minPassLen maxPassLen] }] t = (Outcome.ret none, t1)) :
    t1 = t ++ [Event.findByUsername req.Username] ∧
      req.Username ≠ "" ∧ deps.isEmail req.Username = true ∧
      repo.find t req.Username = Outcome.ret (Except.ok none) ∧
      (6 ≤ req.Password.utf8ByteSize ∧ req.Password.utf8ByteSize ≤ 256) := by
  cases hu : validationValidate req.Username
      [Required, Email deps.isEmail, usernameUniqueRule repo] t with
  | mk ru t2 =>
    have hv2 := Validate_create deps repo req t t2 ru hu
    rw [hv] at hv2
    have hpass : ru = Outcome.ret RuleResult.pass ∧ t1 = t2 ∧
        (6 ≤ req.Password.utf8ByteSize ∧ req.Password.utf8ByteSize ≤ 256) := by
      cases ru with
      | panic v => simp at hv2
      | ret res =>
        cases res with
        | internal e => simp at hv2
        | fail eu =>
          by_cases h0 : req.Password.utf8ByteSize = 0
          · simp [h0] at hv2
          · by_cases hr : 6 ≤ req.Password.utf8ByteSize ∧ req.Password.utf8ByteSize ≤ 256
            · simp [h0, hr] at hv2
            · simp [h0, hr] at hv2
        | pass =>
          by_cases h0 : req.Password.utf8ByteSize = 0
          · simp [h0] at hv2
          · by_cases hr : 6 ≤ req.Password.utf8ByteSize ∧ req.Password.utf8ByteSize ≤ 256
            · simp only [h0, hr, and_self, if_true, if_false, Prod.mk.injEq, true_and] at hv2
              exact ⟨rfl, hv2, hr⟩
            · simp [h0, hr] at hv2
    obtain ⟨hru, ht, hlen⟩ := hpass
    subst hru
    subst ht
    by_cases h0 : req.Username.utf8ByteSize = 0
    · rw [validate_username_blank deps repo req.Username t h0] at hu
      simp at hu
    · have hne : req.Username ≠ "" := fun h => h0 ((utf8ByteSize_eq_zero_iff _).mpr h)
      by_cases he : deps.isEmail req.Username = true
      · rw [validate_username_lookup deps repo req.Username t h0 he] at hu
        cases hf : repo.find t req.Username with
        | panic v => rw [hf] at hu; simp at hu
        | ret res =>
          rw [hf] at hu
          cases res with
          | error e => simp at hu
          | ok c =>
            cases c with
            | some c => simp at hu
            | none =>
              simp only [Prod.mk.injEq, true_and] at hu
              exact ⟨hu.symm, hne, he, rfl, hlen⟩
      · have he2 : deps.isEmail req.Username = false := by simpa using he
        rw [validate_username_no_email deps repo req.Username t h0 he2] at hu
        simp at hu

theorem utf8ByteSize_replicate (n : Nat) (c : Char) :
    (String.mk (List.replicate n c)).utf8ByteSize = n * c.utf8Size := by
  show String.utf8ByteSize.go (List.replicate n c) = n * c.utf8Size
  induction n with
  | zero => simp [String.utf8ByteSize.go]
  | succ k ih =>
    rw [List.replicate_succ, String.utf8ByteSize.go, ih]
    ring

/-- C22 as stated fails: a password of 129 characters, each of two bytes,
lies within 6 to 256 characters, but `validation.Length` counts its 258
bytes: with a free email address as username the response is 400 with a
validation error for the password, and `Add` is not called. -/
theorem create_multibyte_password_rejected :
    multibytePassword.length = 129 ∧ multibytePassword.utf8ByteSize = 258 ∧
      (fixedDeps "a@b.c" multibytePassword).decode postCustomers.body
        = Except.ok { Username := "a@b.c", Password := multibytePassword } ∧
      (response ((registeredRoute
        (NewCreateHandler (fixedDeps "a@b.c" multibytePassword) emptyRepo)).callback
          postCustomers []).2).code = 400 ∧
      fieldMessage (response ((registeredRoute
        (NewCreateHandler (fixedDeps "a@b.c" multibytePassword) emptyRepo)).callback
          postCustomers []).2) "password" = some "the length must be between 6 and 256" ∧
      addCalls ((registeredRoute
        (NewCreateHandler (fixedDeps "a@b.c" multibytePassword) emptyRepo)).callback
          postCustomers []).2 = [] := by
  have hlen : multibytePassword.utf8ByteSize = 258 := by
    rw [multibytePassword, utf8ByteSize_replicate]; decide
  have hs : lookupSettles (fixedDeps "a@b.c" multibytePassword) emptyRepo [] "a@b.c" :=
    Or.inr (Or.inr ⟨none, rfl⟩)
  obtain ⟨ru, t1, hu, hint, hresp, hadd, -⟩ :=
    validate_username_settled (fixedDeps "a@b.c" multibytePassword) emptyRepo "a@b.c" [] hs
  obtain ⟨errs, hv, hlook, -⟩ := Validate_create_password_fails
    (fixedDeps "a@b.c" multibytePassword) emptyRepo
    { Username := "a@b.c", Password := multibytePassword } [] t1 ru
    ⟨"the length must be between 6 and 256"⟩ hu hint (by simp only [hlen]; decide)
  have hfresh1 : (response t1).wroteHeader = false := by rw [hresp]; rfl
  refine ⟨rfl, hlen, rfl, ?_⟩
  rw [create_callback_invalid (fixedDeps "a@b.c" multibytePassword) emptyRepo postCustomers
      { Username := "a@b.c", Password := multibytePassword } [] t1 errs rfl hv,
    RespondValidationFailed_response errs t1 hfresh1]
  obtain ⟨ha, -⟩ := RespondValidationFailed_calls errs t1
  refine ⟨rfl, ?_, by rw [ha, hadd]; rfl⟩
  show (errs.lookup "password").map (fun e => e.text)
    = some "the length must be between 6 and 256"
  rw [hlook]; rfl

/-- C22, amended: for every `POST /customers` request whose body decodes to a
username that is a valid email address for which `FindByUsername` returns no
customer and no error, and to a password whose length in bytes is 6 to 256,
when `Add` returns (with or without an error), on a writer whose header was
not yet written the callback returns with status 201 and an empty body, and
`Add` is called exactly once, with the customer `customer.New` returns; when
hashing the password succeeds this is a customer whose `Username()` is the
username of the request. -/
theorem create_valid_request (deps : CreateDeps) (repo : Repository) (r : Request)
    (req : CreateRequest) (t : List Event) (res : Option Err)
    (hfresh : (response t).wroteHeader = false)
    (hdec : deps.decode r.body = Except.ok req)
    (hne : req.Username ≠ "") (hemail : deps.isEmail req.Username = true)
    (hfind : repo.find t req.Username = Outcome.ret (Except.ok none))
    (hlen : 6 ≤ req.Password.utf8ByteSize ∧ req.Password.utf8ByteSize ≤ 256)
    (hadd : repo.add (t ++ [Event.findByUsername req.Username])
      (customerNew deps.bcrypt deps.uuid req.Username req.Password).1 = Outcome.ret res) :
    ((registeredRoute (NewCreateHandler deps repo)).callback r t).1 = Outcome.ret () ∧
    (response ((registeredRoute (NewCreateHandler deps repo)).callback r t).2).code = 201 ∧
    (response ((registeredRoute (NewCreateHandler deps repo)).callback r t).2).body = [] ∧
    addCalls ((registeredRoute (NewCreateHandler deps repo)).callback r t).2
      = addCalls t ++ [(customerNew deps.bcrypt deps.uuid req.Username req.Password).1] ∧
    (∀ hash, deps.bcrypt req.Password = Except.ok hash →
      ∃ c, (customerNew deps.bcrypt deps.uuid req.Username req.Password).1 = some c ∧
        c.Username = req.Username) := by
  rw [create_callback_valid deps repo r req t res hdec hne hemail hfind hlen hadd]
  obtain ⟨hc, hb⟩ := response_created t req.Username
    (customerNew deps.bcrypt deps.uuid req.Username req.Password).1 hfresh
  refine ⟨rfl, hc, hb, ?_, ?_⟩
  · simp [addCalls, List.filterMap_append]
  · intro hash hh
    exact ⟨{ id := deps.uuid, username := req.Username, passwordHash := hash },
      by simp only [customerNew, hh], rfl⟩

/-- A free email address and a password of seven bytes on an empty
repository. -/
theorem create_valid_request_witness :
    (response ([] : List Event)).wroteHeader = false ∧
      (fixedDeps "a@b.c" "secret1").decode postCustomers.body
        = Except.ok { Username := "a@b.c", Password := "secret1" } ∧
      ("a@b.c" : String) ≠ "" ∧
      (6 ≤ ("secret1" : String).utf8ByteSize ∧ ("secret1" : String).utf8ByteSize ≤ 256) ∧
      (response ((registeredRoute (NewCreateHandler (fixedDeps "a@b.c" "secret1") emptyRepo)).callback
        postCustomers []).2).code = 201 ∧
      addCalls ((registeredRoute (NewCreateHandler (fixedDeps "a@b.c" "secret1") emptyRepo)).callback
        postCustomers []).2
        = [some { id := 1, username := "a@b.c", passwordHash := "secret1" }] :=
  ⟨rfl, rfl, by decide, by decide,
    (create_valid_request (fixedDeps "a@b.c" "secret1") emptyRepo postCustomers
      { Username := "a@b.c", Password := "secret1" } [] none rfl rfl (by decide) rfl rfl
      (by decide) rfl).2.1,
    (create_valid_request (fixedDeps "a@b.c" "secret1") emptyRepo postCustomers
      { Username := "a@b.c", Password := "secret1" } [] none rfl rfl (by decide) rfl rfl
      (by decide) rfl).2.2.2.1⟩

/-- C24: for every `POST /customers` request that passes validation
(`app.Validate` returns nil), when `Add` returns an error the callback still
returns after `WriteHeader(201)`: on a writer whose header was not yet
written the status is 201 and the body is empty, nothing is logged and the
only effects are the lookup of the username, the call of `Add` and the
status. -/
theorem create_add_error_ignored (deps : CreateDeps) (repo : Repository) (r : Request)
    (req : CreateRequest) (t t1 : List Event) (err : Err)
    (hfresh : (response t).wroteHeader = false)
    (hdec : deps.decode r.body = Except.ok req)
    (hv : Validate [
        { name := "username", value := req.Username,
          rules := [Required, Email deps.isEmail, usernameUniqueRule repo] },
        { name := "password", value := req.Password,
          rules := [Required, Length minPassLen maxPassLen] }] t = (Outcome.ret none, t1))
    (hadd : repo.add t1 (customerNew deps.bcrypt deps.uuid req.Username req.Password).1
      = Outcome.ret (some err)) :
    (registeredRoute (NewCreateHandler deps repo)).callback r t
        = (Outcome.ret (), t ++ [
            Event.findByUsername req.Username,
            Event.add (customerNew deps.bcrypt deps.uuid req.Username req.Password).1,
            Event.writeHeader 201]) ∧
    (response ((registeredRoute (NewCreateHandler deps repo)).callback r t).2).code = 201 ∧
    (response ((registeredRoute (NewCreateHandler deps repo)).callback r t).2).body = [] ∧
    logsOf ((registeredRoute (NewCreateHandler deps repo)).callback r t).2 = logsOf t := by
  obtain ⟨ht1, hne, hemail, hfind, hlen⟩ := Validate_create_none deps repo req t t1 hv
  subst ht1
  have he := create_callback_valid deps repo r req t (some err) hdec hne hemail hfind hlen hadd
  obtain ⟨hc, hb⟩ := response_created t req.Username
    (customerNew deps.bcrypt deps.uuid req.Username req.Password).1 hfresh
  rw [he]
  refine ⟨rfl, hc, hb, ?_⟩
  simp [logsOf, List.filterMap_append]

/-- A valid request on a repository whose `Add` fails. -/
theorem create_add_error_ignored_witness :
    (response ([] : List Event)).wroteHeader = false ∧
      (fixedDeps "a@b.c" "secret1").decode postCustomers.body
        = Except.ok { Username := "a@b.c", Password := "secret1" } ∧
      failingAddRepo.add [Event.findByUsername "a@b.c"]
          (customerNew (fixedDeps "a@b.c" "secret1").bcrypt (fixedDeps "a@b.c" "secret1").uuid
            "a@b.c" "secret1").1
        = Outcome.ret (some (errorsNew "unable to create customers")) ∧
      (response ((registeredRoute
        (NewCreateHandler (fixedDeps "a@b.c" "secret1") failingAddRepo)).callback
          postCustomers []).2).code = 201 ∧
      logsOf ((registeredRoute
        (NewCreateHandler (fixedDeps "a@b.c" "secret1") failingAddRepo)).callback
          postCustomers []).2 = [] :=
  ⟨rfl, rfl, rfl,
    (create_add_error_ignored (fixedDeps "a@b.c" "secret1") failingAddRepo postCustomers
      { Username := "a@b.c", Password := "secret1" } [] [Event.findByUsername "a@b.c"]
      (errorsNew "unable to create customers") rfl rfl rfl rfl).2.1,
    (create_add_error_ignored (fixedDeps "a@b.c" "secret1") failingAddRepo postCustomers
      { Username := "a@b.c", Password := "secret1" } [] [Event.findByUsername "a@b.c"]
      (errorsNew "unable to create customers") rfl rfl rfl rfl).2.2.2⟩


/-! ## `app.Validate` on arbitrary fields -/

theorem allPass_append (xs ys : List (Go RuleResult)) : ∀ t : List Event,
    allPass (xs ++ ys) t = (allPass xs t).bind (allPass ys) := by
  induction xs with
  | nil => intro t; rfl
  | cons c rest ih =>
    intro t
    simp only [List.cons_append, allPass]
    cases hc : c t with
    | mk o t1 =>
      cases o with
      | panic v => rfl
      | ret res => cases res <;> simp [ih]

/-- The rules of a field report nothing exactly when each of them passes. -/
theorem validationValidate_pass_iff (value : String) (rules : List Rule) :
    ∀ t t1 : List Event,
      validationValidate value rules t = (Outcome.ret RuleResult.pass, t1) ↔
        allPass (rules.map (fun rule => rule value)) t = some t1 := by
  induction rules with
  | nil =>
    intro t t1
    simp [validationValidate, Go.pure, allPass]
  | cons rule rest ih =>
    intro t t1
    simp only [validationValidate, Go.bind, List.map_cons, allPass]
    cases hc : rule value t with
    | mk o t2 =>
      cases o with
      | panic v => simp
      | ret res =>
        cases res with
        | pass => exact ih t2 t1
        | fail e => simp [Go.pure]
        | internal e => simp [Go.pure]

theorem assign_ne_nil {α : Type} (k : String) (v : α) (l : List (String × α)) :
    assign k v l ≠ [] := by
  cases l with
  | nil => simp [assign]
  | cons p rest =>
    obtain ⟨k1, v1⟩ := p
    simp only [assign]
    split <;> simp

/-- The loop of `ValidateStruct` ends with nil exactly when it starts with no
error and every rule of every field passes. -/
theorem validateStructLoop_valid_iff (fields : List FieldRules) :
    ∀ (errs : Errors) (t t1 : List Event),
      validateStructLoop fields errs t = (Outcome.ret ValidateResult.valid, t1) ↔
        errs = [] ∧ allPass (checksOf fields) t = some t1 := by
  induction fields with
  | nil =>
    intro errs t t1
    cases errs with
    | nil => simp [validateStructLoop, Go.pure, checksOf, allPass]
    | cons p rest => simp [validateStructLoop, Go.pure]
  | cons fr rest ih =>
    intro errs t t1
    have hchecks : checksOf (fr :: rest)
        = fr.rules.map (fun rule => rule fr.value) ++ checksOf rest := by
      simp [checksOf]
    rw [hchecks, allPass_append]
    simp only [validateStructLoop, Go.bind]
    cases hc : validationValidate fr.value fr.rules t with
    | mk o t2 =>
      have hnone : o ≠ Outcome.ret RuleResult.pass →
          allPass (fr.rules.map (fun rule => rule fr.value)) t = none := by
        intro ho
        cases hp : allPass (fr.rules.map (fun rule => rule fr.value)) t with
        | none => rfl
        | some t3 =>
          have := (validationValidate_pass_iff fr.value fr.rules t t3).mpr hp
          rw [hc] at this
          exact absurd (congrArg Prod.fst this) ho
      cases o with
      | panic v => simp [hnone (by simp)]
      | ret res =>
        cases res with
        | pass =>
          have hp := (validationValidate_pass_iff fr.value fr.rules t t2).mp hc
          rw [hp]
          exact ih errs t2 t1
        | fail e =>
          rw [hnone (by simp)]
          have := ih (assign fr.name e errs) t2 t1
          simp [this, assign_ne_nil]
        | internal e => simp [hnone (by simp), Go.pure]

/-- The result of `app.Validate` is nil exactly when every rule of every
field passes. -/
theorem Validate_nil_iff (fields : List FieldRules) (t t1 : List Event) :
    Validate fields t = (Outcome.ret none, t1) ↔ allPass (checksOf fields) t = some t1 := by
  have h := validateStructLoop_valid_iff fields [] t t1
  simp only [true_and] at h
  rw [← h]
  simp only [Validate, ValidateStruct, bind, Go.bind]
  cases hc : validateStructLoop fields [] t with
  | mk o t2 =>
    cases o with
    | panic v => simp
    | ret res =>
      cases res <;> simp [pure, Go.pure, goPanic]

theorem failuresOf_ne_nil (vs : List (String × Outcome RuleResult)) :
    ∀ errs : Errors, errs ≠ [] → failuresOf vs errs ≠ [] := by
  induction vs with
  | nil => intro errs h; exact h
  | cons v rest ih =>
    intro errs h
    simp only [failuresOf, List.foldl_cons]
    apply ih
    split
    · exact assign_ne_nil _ _ _
    · exact h

theorem failuresOf_ne_nil_of_fail (vs : List (String × Outcome RuleResult)) :
    ∀ errs : Errors, (∃ v ∈ vs, ∃ e, v.2 = Outcome.ret (RuleResult.fail e)) →
      failuresOf vs errs ≠ [] := by
  induction vs with
  | nil => intro errs h; obtain ⟨v, hv, _⟩ := h; simp at hv
  | cons v rest ih =>
    intro errs h
    obtain ⟨w, hw, e, he⟩ := h
    rcases List.mem_cons.mp hw with hw | hw
    · subst hw
      simp only [failuresOf, List.foldl_cons, he]
      exact failuresOf_ne_nil rest _ (assign_ne_nil _ _ _)
    · simp only [failuresOf, List.foldl_cons]
      exact ih _ ⟨w, hw, e, he⟩

/-- When every verdict is a pass or a user-input failure, the loop of
`ValidateStruct` returns the failures, or nil when there is none. -/
theorem validateStructLoop_user (fields : List FieldRules) :
    ∀ (errs : Errors) (t : List Event),
      (∀ v ∈ verdicts fields t,
        v.2 = Outcome.ret RuleResult.pass ∨ ∃ e, v.2 = Outcome.ret (RuleResult.fail e)) →
      ∃ t1, validateStructLoop fields errs t
        = (Outcome.ret (if (failuresOf (verdicts fields t) errs).length > 0
            then ValidateResult.errors (failuresOf (verdicts fields t) errs)
            else ValidateResult.valid), t1) := by
  induction fields with
  | nil => intro errs t _; exact ⟨t, rfl⟩
  | cons fr rest ih =>
    intro errs t h
    simp only [validateStructLoop, Go.bind]
    simp only [verdicts] at h ⊢
    cases hc : validationValidate fr.value fr.rules t with
    | mk o t2 =>
      rw [hc] at h
      cases o with
      | panic v =>
        have := h _ (List.mem_singleton.mpr rfl)
        simp at this
      | ret res =>
        cases res with
        | pass =>
          simp only at h ⊢
          exact ih errs t2 (fun v hv => h v (List.mem_cons_of_mem _ hv))
        | fail e =>
          simp only at h ⊢
          exact ih (assign fr.name e errs) t2 (fun v hv => h v (List.mem_cons_of_mem _ hv))
        | internal e =>
          have := h _ (List.mem_singleton.mpr rfl)
          simp at this

/-- When a verdict is an internal error, the loop of `ValidateStruct` returns
it. -/
theorem validateStructLoop_internal (fields : List FieldRules) :
    ∀ (errs : Errors) (t : List Event) (name : String) (e : Err),
      (name, Outcome.ret (RuleResult.internal e)) ∈ verdicts fields t →
      ∃ t1, validateStructLoop fields errs t = (Outcome.ret (ValidateResult.internal e), t1) := by
  induction fields with
  | nil => intro errs t name e h; simp [verdicts] at h
  | cons fr rest ih =>
    intro errs t name e h
    simp only [validateStructLoop, Go.bind]
    simp only [verdicts] at h
    cases hc : validationValidate fr.value fr.rules t with
    | mk o t2 =>
      rw [hc] at h
      cases o with
      | panic v => simp at h
      | ret res =>
        cases res with
        | pass =>
          simp only [List.mem_cons, Prod.mk.injEq] at h ⊢
          rcases h with h | h
          · exact absurd h.2 (by simp)
          · exact ih errs t2 name e h
        | fail e2 =>
          simp only [List.mem_cons, Prod.mk.injEq] at h ⊢
          rcases h with h | h
          · exact absurd h.2 (by simp)
          · exact ih _ t2 name e h
        | internal e2 =>
          simp only [List.mem_singleton, Prod.mk.injEq, Outcome.ret.injEq,
            RuleResult.internal.injEq] at h
          obtain ⟨_, h2⟩ := h
          subst h2
          exact ⟨t2, rfl⟩

/-- The callback of the create handler when the lookup of the username
returns an error. -/
theorem create_callback_lookup_fails (deps : CreateDeps) (repo : Repository) (r : Request)
    (req : CreateRequest) (t : List Event) (err : Err)
    (hdec : deps.decode r.body = Except.ok req)
    (hne : req.Username ≠ "") (hemail : deps.isEmail req.Username = true)
    (hfind : repo.find t req.Username = Outcome.ret (Except.error err)) :
    (registeredRoute (NewCreateHandler deps repo)).callback r t
      = (Outcome.ret (), t ++ [Event.findByUsername req.Username] ++ [
          Event.writeHeader 500,
          Event.log { level := Level.error, message := "application panicked",
                      fields := [Field.error err] }]) := by
  have h0 : req.Username.utf8ByteSize ≠ 0 := fun h => hne ((utf8ByteSize_eq_zero_iff _).mp h)
  have hu := validate_username_lookup deps repo req.Username t h0 hemail
  rw [hfind] at hu
  have hv := Validate_create deps repo req t _ _ hu
  have hf : (NewCreateHandler deps repo).Func r t
      = (Outcome.panic (PanicValue.err err), t ++ [Event.findByUsername req.Username]) := by
    rw [createFunc_eq deps repo r req t hdec, hv]
  exact recoverPanicMiddleware_panic_eq _ r t _ _ hf (by simp)

/-- C23: `app.Validate` returns nil exactly when every rule of every field
passes; when the verdict on every field is a pass or a user-input failure
and at least one is a failure, it returns the non-empty `validation.Errors`
that maps the names of the failing fields to their errors; when the verdict
on a field is an internal error it panics with that error and does not
return.  Consequently, for every `POST /customers` request whose body decodes
to a username that is a valid email address for which `FindByUsername`
returns an error, on a writer whose header was not yet written the callback
returns after the lookup, `WriteHeader(500)` and the log entry
`application panicked` with the error of the lookup: the status is 500, the
body is empty (no validation response is written) and `Add` is not called. -/
theorem Validate_nil_errors_or_panic (fields : List FieldRules) (t : List Event)
    (deps : CreateDeps) (repo : Repository) (r : Request) (req : CreateRequest)
    (s : List Event) (hfresh : (response s).wroteHeader = false) :
    (∀ t1, Validate fields t = (Outcome.ret none, t1) ↔ allPass (checksOf fields) t = some t1) ∧
    ((∀ v ∈ verdicts fields t,
        v.2 = Outcome.ret RuleResult.pass ∨ ∃ e, v.2 = Outcome.ret (RuleResult.fail e)) →
      (∃ v ∈ verdicts fields t, ∃ e, v.2 = Outcome.ret (RuleResult.fail e)) →
      failuresOf (verdicts fields t) [] ≠ [] ∧
      ∃ t1, Validate fields t
        = (Outcome.ret (some (failuresOf (verdicts fields t) [])), t1)) ∧
    (∀ name e, (name, Outcome.ret (RuleResult.internal e)) ∈ verdicts fields t →
      ∃ t1, Validate fields t = (Outcome.panic (PanicValue.err e), t1)) ∧
    (∀ err, deps.decode r.body = Except.ok req →
      req.Username ≠ "" → deps.isEmail req.Username = true →
      repo.find s req.Username = Outcome.ret (Except.error err) →
      (registeredRoute (NewCreateHandler deps repo)).callback r s
          = (Outcome.ret (), s ++ [
              Event.findByUsername req.Username,
              Event.writeHeader 500,
              Event.log { level := Level.error, message := "application panicked",
                          fields := [Field.error err] }]) ∧
        (response ((registeredRoute (NewCreateHandler deps repo)).callback r s).2).code = 500 ∧
        (response ((registeredRoute (NewCreateHandler deps repo)).callback r s).2).body = [] ∧
        addCalls ((registeredRoute (NewCreateHandler deps repo)).callback r s).2
          = addCalls s) := by
  refine ⟨fun t1 => Validate_nil_iff fields t t1, ?_, ?_, ?_⟩
  · intro hall hsome
    have hne := failuresOf_ne_nil_of_fail (verdicts fields t) [] hsome
    obtain ⟨t1, h1⟩ := validateStructLoop_user fields [] t hall
    have hlen : (failuresOf (verdicts fields t) []).length > 0 :=
      List.length_pos.mpr hne
    rw [if_pos hlen] at h1
    refine ⟨hne, t1, ?_⟩
    simp only [Validate, ValidateStruct, bind, Go.bind, h1, pure, Go.pure]
  · intro name e hmem
    obtain ⟨t1, h1⟩ := validateStructLoop_internal fields [] t name e hmem
    exact ⟨t1, by simp only [Validate, ValidateStruct, bind, Go.bind, h1, goPanic]⟩
  · intro err hdec hne hemail hfind
    have he := create_callback_lookup_fails deps repo r req s err hdec hne hemail hfind
    have hb := response_body_of_fresh s hfresh
    rw [he]
    refine ⟨by simp, ?_, ?_, ?_⟩
    · rw [List.append_assoc, response_append]
      simp only [List.cons_append, List.nil_append, List.foldl_cons, List.foldl_nil,
        Response.step, hfresh, Bool.false_eq_true, if_false]
    · rw [List.append_assoc, response_append]
      simp only [List.cons_append, List.nil_append, List.foldl_cons, List.foldl_nil,
        Response.step, hfresh, Bool.false_eq_true, if_false, hb]
    · simp [addCalls, List.filterMap_append]

/-- A request with an email address as username on a repository whose
lookup fails, and a request whose password has five bytes. -/
theorem Validate_nil_errors_or_panic_witness :
    (response ([] : List Event)).wroteHeader = false ∧
      (response ((registeredRoute
        (NewCreateHandler (fixedDeps "a@b.c" "secret1") unreachableRepo)).callback
          postCustomers []).2).code = 500 ∧
      (∃ t1, Validate [
          { name := "username", value := "a@b.c",
            rules := [Required, usernameUniqueRule unreachableRepo] },
          { name := "password", value := "12345",
            rules := [Required, Length minPassLen maxPassLen] }] []
        = (Outcome.panic (PanicValue.err (errorsNew "unable to fetch customers")), t1)) :=
  ⟨rfl,
    ((Validate_nil_errors_or_panic [] [] (fixedDeps "a@b.c" "secret1") unreachableRepo
      postCustomers { Username := "a@b.c", Password := "secret1" } [] rfl).2.2.2
        (errorsNew "unable to fetch customers") rfl (by decide) rfl rfl).2.1,
    (Validate_nil_errors_or_panic [
          { name := "username", value := "a@b.c",
            rules := [Required, usernameUniqueRule unreachableRepo] },
          { name := "password", value := "12345",
            rules := [Required, Length minPassLen maxPassLen] }] []
      (fixedDeps "a@b.c" "secret1") unreachableRepo
      postCustomers { Username := "a@b.c", Password := "secret1" } [] rfl).2.2.1
        "username" (errorsNew "unable to fetch customers") (List.mem_singleton.mpr rfl)⟩

/-! ## `Respond` on data that cannot be encoded -/

/-- When the data cannot be encoded, `Respond` has written the status before
it learns so: it logs the failure and calls `WriteHeader(500)`, which the
writer ignores. -/
theorem Respond_encode_failure (status : Int) (d : Value) (e : Err) (t : List Event)
    (hcode : 100 ≤ status ∧ status ≤ 999) (hfresh : (response t).wroteHeader = false)
    (he : d.encodeErr = some e) :
    Respond status (some d) t
        = (Outcome.ret (), t ++ [
            Event.headerSet "Content-Type" "application/json",
            Event.writeHeader status,
            Event.log { level := Level.error, message := "unable to encode response",
                        fields := [Field.error e] },
            Event.writeHeader 500]) ∧
      (response (Respond status (some d) t).2).code = status ∧
      (response (Respond status (some d) t).2).body = [] := by
  have hw := WriteHeader_eq status (t ++ [Event.headerSet "Content-Type" "application/json"])
    (by right; exact hcode)
  have hw2 := WriteHeader_eq StatusInternalServerError
    (t ++ [Event.headerSet "Content-Type" "application/json", Event.writeHeader status,
      Event.log ⟨Level.error, "unable to encode response", [Field.error e]⟩])
    (by right; decide)
  have heq : Respond status (some d) t = (Outcome.ret (),
      t ++ [Event.headerSet "Content-Type" "application/json", Event.writeHeader status,
        Event.log ⟨Level.error, "unable to encode response", [Field.error e]⟩,
        Event.writeHeader StatusInternalServerError]) := by
    simp only [Respond, bind, Go.bind, headerSet, emit, hw, jsonEncode, he, logError,
      List.append_assoc, List.singleton_append, List.cons_append, List.nil_append] at hw2 ⊢
    rw [hw2]
  have hb := response_body_of_fresh t hfresh
  rw [heq]
  refine ⟨rfl, ?_, ?_⟩
  · rw [response_append]
    simp only [List.foldl_cons, List.foldl_nil, Response.step, hfresh, Bool.false_eq_true,
      if_false, if_true]
  · rw [response_append]
    simp only [List.foldl_cons, List.foldl_nil, Response.step, hfresh, Bool.false_eq_true,
      if_false, if_true, hb]

/-- C25 (the code departs from it): `Respond(200, d)` with a value `d` that
`json.Marshal` rejects, on a fresh recorder, logs `unable to encode response`
as an error and calls `WriteHeader(500)`, but only after `WriteHeader(200)`:
the status of the response is 200 with an empty body, not 500. -/
theorem Respond_encode_failure_keeps_status :
    (Value.other 0 (some (errorsNew "json: unsupported type: chan int"))).encodeErr
        = some (errorsNew "json: unsupported type: chan int") ∧
      Respond 200 (some (Value.other 0 (some (errorsNew "json: unsupported type: chan int")))) []
        = (Outcome.ret (), [
            Event.headerSet "Content-Type" "application/json",
            Event.writeHeader 200,
            Event.log { level := Level.error, message := "unable to encode response",
                        fields := [Field.error (errorsNew "json: unsupported type: chan int")] },
            Event.writeHeader 500]) ∧
      (response (Respond 200
        (some (Value.other 0 (some (errorsNew "json: unsupported type: chan int")))) []).2).code
        = 200 ∧
      (response (Respond 200
        (some (Value.other 0 (some (errorsNew "json: unsupported type: chan int")))) []).2).body
        = [] ∧
      (response (Respond 200
        (some (Value.other 0 (some (errorsNew "json: unsupported type: chan int")))) []).2).code
        ≠ StatusInternalServerError :=
  ⟨rfl, rfl, rfl, rfl, by decide⟩

end Rest
